import Mathlib

/-!
Verification of the HealthAiTracker OCR metric-extraction engine
(backend/app/services/ocr_service.py) against its natural-language
specification.

The Python source is shallowly embedded: strings are lists of characters,
Python floats are modelled as exact rationals (every float literal the
engine compares against — 0.0, 0.5, 1.0, 9.0, 10000 — is exactly
representable, and the decimal-string parses the engine performs are
monotone, so all comparisons agree), and each regular-expression search of
the source is implemented as a bespoke executable matcher whose doc
comment cites the pattern it implements.  Python re searches are
backtracking leftmost matchers; every matcher below is deterministic and
each doc comment notes why determinism agrees with backtracking for that
particular pattern (the character classes involved are disjoint from the
characters that follow them, so greedy scanning never needs to give
back).  Python dictionaries keep insertion order; the tables below list
entries in source order.
-/

namespace HealthOCR

/-- Strings processed character by character, as Python does. -/
abbrev Str := List Char

/-- Convert a Lean string literal to the character-list representation. -/
def lc (s : String) : Str := s.toList

/-! ## Character classes -/

/-- Python regex whitespace class (ASCII part, the only part our inputs use). -/
def isWs (c : Char) : Bool :=
  c == ' ' || c == '\t' || c == '\n' || c == '\x0d' || c == '\x0b' || c == '\x0c'

/-- ASCII decimal digit, the regex class for the digit shorthand on these inputs. -/
def isDigitC (c : Char) : Bool := 48 ≤ c.toNat && c.toNat ≤ 57

/-- ASCII lowercase letter. -/
def isLatinLower (c : Char) : Bool := 97 ≤ c.toNat && c.toNat ≤ 122

/-- ASCII uppercase letter, the regex class A-Z. -/
def isLatinUpper (c : Char) : Bool := 65 ≤ c.toNat && c.toNat ≤ 90

/-- Cyrillic lowercase а-я (U+0430..U+044F), as in the source regex classes. -/
def isCyrLower (c : Char) : Bool := c.toNat ≥ 0x430 && c.toNat ≤ 0x44F

/-- Cyrillic uppercase А-Я (U+0410..U+042F), as in the source regex classes. -/
def isCyrUpper (c : Char) : Bool := c.toNat ≥ 0x410 && c.toNat ≤ 0x42F

/-- Uppercase letters over the alphabets these documents use (Latin, Cyrillic, Ё). -/
def isUpperAlpha (c : Char) : Bool := isLatinUpper c || isCyrUpper c || c == 'Ё'

/-- Python str.lower restricted to the alphabets these documents use. -/
def toLowerC (c : Char) : Char :=
  if isLatinUpper c then Char.ofNat (c.toNat + 32)
  else if isCyrUpper c then Char.ofNat (c.toNat + 32)
  else if c == 'Ё' then 'ё'
  else c

/-- Python str.upper restricted to the alphabets these documents use. -/
def toUpperC (c : Char) : Char :=
  if isLatinLower c then Char.ofNat (c.toNat - 32)
  else if isCyrLower c then Char.ofNat (c.toNat - 32)
  else if c == 'ё' then 'Ё'
  else c

/-! ## String utilities -/

/-- Python str.lower over the modelled alphabets. -/
def toLowerS (s : Str) : Str := s.map toLowerC

/-- Python str.upper over the modelled alphabets. -/
def toUpperS (s : Str) : Str := s.map toUpperC

/-- Python str.strip with no argument: remove leading and trailing whitespace. -/
def stripL (s : Str) : Str :=
  ((s.dropWhile isWs).reverse.dropWhile isWs).reverse

/-- Does the second list start with the first (needle at the left edge)? -/
def startsW : Str → Str → Bool
  | [], _ => true
  | _ :: _, [] => false
  | a :: as, b :: bs => a == b && startsW as bs

/-- Python substring containment (the in operator on str). -/
def containsS (needle : Str) : Str → Bool
  | [] => startsW needle []
  | hay@(_ :: t) => startsW needle hay || containsS needle t

/-- Python str.split on a single separator character (keeps empty pieces). -/
def splitOnC (sep : Char) : Str → List Str
  | [] => [[]]
  | c :: t =>
    let r := splitOnC sep t
    if c == sep then [] :: r
    else match r with
      | [] => [[c]]
      | p :: ps => (c :: p) :: ps

/-- Python single-character str.replace, a character-wise map. -/
def replaceC (a b : Char) (s : Str) : Str :=
  s.map (fun c => if c == a then b else c)

/-- Python str.replace for multi-character needles, fuel-bounded scan
(fuel is the length of the string, enough for every replacement pass). -/
def replaceSFuel (old new : Str) : Nat → Str → Str
  | 0, s => s
  | _ + 1, [] => []
  | n + 1, s@(c :: t) =>
    if old ≠ [] && startsW old s then new ++ replaceSFuel old new n (s.drop old.length)
    else c :: replaceSFuel old new n t

/-- Python str.replace: replace every occurrence, scanning left to right. -/
def replaceS (old new : Str) (s : Str) : Str := replaceSFuel old new s.length s

/-! ## Numbers

Python float() applied to the strings the engine's regexes capture
(digit runs with at most one decimal point after the comma-to-point
replace) yields an exact decimal fraction, and every comparison the
engine performs is between such fractions, so the values are modelled by
an exact decimal type: an integer numerator over a power of ten, kept
canonical (no trailing decimal zeros) so that equal numbers have equal
representations.  Bridge lemmas below relate its operations to the
rational numbers they denote. -/

/-- An exact decimal fraction, the model of the Python floats the engine
produces and compares. -/
structure Dec where
  num : Int
  exp : Nat
  deriving DecidableEq, Repr

namespace Dec

/-- The rational number a decimal denotes. -/
def toQ (d : Dec) : ℚ := (d.num : ℚ) / (10 : ℚ) ^ d.exp

/-- Canonical-form worker, recursing on the exponent. -/
def canonAux : Int → Nat → Dec
  | n, 0 => ⟨n, 0⟩
  | n, e + 1 => if n % 10 == 0 then canonAux (n / 10) e else ⟨n, e + 1⟩

/-- Canonical form: strip factors of ten shared by numerator and
denominator. -/
def canon (d : Dec) : Dec := canonAux d.num d.exp

/-- Numeric strict order by cross multiplication. -/
def lt (a b : Dec) : Bool := a.num * (10 : Int) ^ b.exp < b.num * (10 : Int) ^ a.exp

/-- Numeric non-strict order by cross multiplication. -/
def le (a b : Dec) : Bool := a.num * (10 : Int) ^ b.exp ≤ b.num * (10 : Int) ^ a.exp

/-- Numeric equality by cross multiplication (Python float equality). -/
def eqv (a b : Dec) : Bool := a.num * (10 : Int) ^ b.exp == b.num * (10 : Int) ^ a.exp

/-- Difference on a common power-of-ten scale. -/
def sub (a b : Dec) : Dec := ⟨a.num * (10 : Int) ^ b.exp - b.num * (10 : Int) ^ a.exp, a.exp + b.exp⟩

/-- Absolute value. -/
def absD (a : Dec) : Dec := ⟨a.num.natAbs, a.exp⟩

/-- Whether the ratio of the first decimal to the second is below one
tenth; for a positive second argument this is the source's relative
tolerance test, cleared of denominators. -/
def ratioLtTenth (x r : Dec) : Bool :=
  10 * x.num * (10 : Int) ^ r.exp < r.num * (10 : Int) ^ x.exp

/-- The integer decimal. -/
def ofNat (n : Nat) : Dec := ⟨n, 0⟩

end Dec

/-- Value of a nonempty all-digit string. -/
def digitsToNat : Str → Option Nat
  | [] => none
  | s =>
    if s.all isDigitC then
      some (s.foldl (fun a c => a * 10 + (c.toNat - '0'.toNat)) 0)
    else none

/-- Python float() on the shapes captured by the value regexes: an integer
part, optionally a point followed by a (possibly empty) fraction.
Returns none on any other shape (the engine never feeds one). -/
def parsePyFloat (s : Str) : Option Dec :=
  match splitOnC '.' s with
  | [a] => (digitsToNat a).map Dec.ofNat
  | [a, b] =>
    match digitsToNat a with
    | none => none
    | some n =>
      if b = [] then some (Dec.ofNat n)
      else match digitsToNat b with
        | none => none
        | some f => some (Dec.canon ⟨(n : Int) * (10 : Int) ^ b.length + f, b.length⟩)
  | _ => none

/-- Python int() on a digit string (used for the scientific-notation exponent). -/
def parsePyInt (s : Str) : Nat := (digitsToNat s).getD 0

/-- Decimal rendering of a natural number, as Python str() renders the int. -/
def natRepr (n : Nat) : Str := (Nat.toDigits 10 n)

/-! ## Python dict values

Each extracted metric is a Python dict; we model it as an association
list in insertion order so that the exact key set is part of the model. -/

/-- A Python value stored in a metric dict: a string or a float. -/
inductive PyVal where
  | vs (v : Str) : PyVal
  | vf (v : Dec) : PyVal
  deriving DecidableEq, Repr

/-- A Python dict in insertion order. -/
abbrev PyDict := List (String × PyVal)

/-- Keys of a dict, in insertion order. -/
def keysOf (d : PyDict) : List String := d.map (·.1)

/-- Dict lookup. -/
def getVal (d : PyDict) (k : String) : Option PyVal :=
  match d.find? (fun p => p.1 == k) with
  | some p => some p.2
  | none => none

/-! ## Generic search combinators

A Python re.search tries the pattern at every start position from the
left and returns the first hit; none of the embedded patterns can match
the empty string, so the empty-suffix attempt is always a failure. -/

/-- Leftmost search: run the position matcher on every suffix, left to right. -/
def searchWith (m : Str → Option α) : Str → Option α
  | [] => none
  | c :: t =>
    match m (c :: t) with
    | some r => some r
    | none => searchWith m t

/-- Boolean leftmost search. -/
def existsAt (m : Str → Bool) : Str → Bool
  | [] => false
  | c :: t => m (c :: t) || existsAt m t

/-- Length of a dropWhile result never exceeds the input length. -/
theorem dropWhile_len_le (p : Char → Bool) : ∀ s : Str, (s.dropWhile p).length ≤ s.length := by
  intro s
  induction s with
  | nil => simp [List.dropWhile]
  | cons c t ih =>
    by_cases h : p c
    · simp [List.dropWhile, h]; omega
    · simp [List.dropWhile, h]

/-! ## Number tokens -/

/-- Greedy token for the regex piece digits, optional point or comma,
digits: the first group of most value patterns.  Greedy agrees with the
backtracking engine because the separator characters never belong to any
class that follows these tokens in the surrounding patterns.  Returns the
token and the rest of the string, or none when the head is not a digit. -/
def numTok (s : Str) : Option (Str × Str) :=
  match s.takeWhile isDigitC, s.dropWhile isDigitC with
  | [], _ => none
  | ds, r =>
    match r with
    | c :: t =>
      if c == '.' || c == ',' then
        some (ds ++ c :: t.takeWhile isDigitC, t.dropWhile isDigitC)
      else some (ds, r)
    | [] => some (ds, [])

/-- Fuel-bounded scan for re.findall of the number token pattern:
leftmost, non-overlapping, greedy.  Each step consumes at least one
character, so fuel equal to the string length never runs out. -/
def findNumsF : Nat → Str → List Str
  | 0, _ => []
  | _, [] => []
  | fuel + 1, c :: t =>
    if isDigitC c then
      match t.dropWhile isDigitC with
      | d :: t2 =>
        if d == '.' || d == ',' then
          ((c :: t).takeWhile isDigitC ++ d :: t2.takeWhile isDigitC) ::
            findNumsF fuel (t2.dropWhile isDigitC)
        else ((c :: t).takeWhile isDigitC) :: findNumsF fuel (d :: t2)
      | [] => [(c :: t).takeWhile isDigitC]
    else findNumsF fuel t

/-- Python re.findall of the number token pattern — exactly how
determine_status collects range bounds. -/
def findNums (s : Str) : List Str := findNumsF s.length s

/-! ## Date and time matchers -/

/-- Separator class for the date patterns: point or slash. -/
def isDateSep (c : Char) : Bool := c == '.' || c == '/'

/-- One-or-two digits followed by a continuation, trying two digits first
as the greedy engine does. -/
def digits12 (k : Str → Bool) : Str → Bool
  | [] => false
  | [a] => isDigitC a && k []
  | a :: b :: r =>
    isDigitC a && ((isDigitC b && k r) || k (b :: r))

/-- Exactly four digits; returns the rest. -/
def digits4 : Str → Option Str
  | a :: b :: c :: d :: r =>
    if isDigitC a && isDigitC b && isDigitC c && isDigitC d then some r else none
  | _ => none

/-- Position matcher for the date shape of one or two digits, a point or
slash, one or two digits, a point or slash, four digits. -/
def matchAtDate1 (s : Str) : Bool :=
  digits12 (fun r1 =>
    match r1 with
    | c :: r2 => isDateSep c && digits12 (fun r3 =>
        match r3 with
        | c2 :: r4 => isDateSep c2 && (digits4 r4).isSome
        | [] => false) r2
    | [] => false) s

/-- Position matcher for the date shape of four digits, a point or slash,
one or two digits, a point or slash, one or two digits. -/
def matchAtDate2 (s : Str) : Bool :=
  match digits4 s with
  | some r1 =>
    match r1 with
    | c :: r2 => isDateSep c && digits12 (fun r3 =>
        match r3 with
        | c2 :: r4 => isDateSep c2 && (match r4 with
            | d :: _ => isDigitC d
            | [] => false)
        | [] => false) r2
    | [] => false
  | none => false

/-- Anchored standalone time: the whole string is one or two digits, a
colon, two digits. -/
def isFullTimeColon (s : Str) : Bool :=
  match s with
  | [a, b, c, d] => isDigitC a && b == ':' && isDigitC c && isDigitC d
  | [a, b, c, d, e] => isDigitC a && isDigitC b && c == ':' && isDigitC d && isDigitC e
  | _ => false

/-- Anchored standalone time with a point instead of the colon. -/
def isFullTimeDot (s : Str) : Bool :=
  match s with
  | [a, b, c, d] => isDigitC a && b == '.' && isDigitC c && isDigitC d
  | [a, b, c, d, e] => isDigitC a && isDigitC b && c == '.' && isDigitC d && isDigitC e
  | _ => false

/-- Position matcher for the full timestamp shape: a date as in
matchAtDate1, at least one whitespace, one or two digits, a colon, two
digits. -/
def matchAtTimestamp (s : Str) : Bool :=
  digits12 (fun r1 =>
    match r1 with
    | c :: r2 => isDateSep c && digits12 (fun r3 =>
        match r3 with
        | c2 :: r4 => isDateSep c2 &&
          (match digits4 r4 with
           | some r5 =>
             (match r5 with
              | w :: _ => isWs w && digits12 (fun r7 =>
                  match r7 with
                  | ':' :: a :: b :: _ => isDigitC a && isDigitC b
                  | [':', a] => isDigitC a && false
                  | _ => false) (r5.dropWhile isWs)
              | [] => false)
           | none => false)
        | [] => false) r2
    | [] => false) s

/-- Two consecutive ASCII uppercase letters anywhere: how the searched
class of two-to-five capitals behaves under re.search. -/
def hasUpperRun2 : Str → Bool
  | a :: b :: t => (isLatinUpper a && isLatinUpper b) || hasUpperRun2 (b :: t)
  | _ => false

/-- Anchored lab-code shape: two to five ASCII capitals, an optional hash
or percent, end of string. -/
def isLabCodeFull (s : Str) : Bool :=
  let ups := s.takeWhile isLatinUpper
  let r := s.dropWhile isLatinUpper
  decide (2 ≤ ups.length) && decide (ups.length ≤ 5) &&
    (r == [] || r == ['#'] || r == ['%'])

/-- Position matcher for the contamination date shape of two digits, a
point, two digits, a point, four digits. -/
def matchAtDDMMYYYY (s : Str) : Bool :=
  match s with
  | a :: b :: p :: c :: d :: q :: e :: f :: g :: h :: _ =>
    isDigitC a && isDigitC b && p == '.' && isDigitC c && isDigitC d &&
      q == '.' && isDigitC e && isDigitC f && isDigitC g && isDigitC h
  | _ => false

/-! ## Word-gap matchers -/

/-- Position matcher for a literal, an optional single non-newline
character, then a second literal (the point-question regex idiom). -/
def matchAtOptAny (a b : Str) (s : Str) : Bool :=
  startsW a s &&
    (let r := s.drop a.length
     startsW b r ||
       (match r with
        | c :: r2 => c ≠ '\n' && startsW b r2
        | [] => false))

/-- Search form of matchAtOptAny. -/
def containsOptAny (a b : Str) (s : Str) : Bool := existsAt (matchAtOptAny a b) s

/-- Position matcher for a literal, at least one whitespace, then a
second literal; the second literal never starts with whitespace, so
greedy whitespace consumption agrees with backtracking. -/
def matchAtWordWsWord (a b : Str) (s : Str) : Bool :=
  startsW a s &&
    (let r := s.drop a.length
     match r with
     | c :: _ => isWs c && startsW b (r.dropWhile isWs)
     | [] => false)

/-- Search form of matchAtWordWsWord. -/
def containsWW (a b : Str) (s : Str) : Bool := existsAt (matchAtWordWsWord a b) s

/-! ## Unit character classes -/

/-- Class of the scientific-notation unit: Cyrillic and Latin letters,
slash, times sign, middle dot, star, caret. -/
def isSciUnitChar (c : Char) : Bool :=
  isCyrLower c || isCyrUpper c || isLatinLower c || isLatinUpper c ||
    c == '/' || c == '×' || c == '·' || c == '*' || c == '^'

/-- Standard unit class: the scientific class plus percent. -/
def isStdUnitChar (c : Char) : Bool := isSciUnitChar c || c == '%'

/-- Enhanced unit class: the standard class plus the degree sign. -/
def isEnhUnitChar (c : Char) : Bool := isStdUnitChar c || c == '°'

/-- Letters-only class (Cyrillic or Latin). -/
def isAlphaChar (c : Char) : Bool :=
  isCyrLower c || isCyrUpper c || isLatinLower c || isLatinUpper c

/-- Letters, slash or percent: the class of the fourth valid-value pattern. -/
def isAlphaSlashPct (c : Char) : Bool := isAlphaChar c || c == '/' || c == '%'

/-- Letters or slash: the class of the scientific valid-value pattern. -/
def isAlphaSlash (c : Char) : Bool := isAlphaChar c || c == '/'

/-! ## Number-plus-unit matchers -/

/-- Position matcher for a number token, optional whitespace, then at
least one character of the given unit class.  The unit classes contain no
digit, point, comma or whitespace, so the greedy number token and
whitespace runs agree with backtracking. -/
def matchAtNumUnit (cls : Char → Bool) (s : Str) : Bool :=
  match numTok s with
  | some (_, r) =>
    match r.dropWhile isWs with
    | c :: _ => cls c
    | [] => false
  | none => false

/-- Search form of matchAtNumUnit. -/
def searchNumUnit (cls : Char → Bool) (s : Str) : Bool := existsAt (matchAtNumUnit cls) s

/-- The literal one-zero, an optional caret, then at least one digit:
shared tail of the scientific-notation patterns.  Returns the exponent
digits and the rest.  When the caret is present the digits must follow
it; the caret-less alternative cannot match a caret, so this is
deterministic. -/
def matchTenExp (s : Str) : Option (Str × Str) :=
  if startsW (lc "10") s then
    let r := s.drop 2
    match r with
    | '^' :: r2 =>
      match r2.takeWhile isDigitC with
      | [] => none
      | ds => some (ds, r2.dropWhile isDigitC)
    | _ =>
      match r.takeWhile isDigitC with
      | [] => none
      | ds => some (ds, r.dropWhile isDigitC)
  else none

/-- Position matcher for the scientific-notation pattern: a number token,
at least one whitespace, one-zero with optional caret and exponent
digits, then at least one scientific-unit character.  Returns the
mantissa, exponent digits and unit run (the three regex groups). -/
def matchAtSci (s : Str) : Option (Str × Str × Str) :=
  match numTok s with
  | some (m, r) =>
    match r with
    | c :: _ =>
      if isWs c then
        match matchTenExp (r.dropWhile isWs) with
        | some (e, r2) =>
          match r2.takeWhile isSciUnitChar with
          | [] => none
          | u => some (m, e, u)
        | none => none
      else none
    | [] => none
  | none => none

/-- Leftmost search for the scientific-notation pattern. -/
def searchSci : Str → Option (Str × Str × Str) := searchWith matchAtSci

/-- Position matcher for the complex multiplier pattern: a number token,
whitespace, a digit run with optional caret and further digits, then at
least one scientific-unit character.  The greedy engine prefers taking
the caret into the multiplier group; if no unit character follows it
falls back to ending the multiplier at the caret, which itself belongs to
the unit class.  Returns mantissa, multiplier group and unit run. -/
def matchAtComplex (s : Str) : Option (Str × Str × Str) :=
  match numTok s with
  | some (m, r) =>
    match r with
    | c :: _ =>
      if isWs c then
        let r2 := r.dropWhile isWs
        match r2.takeWhile isDigitC with
        | [] => none
        | d1 =>
          let r3 := r2.dropWhile isDigitC
          match r3 with
          | '^' :: r4 =>
            let d2 := r4.takeWhile isDigitC
            let r5 := r4.dropWhile isDigitC
            match r5.takeWhile isSciUnitChar with
            | [] =>
              match r3.takeWhile isSciUnitChar with
              | [] => none
              | u2 => some (m, d1, u2)
            | u => some (m, d1 ++ '^' :: d2, u)
          | _ =>
            match r3.takeWhile isSciUnitChar with
            | [] => none
            | u => some (m, d1, u)
      else none
    | [] => none
  | none => none

/-- Leftmost search for the complex multiplier pattern. -/
def searchComplex : Str → Option (Str × Str × Str) := searchWith matchAtComplex

/-- Separator class of the broken-decimal pattern: point, comma or
whitespace. -/
def isSepDec (c : Char) : Bool := c == '.' || c == ',' || isWs c

/-- Position matcher for the broken-decimal pattern: digits, at least one
separator, digits, optional whitespace, at least one standard-unit
character.  Returns the integer digits, fraction digits and unit run. -/
def matchAtDecimal (s : Str) : Option (Str × Str × Str) :=
  match s.takeWhile isDigitC with
  | [] => none
  | d1 =>
    let r1 := s.dropWhile isDigitC
    match r1.takeWhile isSepDec with
    | [] => none
    | _ =>
      let r2 := r1.dropWhile isSepDec
      match r2.takeWhile isDigitC with
      | [] => none
      | d2 =>
        let r3 := r2.dropWhile isDigitC
        match (r3.dropWhile isWs).takeWhile isStdUnitChar with
        | [] => none
        | u => some (d1, d2, u)

/-- Leftmost search for the broken-decimal pattern. -/
def searchDecimal : Str → Option (Str × Str × Str) := searchWith matchAtDecimal

/-- Position matcher for the signal-to-cutoff pattern: the literal
S-slash-C-O, optional whitespace, an equals sign, optional whitespace,
then a number token.  Returns the number. -/
def matchAtSCO (s : Str) : Option Str :=
  if startsW (lc "S/CO") s then
    match (s.drop 4).dropWhile isWs with
    | '=' :: r2 =>
      match numTok (r2.dropWhile isWs) with
      | some (m, _) => some m
      | none => none
    | _ => none
  else none

/-- Leftmost search for the signal-to-cutoff pattern. -/
def searchSCO : Str → Option Str := searchWith matchAtSCO

/-- After-position of the first qualitative alternative: the lowercase
not-detected phrase with a flexible whitespace gap. -/
def afterNeObn (s : Str) : Option Str :=
  if startsW (lc "не") s then
    match s.drop 2 with
    | c :: t =>
      if isWs c then
        let r2 := (c :: t).dropWhile isWs
        if startsW (lc "обнаружено") r2 then some (r2.drop 10) else none
      else none
    | [] => none
  else none

/-- After-position of the second qualitative alternative. -/
def afterObn (s : Str) : Option Str :=
  if startsW (lc "обнаружено") s then some (s.drop 10) else none

/-- Position matcher for the combined qualitative-plus-quantitative
pattern: a qualitative alternative, a lazy gap, then the
signal-to-cutoff pattern.  The lazy gap takes the leftmost later
signal-to-cutoff match; the alternation tries the longer phrase first. -/
def matchAtCombined (s : Str) : Option Str :=
  match afterNeObn s with
  | some r =>
    match searchSCO r with
    | some m => some m
    | none =>
      match afterObn s with
      | some r2 => searchSCO r2
      | none => none
  | none =>
    match afterObn s with
    | some r2 => searchSCO r2
    | none => none

/-- Leftmost search for the combined pattern (run on the lowercased
value, where the uppercase signal-to-cutoff literal can never occur, as
in the source). -/
def searchCombined : Str → Option Str := searchWith matchAtCombined

/-- Position matcher for the enhanced standard pattern.  The first
alternative of its unit group is a run of enhanced-unit characters with
an optional slash tail; the slash is itself in the class, so the
optional tail never fires, and every other alternative starts with a
letter of the class, so the first alternative always wins.  The group is
therefore the greedy run of enhanced-unit characters.  Returns the
number token and the unit run. -/
def matchAtEnhStd (s : Str) : Option (Str × Str) :=
  match numTok s with
  | some (m, r) =>
    match (r.dropWhile isWs).takeWhile isEnhUnitChar with
    | [] => none
    | u => some (m, u)
  | none => none

/-- Leftmost search for the enhanced standard pattern. -/
def searchEnhStd : Str → Option (Str × Str) := searchWith matchAtEnhStd

/-- Leftmost bare number token with the rest of the string after it. -/
def searchNumTok : Str → Option (Str × Str) := searchWith numTok

/-- First unit run of the fallback unit pattern: the alternatives all
start with standard-unit characters, so the leftmost match is the first
standard-unit character and the group is the greedy run from there. -/
def firstUnitRun (s : Str) : Option Str :=
  match s.dropWhile (fun c => !(isStdUnitChar c)) with
  | [] => none
  | r => some (r.takeWhile isStdUnitChar)

/-! ## Reference-range matchers -/

/-- Position matcher for the parenthesised norm annotation: an opening
parenthesis, the lowercase norm word with a colon, a greedy whitespace
run, at least one non-closing character, a closing parenthesis.  The
backtracking engine lets the whitespace run give characters back until
the one-or-more group can take at least one, so the group is the content
after the whitespace — or the last whitespace character itself when only
whitespace precedes the closing parenthesis.  A closing parenthesis must
exist and the content before it must be non-empty. -/
def matchAtParenNorma (s : Str) : Option Str :=
  match s with
  | '(' :: r =>
    if startsW (lc "норма:") r then
      let full := (r.drop 6).takeWhile (fun c => !(c == ')'))
      if full == [] then none
      else if (r.drop 6).dropWhile (fun c => !(c == ')')) == [] then none
      else
        let content := full.dropWhile isWs
        if content == [] then some (full.drop (full.length - 1))
        else some content
    else none
  | _ => none

/-- Leftmost search for the parenthesised norm annotation. -/
def searchParenNorma : Str → Option Str := searchWith matchAtParenNorma

/-- Position matcher for the norm annotation without parentheses: the
lazy tail of the source pattern always succeeds with zero repetitions, so
the group is the first whitespace-delimited token after the norm word. -/
def matchAtAltNorma (s : Str) : Option Str :=
  if startsW (lc "норма:") s then
    match ((s.drop 6).dropWhile isWs).takeWhile (fun c => !(isWs c)) with
    | [] => none
    | tok => some tok
  else none

/-- Leftmost search for the bare norm annotation. -/
def searchAltNorma : Str → Option Str := searchWith matchAtAltNorma

/-- Position matcher for parenthesised content containing a digit:
returns the run up to the first closing parenthesis when that
parenthesis exists and the run holds at least one digit. -/
def matchAtParenDigits (s : Str) : Option Str :=
  match s with
  | '(' :: r =>
    let content := r.takeWhile (fun c => !(c == ')'))
    if r.dropWhile (fun c => !(c == ')')) ≠ [] && content.any isDigitC then
      some content
    else none
  | _ => none

/-- Leftmost search for parenthesised digit content. -/
def searchParenDigits : Str → Option Str := searchWith matchAtParenDigits

/-- Dash class of the range patterns: hyphen or en dash. -/
def isRangeDash (c : Char) : Bool := c == '-' || c == '–'

/-- Position matcher for a bare numeric range: a number token, optional
whitespace, a dash, optional whitespace, a second number token.  Returns
the exact matched text, spacing included, as the source group does. -/
def matchAtBareRange (s : Str) : Option Str :=
  match numTok s with
  | some (t1, r) =>
    let ws1 := r.takeWhile isWs
    match r.dropWhile isWs with
    | d :: r3 =>
      if isRangeDash d then
        let ws2 := r3.takeWhile isWs
        match numTok (r3.dropWhile isWs) with
        | some (t2, _) => some (t1 ++ ws1 ++ d :: (ws2 ++ t2))
        | none => none
      else none
    | [] => none
  | none => none

/-- Leftmost search for a bare numeric range. -/
def searchBareRange : Str → Option Str := searchWith matchAtBareRange

/-- Boolean search for a bare numeric range (used where the source only
tests the match). -/
def hasBareRange (s : Str) : Bool := (searchBareRange s).isSome

/-! ## Kazakh-path matchers -/

/-- Greedy token for a number whose optional fraction must contain a
digit: digits, then a point or comma only when followed by digits. -/
def kazNumTok (s : Str) : Option (Str × Str) :=
  match s.takeWhile isDigitC with
  | [] => none
  | d1 =>
    let r := s.dropWhile isDigitC
    match r with
    | c :: r2 =>
      if c == '.' || c == ',' then
        match r2.takeWhile isDigitC with
        | [] => some (d1, r)
        | d2 => some (d1 ++ c :: d2, r2.dropWhile isDigitC)
      else some (d1, r)
    | [] => some (d1, [])

/-- Position matcher for the Kazakh value pattern: digits, a mandatory
point or comma, then mandatory digits.  Returns the whole group. -/
def matchAtKazValue (s : Str) : Option Str :=
  match s.takeWhile isDigitC with
  | [] => none
  | d1 =>
    match s.dropWhile isDigitC with
    | c :: r2 =>
      if c == '.' || c == ',' then
        match r2.takeWhile isDigitC with
        | [] => none
        | d2 => some (d1 ++ c :: d2)
      else none
    | [] => none

/-- Leftmost search for the Kazakh value pattern. -/
def searchKazValue : Str → Option Str := searchWith matchAtKazValue

/-- Position matcher for the Kazakh range pattern: a Kazakh number token,
optional whitespace, a dash, optional whitespace, a second token.
Returns the two bounds and the exact matched text. -/
def matchAtKazRange (s : Str) : Option (Str × Str × Str) :=
  match kazNumTok s with
  | some (t1, r) =>
    let ws1 := r.takeWhile isWs
    match r.dropWhile isWs with
    | d :: r3 =>
      if isRangeDash d then
        let ws2 := r3.takeWhile isWs
        match kazNumTok (r3.dropWhile isWs) with
        | some (t2, _) => some (t1, t2, t1 ++ ws1 ++ d :: (ws2 ++ t2))
        | none => none
      else none
    | [] => none
  | none => none

/-- Leftmost search for the Kazakh range pattern. -/
def searchKazRange : Str → Option (Str × Str × Str) := searchWith matchAtKazRange

/-- Position matcher for a less-than bound: the less-than sign, optional
whitespace, then a Kazakh number token.  Returns the bound. -/
def matchAtKazLt (s : Str) : Option Str :=
  match s with
  | '<' :: r =>
    match kazNumTok (r.dropWhile isWs) with
    | some (t, _) => some t
    | none => none
  | _ => none

/-- Leftmost search for a less-than bound. -/
def searchKazLt : Str → Option Str := searchWith matchAtKazLt

/-- Boolean search for a less-than sign followed by optional whitespace
and a digit. -/
def hasLtDigit (s : Str) : Bool :=
  existsAt (fun s =>
    match s with
    | '<' :: r =>
      match r.dropWhile isWs with
      | c :: _ => isDigitC c
      | [] => false
    | _ => false) s

/-! ## Static tables (transcribed from the source in insertion order) -/

/-- The medical metric alias table of the source module. -/
def medicalMetricsMap : List (String × String) := [
  ("HGB", "hemoglobin"),
  ("RBC", "red_blood_cells"),
  ("PLT", "platelets"),
  ("WBC", "white_blood_cells"),
  ("NEU#", "neutrophils_absolute"),
  ("LYM#", "lymphocytes_absolute"),
  ("MON#", "monocytes_absolute"),
  ("EOS#", "eosinophils_absolute"),
  ("BAS#", "basophils_absolute"),
  ("NEU%", "neutrophils_percentage"),
  ("LYM%", "lymphocytes_percentage"),
  ("MON%", "monocytes_percentage"),
  ("EOS%", "eosinophils_percentage"),
  ("BAS%", "basophils_percentage"),
  ("MCV", "mean_corpuscular_volume"),
  ("MCH", "mean_corpuscular_hemoglobin"),
  ("MCHC", "mean_corpuscular_hemoglobin_concentration"),
  ("RDW", "red_cell_distribution_width"),
  ("PCT", "plateletcrit"),
  ("MPV", "mean_platelet_volume"),
  ("PDW", "platelet_distribution_width"),
  ("P-LCR", "platelet_large_cell_ratio"),
  ("HCT", "hematocrit"),
  ("ОБЩИЙ БЕЛОК", "total_protein"),
  ("БЕЛОК", "total_protein"),
  ("АЛЬБУМИН", "albumin"),
  ("КРЕАТИНИН", "creatinine"),
  ("ГЛЮКОЗА", "glucose"),
  ("ГЛЮКОЗА (САХАР КРОВИ)", "glucose"),
  ("МАГНИЙ", "magnesium"),
  ("АЛТ", "alt_alanine_aminotransferase"),
  ("АЛАТ", "alt_alanine_aminotransferase"),
  ("АЛАНИНАМИНОТРАНСФЕРАЗА", "alt_alanine_aminotransferase"),
  ("АЛАНИНАМИНОТРАНСФЕРАЗА (АЛТ)", "alt_alanine_aminotransferase"),
  ("АСТ", "ast_aspartate_aminotransferase"),
  ("АСАТ", "ast_aspartate_aminotransferase"),
  ("АСПАРТАТАМИНОТРАСФЕРАЗА", "ast_aspartate_aminotransferase"),
  ("АСПАРТАТАМИНОТРАСФЕРАЗА (АСТ)", "ast_aspartate_aminotransferase"),
  ("БИЛИРУБИН ОБЩИЙ", "total_bilirubin"),
  ("БИЛИРУБИН ПРЯМОЙ", "direct_bilirubin"),
  ("БИЛИРУБИН НЕПРЯМОЙ", "indirect_bilirubin"),
  ("БИЛИРУБИН КОНЪЮГИРОВАННЫЙ", "direct_bilirubin"),
  ("БИЛИРУБИН НЕКОНЪЮГИРОВАННЫЙ", "indirect_bilirubin"),
  ("ГГТ", "gamma_glutamyl_transferase"),
  ("ГГТП", "gamma_glutamyl_transferase"),
  ("ГАММА-ГТ", "gamma_glutamyl_transferase"),
  ("ГАММАГЛЮТАМИЛТРАНСФЕРАЗА", "gamma_glutamyl_transferase"),
  ("ГАММАГЛЮТАМИЛТРАНСФЕРАЗА (ГГТП)", "gamma_glutamyl_transferase"),
  ("ЩЕЛОЧНАЯ ФОСФАТАЗА", "alkaline_phosphatase"),
  ("ЩЕЛОЧНАЯ ФОСФАТАЗА (ЩФ)", "alkaline_phosphatase"),
  ("ЩФ", "alkaline_phosphatase"),
  ("ГЛИКИРОВАННЫЙ ГЕМОГЛОБИН", "glycated_hemoglobin"),
  ("ГЛИКОЗИЛИРОВАННЫЙ ГЕМОГЛОБИН", "glycated_hemoglobin"),
  ("HBA1C", "glycated_hemoglobin"),
  ("С-РЕАКТИВНЫЙ БЕЛОК", "c_reactive_protein"),
  ("CRP", "c_reactive_protein"),
  ("СРБ", "c_reactive_protein"),
  ("ХОЛЕСТЕРИН ОБЩИЙ", "total_cholesterol"),
  ("ХОЛЕСТЕРИН", "total_cholesterol"),
  ("ХОЛЕСТЕРИН ЛПВП", "hdl_cholesterol"),
  ("HDL", "hdl_cholesterol"),
  ("ЛПВП", "hdl_cholesterol"),
  ("ХОЛЕСТЕРИН ЛПНП", "ldl_cholesterol"),
  ("LDL", "ldl_cholesterol"),
  ("ЛПНП", "ldl_cholesterol"),
  ("ТРИГЛИЦЕРИДЫ", "triglycerides"),
  ("КАЛИЙ", "potassium"),
  ("НАТРИЙ", "sodium"),
  ("МОЧЕВИНА", "urea"),
  ("КАЛЬЦИЙ", "calcium"),
  ("МОЧЕВАЯ КИСЛОТА", "uric_acid"),
  ("АМИЛАЗА", "amylase"),
  ("АЛЬФА-АМИЛАЗА", "alpha_amylase"),
  ("ХОЛЕСТЕРИН ЛПОНП", "vldl_cholesterol"),
  ("ЛПОНП", "vldl_cholesterol"),
  ("ТТГ", "thyroid_stimulating_hormone"),
  ("TSH", "thyroid_stimulating_hormone"),
  ("СВОБОДНЫЙ Т3", "free_t3"),
  ("FT3", "free_t3"),
  ("СВОБОДНЫЙ Т4", "free_t4"),
  ("FT4", "free_t4"),
  ("25-ОН ВИТАМИН D", "vitamin_d_25_oh"),
  ("ВИТАМИН D", "vitamin_d_25_oh"),
  ("25(OH)D", "vitamin_d_25_oh"),
  ("АЧТВ", "activated_partial_thromboplastin_time"),
  ("АПТВ", "activated_partial_thromboplastin_time"),
  ("МНО", "international_normalized_ratio"),
  ("INR", "international_normalized_ratio"),
  ("ПРОТРОМБИНОВОЕ ВРЕМЯ", "prothrombin_time"),
  ("ПВ", "prothrombin_time"),
  ("ТРОМБИНОВОЕ ВРЕМЯ", "thrombin_time"),
  ("ТВ", "thrombin_time"),
  ("ПРОТРОМБИНОВЫЙ ИНДЕКС", "prothrombin_index"),
  ("ПТИ", "prothrombin_index"),
  ("ФИБРИНОГЕН", "fibrinogen"),
  ("АНТИТЕЛА К ГЕПАТИТУ C", "hepatitis_c_antibodies"),
  ("ANTI-HCV", "hepatitis_c_antibodies"),
  ("HCV", "hepatitis_c_antibodies"),
  ("HBSAG", "hepatitis_b_surface_antigen"),
  ("HBS AG", "hepatitis_b_surface_antigen"),
  ("ГЕПАТИТ B", "hepatitis_b_surface_antigen"),
  ("ГЕПАТИТ C (СУММАРНЫЕ АНТИТЕЛА)", "hepatitis_c_total_antibodies"),
  ("HBSAG (ГЕПАТИТ B)", "hepatitis_b_surface_antigen")]

/-- Alias-table lookup, keys compared exactly as the Python dict does. -/
def medMapLookup (k : Str) : Option Str :=
  match medicalMetricsMap.find? (fun p => lc p.1 == k) with
  | some p => some (lc p.2)
  | none => none

/-- The bilingual keyword list of the document validator. -/
def medicalKeywords : List String := ["анализ", "кровь", "моча", "глюкоза", "холестерин",
  "лейкоциты", "эритроциты", "гемоглобин", "метаболизм", "диагностика", "результат",
  "пациент", "норма", "blood", "test", "result", "cholesterol", "glucose", "patient",
  "hemoglobin", "normal", "range", "white blood cells", "red blood cells", "lab",
  "laboratory"]

/-- Ordered unit corrections of the parser's unit cleaner. -/
def unitReplacements : List (String × String) := [("ммольл", "ммоль/л"),
  ("мкмольл", "мкмоль/л"), ("ммолыл", "ммоль/л"), ("мкмолыл", "мкмоль/л"), ("гл", "г/л"),
  ("мгл", "мг/л"), ("мкгл", "мкг/л"), ("едл", "Ед/л"), ("Биоматериалды", "Ед/л"),
  ("результатах", "Ед/л")]

/-- Ordered unit corrections of the Kazakh path. -/
def kazakhUnitCorrections : List (String × String) := [("едол", "Ед/л"), ("едал", "Ед/л"),
  ("ед/л", "Ед/л"), ("ммолыл", "ммоль/л"), ("ммол/л", "ммоль/л"), ("мкмолыл", "мкмоль/л"),
  ("мкмол/л", "мкмоль/л"), ("mkmoл/л", "мкмоль/л"), ("мгидл", "мг/дл"), ("г/л", "г/л")]

/-- Ordered status keywords of the classifier's textual fallback. -/
def statusKeywords : List (String × String) := [("повышено", "high"), ("понижено", "low"),
  ("снижено", "low"), ("увеличено", "high"), ("в пределах нормы", "normal"),
  ("норма", "normal"), ("нормально", "normal"), ("обнаружено", "detected"),
  ("не обнаружено", "not_detected"), ("положительно", "positive"),
  ("отрицательно", "negative")]

/-- Compound-name table of the normaliser (checked against the raw name). -/
def compoundMappings : List (String × String) := [
  ("БИЛИРУБИН ОБЩИЙ", "БИЛИРУБИН ОБЩИЙ"),
  ("БИЛИРУБИН ПРЯМОЙ", "БИЛИРУБИН ПРЯМОЙ"),
  ("БИЛИРУБИН НЕПРЯМОЙ", "БИЛИРУБИН НЕПРЯМОЙ"),
  ("БИЛИРУБИН КОНЪЮГИРОВАННЫЙ", "БИЛИРУБИН ПРЯМОЙ"),
  ("БИЛИРУБИН НЕКОНЪЮГИРОВАННЫЙ", "БИЛИРУБИН НЕПРЯМОЙ"),
  ("ХОЛЕСТЕРИН ОБЩИЙ", "ХОЛЕСТЕРИН"),
  ("ХОЛЕСТЕРИН ЛПВП", "ХОЛЕСТЕРИН ЛПВП"),
  ("ХОЛЕСТЕРИН ЛПНП", "ХОЛЕСТЕРИН ЛПНП"),
  ("ГЛИКИРОВАННЫЙ ГЕМОГЛОБИН", "ГЛИКИРОВАННЫЙ ГЕМОГЛОБИН"),
  ("ГЛИКОЗИЛИРОВАННЫЙ ГЕМОГЛОБИН", "ГЛИКИРОВАННЫЙ ГЕМОГЛОБИН"),
  ("С-РЕАКТИВНЫЙ БЕЛОК", "С-РЕАКТИВНЫЙ БЕЛОК"),
  ("ЩЕЛОЧНАЯ ФОСФАТАЗА", "ЩЕЛОЧНАЯ ФОСФАТАЗА"),
  ("ПРОТРОМБИНОВОЕ ВРЕМЯ", "ПРОТРОМБИНОВОЕ ВРЕМЯ"),
  ("ТРОМБИНОВОЕ ВРЕМЯ", "ТРОМБИНОВОЕ ВРЕМЯ"),
  ("ПРОТРОМБИНОВЫЙ ИНДЕКС", "ПРОТРОМБИНОВЫЙ ИНДЕКС"),
  ("АНТИТЕЛА К ГЕПАТИТУ C", "АНТИТЕЛА К ГЕПАТИТУ C"),
  ("25-ОН ВИТАМИН D", "25-ОН ВИТАМИН D"),
  ("СВОБОДНЫЙ Т3", "СВОБОДНЫЙ Т3"),
  ("СВОБОДНЫЙ Т4", "СВОБОДНЫЙ Т4")]

/-- Alternative-spelling table of the normaliser. -/
def alternativeMappings : List (String × String) := [
  ("АЛАТ", "АЛТ"),
  ("АСАТ", "АСТ"),
  ("ГГТП", "ГГТ"),
  ("ГАММА-ГТ", "ГГТ"),
  ("ГАММА ГТ", "ГГТ"),
  ("ЩФ", "ЩЕЛОЧНАЯ ФОСФАТАЗА"),
  ("СРБ", "С-РЕАКТИВНЫЙ БЕЛОК"),
  ("CRP", "С-РЕАКТИВНЫЙ БЕЛОК"),
  ("ЛПВП", "ХОЛЕСТЕРИН ЛПВП"),
  ("ЛПНП", "ХОЛЕСТЕРИН ЛПНП"),
  ("HDL", "ХОЛЕСТЕРИН ЛПВП"),
  ("LDL", "ХОЛЕСТЕРИН ЛПНП"),
  ("TSH", "ТТГ"),
  ("FT3", "СВОБОДНЫЙ Т3"),
  ("FT4", "СВОБОДНЫЙ Т4"),
  ("HBA1C", "ГЛИКИРОВАННЫЙ ГЕМОГЛОБИН"),
  ("INR", "МНО"),
  ("АПТВ", "АЧТВ"),
  ("ПВ", "ПРОТРОМБИНОВОЕ ВРЕМЯ"),
  ("ТВ", "ТРОМБИНОВОЕ ВРЕМЯ"),
  ("ПТИ", "ПРОТРОМБИНОВЫЙ ИНДЕКС"),
  ("ANTI-HCV", "АНТИТЕЛА К ГЕПАТИТУ C"),
  ("HCV", "АНТИТЕЛА К ГЕПАТИТУ C"),
  ("HBS AG", "HBSAG"),
  ("25(OH)D", "25-ОН ВИТАМИН D"),
  ("ВИТАМИН D", "25-ОН ВИТАМИН D")]

/-! ## Line validity filter -/

/-- Medical-context indicators of the date filter: if any occurs in the
lowercased name the line is declared non-datetime at once. -/
def hasMedContext (nameLower : Str) : Bool :=
  containsS (lc "витамин") nameLower ||
  containsS (lc "время") nameLower ||
  containsS (lc "он") nameLower ||
  containsS (lc "протромбин") nameLower ||
  containsS (lc "тромбин") nameLower ||
  containsOptAny (lc "25") (lc "он") nameLower

/-- The medical-range guard of the standalone-time check: an alternation
of plain substrings searched in the lowercased value. -/
def hasMedRangeWords (valueLower : Str) : Bool :=
  [lc "норма", lc "range", lc "г/л", lc "мг/дл", lc "ммоль/л", lc "мкмоль/л", lc "%",
   lc "пг", lc "фл", lc "/л", lc "мм/час"].any (fun w => containsS w valueLower)

/-- The unit guard of the datetime-keyword branch: an alternation of
three unit substrings searched in the raw value. -/
def hasKeywordUnitGuard (valuePart : Str) : Bool :=
  [lc "г/л", lc "мг/дл", lc "ммоль/л"].any (fun w => containsS w valuePart)

/-- The ordered datetime keyword scan: the first present keyword may
decide the answer, otherwise scanning continues; время combined with a
thrombin word exits with a non-datetime verdict. -/
def dtKeywordScan (nameLower name valuePart : Str) : List String → Option Bool
  | [] => none
  | kw :: rest =>
    if containsS (lc kw) nameLower then
      if kw == "время" &&
          (containsS (lc "протромбин") nameLower || containsS (lc "тромбин") nameLower) then
        some false
      else if !(hasUpperRun2 name) && !(hasKeywordUnitGuard valuePart) then
        some true
      else dtKeywordScan nameLower name valuePart rest
    else dtKeywordScan nameLower name valuePart rest

/-- The source's datetime filter: medical context wins, then date shapes
in the name, then standalone times in the value unless guarded, then a
full timestamp in the line, then the keyword scan; the final comma-range
check of the source returns the same non-datetime verdict as the default,
so both collapse to false. -/
def isDatetimeLine (name valuePart fullLine : Str) : Bool :=
  let nameLower := toLowerS name
  if hasMedContext nameLower then false
  else if existsAt matchAtDate1 name || existsAt matchAtDate2 name then true
  else if (isFullTimeColon valuePart || isFullTimeDot valuePart) &&
      !(hasMedRangeWords (toLowerS valuePart)) then true
  else if existsAt matchAtTimestamp fullLine then true
  else
    match dtKeywordScan nameLower name valuePart
        ["дата", "время", "date", "time", "час", "мин", "сек"] with
    | some b => b
    | none => false

/-- Position matcher for the section-header pattern абс, optional
whitespace, a colon, optional whitespace, кол-во. -/
def matchAtAbsKol (s : Str) : Bool :=
  startsW (lc "абс") s &&
    (match (s.drop 3).dropWhile isWs with
     | ':' :: r2 => startsW (lc "кол-во") (r2.dropWhile isWs)
     | _ => false)

/-- The header-pattern alternation, searched in a lowercased string. -/
def hasHeaderPattern (low : Str) : Bool :=
  existsAt matchAtAbsKol low ||
  containsWW (lc "общий") (lc "анализ") low ||
  containsS (lc "биохимический") low ||
  containsS (lc "клинический") low ||
  containsS (lc "показатели") low ||
  containsS (lc "результаты") low ||
  containsS (lc "пациент") low ||
  containsS (lc "заключение") low ||
  containsS (lc "описание") low ||
  containsS (lc "комментарий") low

/-- Qualitative result words of the header filter. -/
def headerQualitativeWords : List String :=
  ["обнаружено", "не обнаружено", "отрицательно", "положительно", "позитивно", "негативно"]

/-- Known medical test name fragments that rescue a long label from the
header verdict. -/
def medTestFragments : List String := ["антитела", "гепатит", "маркер", "анти", "hbs", "hcv"]

/-- Anchored shape of a name that is all non-parenthesis text followed by
one parenthesised group at the very end. -/
def isNameParenShape (s : Str) : Bool :=
  match s.dropWhile (fun c => !(c == '(')) with
  | '(' :: r =>
    match r.dropWhile (fun c => !(c == ')')) with
    | [')'] => true
    | _ => false
  | _ => false

/-- The source's section-header filter. -/
def isSectionHeader (name valuePart : Str) : Bool :=
  let nameLower := toLowerS name
  let valueLower := toLowerS valuePart
  if hasHeaderPattern nameLower then true
  else if hasHeaderPattern valueLower then true
  else if headerQualitativeWords.any (fun q => containsS (lc q) valueLower) then false
  else if !(searchNumUnit isEnhUnitChar valuePart) &&
      (decide (20 < name.length) || !(valuePart.any isDigitC)) then
    if medTestFragments.any (fun p => containsS (lc p) nameLower) then false else true
  else if isNameParenShape name && !(searchNumUnit isAlphaChar valuePart) then true
  else false

/-- One-letter labels accepted by the name filter. -/
def singleLetterCodes : List String := ["T", "P", "R", "H", "K", "Na", "Cl"]

/-- Demographic labels rejected by the name filter (anchored equality
against the lowercased stripped name). -/
def demographicWords : List String := ["возраст", "пол", "id", "номер", "кабинет", "врач", "пациент"]

/-- The curated medical-name pattern alternation of the name filter,
searched in the lowercased name. -/
def hasMedNamePattern (nameLower : Str) : Bool :=
  isLabCodeFull nameLower ||
  [lc "гемоглобин", lc "эритроциты", lc "лейкоциты", lc "тромбоциты", lc "нейтрофилы",
   lc "лимфоциты", lc "моноциты", lc "эозинофилы", lc "базофилы", lc "гематокрит",
   lc "белок", lc "альбумин", lc "креатинин", lc "глюкоза", lc "магний", lc "алт",
   lc "алат", lc "аст", lc "асат", lc "билирубин", lc "ггт", lc "ггтп"].any
    (fun w => containsS w nameLower) ||
  containsOptAny (lc "гамма") (lc "гт") nameLower ||
  containsOptAny (lc "щелочная") (lc "фосфатаза") nameLower ||
  containsS (lc "щф") nameLower ||
  containsS (lc "гликированный") nameLower ||
  containsS (lc "гликозилированный") nameLower ||
  containsOptAny (lc "реактивный") (lc "белок") nameLower ||
  [lc "срб", lc "холестерин", lc "лпвп", lc "лпнп", lc "триглицериды", lc "калий",
   lc "натрий", lc "мочевина", lc "ттг", lc "тиреотропный"].any (fun w => containsS w nameLower) ||
  containsOptAny (lc "свободный") (lc "т3") nameLower ||
  containsOptAny (lc "свободный") (lc "т4") nameLower ||
  containsOptAny (lc "витамин") (lc "d") nameLower ||
  containsOptAny (lc "25") (lc "он") nameLower ||
  [lc "ачтв", lc "аптв", lc "мно", lc "протромбиновое", lc "тромбиновое",
   lc "протромбиновый", lc "фибриноген", lc "антитела", lc "гепатит", lc "hbsag"].any
    (fun w => containsS w nameLower) ||
  containsOptAny (lc "anti") (lc "hcv") nameLower ||
  containsS (lc "соэ") nameLower ||
  nameLower == lc "t" ||
  nameLower == lc "ph" ||
  [lc "hba1c", lc "crp", lc "hdl", lc "ldl", lc "tsh"].any (fun w => containsS w nameLower) ||
  containsS (lc "ft3") nameLower || containsS (lc "ft4") nameLower ||
  containsS (lc "inr") nameLower

/-- Medical-sounding suffix fragments accepted by the name filter. -/
def medicalSuffixes : List String := ["цит", "глобин", "фил", "коз", "тромб"]

/-- The source's metric-name filter. -/
def hasValidMetricName (name : Str) : Bool :=
  if 50 < name.length then false
  else if name.length == 1 then
    singleLetterCodes.any (fun code => toUpperS name == lc code)
  else if name.length < 2 then false
  else
    let nameLowerStripped := stripL (toLowerS name)
    if demographicWords.any (fun w => nameLowerStripped == lc w) then false
    else
      let nameLower := toLowerS name
      if hasMedNamePattern nameLower then true
      else if isLabCodeFull (toUpperS name) then true
      else if medicalSuffixes.any (fun w => containsS (lc w) nameLower) then true
      else true

/-- Qualitative result words of the value filter (the list here also
includes норма). -/
def valueQualitativeWords : List String :=
  ["обнаружено", "не обнаружено", "отрицательно", "положительно", "позитивно",
   "негативно", "норма"]

/-- Position matcher for a number, optional whitespace, an opening
parenthesis whose content up to the first closing parenthesis contains
норма, and the closing parenthesis. -/
def matchAtNumParenNorma (s : Str) : Bool :=
  match numTok s with
  | some (_, r) =>
    match r.dropWhile isWs with
    | '(' :: r2 =>
      containsS (lc "норма") (r2.takeWhile (fun c => !(c == ')'))) &&
        r2.dropWhile (fun c => !(c == ')')) ≠ []
    | _ => false
  | none => false

/-- Position matcher for a number, optional whitespace, at least one
letter, slash or percent character, optional whitespace, then a
parenthesised group. -/
def matchAtNumUnitParen (s : Str) : Bool :=
  match numTok s with
  | some (_, r) =>
    match (r.dropWhile isWs).takeWhile isAlphaSlashPct with
    | [] => false
    | _ =>
      match ((r.dropWhile isWs).dropWhile isAlphaSlashPct).dropWhile isWs with
      | '(' :: r2 => r2.dropWhile (fun c => !(c == ')')) ≠ []
      | _ => false
  | none => false

/-- Position matcher for the scientific shape with a letters-or-slash
unit: number, whitespace, ten with optional caret and exponent, at least
one letter or slash. -/
def matchAtSciLite (s : Str) : Bool :=
  match numTok s with
  | some (_, r) =>
    match r with
    | c :: _ =>
      isWs c &&
        (match matchTenExp (r.dropWhile isWs) with
         | some (_, r2) =>
           match r2 with
           | d :: _ => isAlphaSlash d
           | [] => false
         | none => false)
    | [] => false
  | none => false

/-- The source's value-part filter. -/
def hasValidValuePart (valuePart : Str) : Bool :=
  let valueLower := stripL (toLowerS valuePart)
  if valueQualitativeWords.any (fun q => containsS (lc q) valueLower) then true
  else if !(valuePart.any isDigitC) then false
  else if searchNumUnit isEnhUnitChar valuePart then true
  else if existsAt matchAtSciLite valuePart then true
  else if existsAt matchAtNumParenNorma valuePart then true
  else if existsAt matchAtNumUnitParen valuePart then true
  else if valuePart.any isDigitC && 5 < (stripL valuePart).length then true
  else false

/-- Literal unit substrings of the unit-indicator filter, searched in the
lowercased value in source order (the entries containing capitals can
never occur in a lowercased string, exactly as in the source). -/
def medicalUnitSubstrings : List String :=
  ["г/л", "мг/дл", "ммоль/л", "мкмоль/л", "%", "пг", "фл", "/л", "мм/час", "10^", "E+",
   "×", "°C", "°F", "ед", "U/L", "МЕ/л", "Ед/л", "мг/л", "мкг/л", "нг/мл", "пг/мл",
   "нг/дл", "мкМЕ/мл", "сек", "с", "обнаружено", "не обнаружено", "положительно",
   "отрицательно", "позитивно", "негативно"]

/-- Position matcher for a number, at least one whitespace, then ten with
an optional caret and exponent digits. -/
def matchAtNumTen (s : Str) : Bool :=
  match numTok s with
  | some (_, r) =>
    match r with
    | c :: _ => isWs c && (matchTenExp (r.dropWhile isWs)).isSome
    | [] => false
  | none => false

/-- Position matcher for a number, optional whitespace, then a
parenthesised group with any content. -/
def matchAtNumParen (s : Str) : Bool :=
  match numTok s with
  | some (_, r) =>
    match r.dropWhile isWs with
    | '(' :: r2 => r2.dropWhile (fun c => !(c == ')')) ≠ []
    | _ => false
  | none => false

/-- Position matcher for a number, optional whitespace, a degree sign and
the letter C or F. -/
def matchAtNumDeg (s : Str) : Bool :=
  match numTok s with
  | some (_, r) =>
    match r.dropWhile isWs with
    | '°' :: c :: _ => c == 'C' || c == 'F'
    | _ => false
  | none => false

/-- Position matcher for a number, optional whitespace, then a literal. -/
def matchAtNumLit (lit : Str) (s : Str) : Bool :=
  match numTok s with
  | some (_, r) => startsW lit (r.dropWhile isWs)
  | none => false

/-- The source's medical-unit indicator filter. -/
def hasMedicalUnitIndicators (valuePart : Str) : Bool :=
  let valueLower := toLowerS valuePart
  if medicalUnitSubstrings.any (fun u => containsS (lc u) valueLower) then true
  else if searchNumUnit isEnhUnitChar valuePart then true
  else if existsAt matchAtNumTen valuePart then true
  else if existsAt matchAtNumParen valuePart then true
  else if existsAt matchAtNumDeg valuePart then true
  else if existsAt (matchAtNumLit (lc "U/L")) valuePart then true
  else if existsAt (matchAtNumLit (lc "МЕ/л")) valuePart then true
  else if existsAt (matchAtNumLit (lc "сек")) valuePart then true
  else if containsS (lc "обнаружено") valueLower then true
  else if containsS (lc "отрицательно") valueLower ||
      containsS (lc "порицательно") valueLower then true
  else if containsS (lc "зитивно") valueLower then true
  else if containsS (lc "ложительно") valueLower then true
  else if containsS (lc "негативно") valueLower then true
  else false

/-- The source's combined line validity filter. -/
def isValidMetricLine (name valuePart fullLine : Str) : Bool :=
  if isDatetimeLine name valuePart fullLine then false
  else if isSectionHeader name valuePart then false
  else if !(hasValidMetricName name) then false
  else if !(hasValidValuePart valuePart) then false
  else if !(hasMedicalUnitIndicators valuePart) then false
  else true

/-! ## Value and unit parser -/

/-- The parser's unit cleaner: strip, then apply each replacement of the
ordered table whenever its needle occurs. -/
def cleanUnit (u : Str) : Str :=
  unitReplacements.foldl
    (fun acc p => if containsS (lc p.1) acc then replaceS (lc p.1) (lc p.2) acc else acc)
    (stripL u)

/-- Contamination guard of the parser: an embedded full date or one of
four administrative words, matched case-insensitively. -/
def hasContamination (valuePart : Str) : Bool :=
  existsAt matchAtDDMMYYYY valuePart ||
  ["алу орны", "биоматериалды", "результатах", "отчет"].any
    (fun w => containsS (lc w) (toLowerS valuePart))

/-- Anchored qualitative phrase: не, a flexible whitespace gap,
обнаружено, and nothing else. -/
def isNeObnFull (s : Str) : Bool :=
  startsW (lc "не") s &&
    (match s.drop 2 with
     | c :: t =>
       isWs c && (c :: t).dropWhile isWs == lc "обнаружено"
     | [] => false)

/-- Anchored qualitative phrase: в, whitespace, пределах, whitespace,
нормы, and nothing else. -/
def isVPredelahFull (s : Str) : Bool :=
  startsW (lc "в") s &&
    (match s.drop 1 with
     | c :: t =>
       isWs c &&
         (let r := (c :: t).dropWhile isWs
          startsW (lc "пределах") r &&
            (match r.drop 8 with
             | c2 :: t2 => isWs c2 && (c2 :: t2).dropWhile isWs == lc "нормы"
             | [] => false))
     | [] => false)

/-- Scientific-notation strategy of the parser. -/
def stratSci (vp : Str) : Option (Dec × Str × Dec) :=
  match searchSci vp with
  | some (m, e, u) =>
    match parsePyFloat (replaceC ',' '.' m) with
    | some v => some (v, lc "10^" ++ natRepr (parsePyInt e) ++ cleanUnit (stripL u), ⟨95, 2⟩)
    | none => none
  | none => none

/-- Complex-multiplier strategy of the parser: with a caret the exponent
digits are rendered back after ten; the caret-less form prepends a times
sign; an empty exponent raises in the source and falls through. -/
def stratComplex (vp : Str) : Option (Dec × Str × Dec) :=
  match searchComplex vp with
  | some (m, g2, u) =>
    match parsePyFloat (replaceC ',' '.' m) with
    | some v =>
      if containsS ['^'] g2 then
        match splitOnC '^' g2 with
        | [_, expPart] =>
          match digitsToNat expPart with
          | some e => some (v, lc "10^" ++ natRepr e ++ cleanUnit (stripL u), ⟨9, 1⟩)
          | none => none
        | _ => none
      else some (v, '×' :: (g2 ++ cleanUnit (stripL u)), ⟨85, 2⟩)
    | none => none
  | none => none

/-- Broken-decimal strategy of the parser. -/
def stratDecimal (vp : Str) : Option (Dec × Str × Dec) :=
  match searchDecimal vp with
  | some (d1, d2, u) =>
    match parsePyFloat (d1 ++ '.' :: d2) with
    | some v => some (v, cleanUnit (stripL u), ⟨8, 1⟩)
    | none => none
  | none => none

/-- Combined qualitative-plus-cutoff strategy (searched in the lowercased
value, where its uppercase literal can never occur). -/
def stratCombined (vp : Str) : Option (Dec × Str × Dec) :=
  match searchCombined (toLowerS vp) with
  | some g2 =>
    match parsePyFloat (replaceC ',' '.' g2) with
    | some v => some (v, lc "S/CO", ⟨95, 2⟩)
    | none => none
  | none => none

/-- Signal-to-cutoff strategy of the parser. -/
def stratSCO (vp : Str) : Option (Dec × Str × Dec) :=
  match searchSCO vp with
  | some m =>
    match parsePyFloat (replaceC ',' '.' m) with
    | some v => some (v, lc "S/CO", ⟨9, 1⟩)
    | none => none
  | none => none

/-- Enhanced standard number-and-unit strategy of the parser. -/
def stratEnhStd (vp : Str) : Option (Dec × Str × Dec) :=
  match searchEnhStd vp with
  | some (m, u) =>
    match parsePyFloat (replaceC ',' '.' m) with
    | some v => some (v, cleanUnit (stripL u), ⟨75, 2⟩)
    | none => none
  | none => none

/-- Bare-number fallback strategy of the parser. -/
def stratFallback (vp : Str) : Option (Dec × Str × Dec) :=
  match searchNumTok vp with
  | some (m, rest) =>
    match parsePyFloat (replaceC ',' '.' m) with
    | some v =>
      let remaining := stripL rest
      match firstUnitRun remaining with
      | some u => some (v, cleanUnit u, ⟨5, 1⟩)
      | none => some (v, lc "units", ⟨5, 1⟩)
    | none => none
  | none => none

/-- The source's value-and-unit parser: the contamination guard, the
anchored qualitative table in order, then the strategy cascade. -/
def parseValueAndUnit (valuePart0 : Str) : Option (Dec × Str × Dec) :=
  let vp := stripL valuePart0
  if hasContamination vp then none
  else
    let vl := stripL (toLowerS vp)
    if isNeObnFull vl then some (⟨0, 0⟩, lc "qualitative", ⟨95, 2⟩)
    else if vl == lc "обнаружено" then some (⟨1, 0⟩, lc "qualitative", ⟨95, 2⟩)
    else if vl == lc "отрицательно" then some (⟨0, 0⟩, lc "qualitative", ⟨9, 1⟩)
    else if vl == lc "положительно" then some (⟨1, 0⟩, lc "qualitative", ⟨9, 1⟩)
    else if vl == lc "позитивно" then some (⟨1, 0⟩, lc "qualitative", ⟨9, 1⟩)
    else if vl == lc "негативно" then some (⟨0, 0⟩, lc "qualitative", ⟨9, 1⟩)
    else if vl == lc "норма" then some (⟨5, 1⟩, lc "qualitative", ⟨85, 2⟩)
    else if isVPredelahFull vl then some (⟨5, 1⟩, lc "qualitative", ⟨85, 2⟩)
    else
      match stratSci vp with
      | some r => some r
      | none =>
        match stratComplex vp with
        | some r => some r
        | none =>
          match stratDecimal vp with
          | some r => some r
          | none =>
            match stratCombined vp with
            | some r => some r
            | none =>
              match stratSCO vp with
              | some r => some r
              | none =>
                match stratEnhStd vp with
                | some r => some r
                | none => stratFallback vp

/-- The source's suspicious-value detector (its metric-name argument is
unused). -/
def isSuspiciousValue (v : Dec) (unit : Str) : Bool :=
  if unit == lc "qualitative" then false
  else if Dec.eqv v ⟨9, 0⟩ && unit == lc "/л" then true
  else if Dec.le v ⟨0, 0⟩ && unit ≠ lc "qualitative" then true
  else if !(containsS (lc "10^") unit) && Dec.lt ⟨10000, 0⟩ v then true
  else false

/-- The source's reference-range extractor: parenthesised norm, bare
norm token, parenthesised digit content that looks like a range, then a
bare range; otherwise the literal Not specified. -/
def extractReferenceRange (valuePart : Str) : Str :=
  match searchParenNorma valuePart with
  | some g => stripL g
  | none =>
    match searchAltNorma valuePart with
    | some g => stripL g
    | none =>
      match searchParenDigits valuePart with
      | some content =>
        if hasBareRange content then stripL content
        else
          match searchBareRange valuePart with
          | some g => stripL g
          | none => lc "Not specified"
      | none =>
        match searchBareRange valuePart with
        | some g => stripL g
        | none => lc "Not specified"

/-! ## Status classifier -/

/-- The classifier's textual fallback: the first status keyword contained
in the lowercased range decides; otherwise normal. -/
def keywordStatus (rangeLower : Str) : Str :=
  match statusKeywords.find? (fun p => containsS (lc p.1) rangeLower) with
  | some p => lc p.2
  | none => lc "normal"

/-- The numeric part of the classifier, fed with the numbers found in the
range text.  A zero single bound in the tolerance branch divides by zero
in the source; the raised error is swallowed and the textual fallback
answers, which the zero test mirrors. -/
def statusFromParts (v : Dec) (rr : Str) : List Str → Str
  | a :: b :: _ =>
    match parsePyFloat (replaceC ',' '.' a), parsePyFloat (replaceC ',' '.' b) with
    | some mn, some mx =>
      if Dec.lt v mn then lc "low"
      else if Dec.lt mx v then lc "high"
      else lc "normal"
    | _, _ => keywordStatus (toLowerS rr)
  | [a] =>
    match parsePyFloat (replaceC ',' '.' a) with
    | some rv =>
      if containsS (lc "менее") (toLowerS rr) || containsS ['<'] rr then
        if Dec.le v rv then lc "negative" else lc "positive"
      else if containsS (lc "более") (toLowerS rr) || containsS ['>'] rr then
        if Dec.le rv v then lc "normal" else lc "low"
      else if Dec.eqv rv ⟨0, 0⟩ then keywordStatus (toLowerS rr)
      else if Dec.ratioLtTenth (Dec.absD (Dec.sub v rv)) rv then lc "normal"
      else if Dec.lt rv v then lc "high"
      else lc "low"
    | none => keywordStatus (toLowerS rr)
  | [] => keywordStatus (toLowerS rr)

/-- The source's status classifier. -/
def determineStatus (v : Dec) (rr : Str) : Str :=
  if rr == lc "Not specified" && Dec.eqv v ⟨1, 0⟩ then lc "detected"
  else if rr == lc "Not specified" && Dec.eqv v ⟨0, 0⟩ then lc "not_detected"
  else if rr == lc "Not specified" && Dec.eqv v ⟨5, 1⟩ then lc "normal"
  else statusFromParts v rr (findNums rr)

/-! ## Metric name normaliser -/

/-- The trailing qualifier words removed by the normaliser's suffix
substitution. -/
def trailingQualifierWords : List String :=
  ["ОБЩИЙ", "ПРЯМОЙ", "НЕПРЯМОЙ", "КОНЪЮГИРОВАННЫЙ", "НЕКОНЪЮГИРОВАННЫЙ"]

/-- Position matcher for the vitamin-D tabular pattern: two-five, an
optional character, the Cyrillic capital О, an optional Latin capital H,
whitespace, the vitamin word, whitespace, the letter D.  The optional H,
if present in the text, must be consumed because whitespace cannot match
it. -/
def matchAtVitD (s : Str) : Bool :=
  let cont : Str → Bool := fun r =>
    match r with
    | 'О' :: r1 =>
      let r2 := match r1 with
        | 'H' :: rest => rest
        | _ => r1
      (match r2 with
       | c :: _ =>
         isWs c && startsW (lc "ВИТАМИН") (r2.dropWhile isWs) &&
           (let r3 := (r2.dropWhile isWs).drop 7
            match r3 with
            | c2 :: _ => isWs c2 && startsW ['D'] (r3.dropWhile isWs)
            | [] => false)
       | [] => false)
    | _ => false
  startsW (lc "25") s &&
    (cont (s.drop 2) ||
      (match s.drop 2 with
       | c :: r => c ≠ '\n' && cont r
       | [] => false))

/-- The anchored leading-qualifier substitution of the normaliser:
remove a leading ОБЩИЙ or СВОБОДНЫЙ together with the whitespace run
after it. -/
def subLeadingCommon (s : Str) : Str :=
  let tryWord : Str → Option Str := fun w =>
    if startsW w s then
      match s.drop w.length with
      | c :: t => if isWs c then some ((c :: t).dropWhile isWs) else none
      | [] => none
    else none
  match tryWord (lc "ОБЩИЙ") with
  | some r => r
  | none =>
    match tryWord (lc "СВОБОДНЫЙ") with
    | some r => r
    | none => s

/-- The anchored trailing-qualifier substitution of the normaliser: cut
the string at the first whitespace whose whitespace run is followed by
exactly one of the qualifier words at the very end. -/
def subTrailingWord : Str → Str
  | [] => []
  | c :: t =>
    if isWs c && trailingQualifierWords.any (fun w => (c :: t).dropWhile isWs == lc w) then []
    else c :: subTrailingWord t

/-- Suffix-variant loop of the normaliser: the first of the four endings
whose base resolves in the map wins. -/
def suffixVariantLookup (cleanName : Str) : Option Str :=
  (["#", "%", "_ABS", "_PCT"].filterMap (fun suf =>
    let sufL := lc suf
    if decide (sufL.length ≤ cleanName.length) &&
        cleanName.drop (cleanName.length - sufL.length) == sufL then
      medMapLookup (cleanName.take (cleanName.length - sufL.length))
    else none)).head?

/-- The source's metric-name normaliser. -/
def normalizeMetricName (name : Str) : Str :=
  let cleanName0 := toUpperS (stripL name)
  let cleanName1 :=
    if containsS (lc "ТТГ") cleanName0 then lc "ТТГ"
    else if containsWW (lc "СВОБОДНЫЙ") (lc "Т") cleanName0 then lc "СВОБОДНЫЙ Т3"
    else if containsWW (lc "СВОБОДНЫЙ") (lc "Т4") cleanName0 then lc "СВОБОДНЫЙ Т4"
    else if existsAt matchAtVitD cleanName0 then lc "25-ОН ВИТАМИН D"
    else cleanName0
  let cleanName2 :=
    if !(containsWW (lc "СВОБОДНЫЙ") (lc "Т3") cleanName1 ||
         containsWW (lc "СВОБОДНЫЙ") (lc "Т4") cleanName1) then
      subLeadingCommon cleanName1
    else cleanName1
  let cleanName3 := subTrailingWord cleanName2
  match compoundMappings.find? (fun p =>
      containsS (lc p.1) (toUpperS name) && (medMapLookup (lc p.2)).isSome) with
  | some p => (medMapLookup (lc p.2)).getD []
  | none =>
    match medMapLookup cleanName3 with
    | some v => v
    | none =>
      match suffixVariantLookup cleanName3 with
      | some v => v
      | none =>
        match alternativeMappings.find? (fun p => lc p.1 == cleanName3) with
        | some p =>
          match medMapLookup (lc p.2) with
          | some v => v
          | none => replaceC '-' '_' (replaceC ' ' '_' (toLowerS cleanName3))
        | none => replaceC '-' '_' (replaceC ' ' '_' (toLowerS cleanName3))

/-! ## Structural extractor -/

/-- Index of the first colon of a line, as the source's find does. -/
def firstColonIdx (line : Str) : Option Nat :=
  (line.findIdx? (fun c => c == ':'))

/-- The body of the extraction loop for one line: zero or one metric
dict, with the exact seven keys of the source literal. -/
def perLineMetric (line : Str) : List PyDict :=
  if !(containsS [':'] line) then []
  else
    match firstColonIdx line with
    | none => []
    | some i =>
      let name := stripL (line.take i)
      let valuePart := stripL (line.drop (i + 1))
      if valuePart == [] then []
      else if !(isValidMetricLine name valuePart line) then []
      else
        match parseValueAndUnit valuePart with
        | none => []
        | some (v, u, conf) =>
          if isSuspiciousValue v u then []
          else
            let rr := extractReferenceRange valuePart
            let st := determineStatus v rr
            let nm := normalizeMetricName name
            [[("name", PyVal.vs nm), ("value", PyVal.vf v), ("unit", PyVal.vs u),
              ("reference_range", PyVal.vs rr), ("status", PyVal.vs st),
              ("confidence", PyVal.vf conf), ("original_line", PyVal.vs (stripL line))]]

/-- The extraction loop over a list of lines, appending per line exactly
as the source loop does. -/
def extractLoop : List Str → List PyDict
  | [] => []
  | l :: ls => perLineMetric l ++ extractLoop ls

/-- The source's structural extractor over a whole text: split on
newlines, run the loop. -/
def extractMetricsFromText (text : String) : List PyDict :=
  extractLoop (splitOnC '\n' text.toList)

/-! ## Kazakh template path -/

/-- One expected metric of the Kazakh template extractor. -/
structure KazDef where
  names : List String
  englishName : String
  expectedRange : String
  deriving Repr

/-- The closed template list of the Kazakh extractor. -/
def expectedKazakhMetrics : List KazDef := [
  ⟨["Аланинаминотрансфераза", "АЛТ"], "ALT", "3 - 45"⟩,
  ⟨["Аспартатаминотрасфераза", "АСТ"], "AST", "0 - 35"⟩,
  ⟨["Альфа-амилаза", "Амилаза"], "Amylase", "25 - 125"⟩,
  ⟨["Щелочная фосфатаза", "ЩФ"], "ALP", "45 - 125"⟩,
  ⟨["Гаммаглютамилтрансфераза", "ГГТП"], "GGT", "11 - 61"⟩,
  ⟨["Глюкоза", "сахар крови"], "Glucose", "3.05 - 6.4"⟩,
  ⟨["Билирубин общий", "Билирубин"], "Total Bilirubin", "< 22.0"⟩]

/-- The Kazakh unit corrector: first listed needle contained in the
lowercased text wins. -/
def correctKazakhUnit (t : Str) : Option Str :=
  let low := toLowerS t
  match kazakhUnitCorrections.find? (fun p => containsS (lc p.1) low) with
  | some p => some (lc p.2)
  | none => none

/-- The source's Kazakh status classifier: a less-than bound first, then
a two-sided range; anything else, including a missing or unparsable
bound, is unknown. -/
def determineKazakhStatus (v : Dec) (rr : Str) : Str :=
  if rr == [] then lc "unknown"
  else if containsS ['<'] rr then
    match searchKazLt rr with
    | some t =>
      match parsePyFloat (replaceC ',' '.' t) with
      | some mx => if Dec.lt v mx then lc "normal" else lc "high"
      | none => lc "unknown"
    | none => lc "unknown"
  else
    match searchKazRange rr with
    | some (t1, t2, _) =>
      match parsePyFloat (replaceC ',' '.' t1), parsePyFloat (replaceC ',' '.' t2) with
      | some mn, some mx =>
        if Dec.lt v mn then lc "low"
        else if Dec.lt mx v then lc "high"
        else lc "normal"
      | _, _ => lc "unknown"
    | none => lc "unknown"

/-- State of the Kazakh piece scan: the first found value, unit and
range. -/
structure KazScan where
  value : Option Dec
  unit : Option Str
  range : Option Str

/-- Checks of one Kazakh piece after the value check: a corrected unit
fills the unit, a dashed range fills the range, and a less-than piece
overwrites the range with the whole stripped piece. -/
def kazScanRest (st1 : KazScan) (piece : Str) : KazScan :=
  let st2 :=
    match correctKazakhUnit piece, st1.unit with
    | some u, none => { st1 with unit := some u }
    | _, _ => st1
  let st3 :=
    match searchKazRange piece, st2.range with
    | some (_, _, g), none => { st2 with range := some g }
    | _, _ => st2
  if containsS ['<'] piece && hasLtDigit piece then { st3 with range := some (stripL piece) }
  else st3

/-- One piece of the Kazakh value scan: a first fractional number fills
the value; a failed float conversion makes the source skip the rest of
the piece, which the first branch mirrors. -/
def kazScanPiece (st : KazScan) (piece : Str) : KazScan :=
  match searchKazValue piece, st.value with
  | some tok, none =>
    match parsePyFloat (replaceC ',' '.' tok) with
    | some v => kazScanRest { st with value := some v } piece
    | none => st
  | _, _ => kazScanRest st piece

/-- The source's single-metric Kazakh extractor: find the first piece
containing a name variant, scan the next five pieces, and build the
five-field dict when a value was found. -/
def extractSingleKazakhMetric (pieces : List Str) (d : KazDef) : Option PyDict :=
  match pieces.findIdx? (fun piece =>
      d.names.any (fun nv => containsS (toLowerS (lc nv)) (toLowerS piece))) with
  | none => none
  | some i =>
    let window := (pieces.drop (i + 1)).take 5
    let st := window.foldl kazScanPiece ⟨none, none, none⟩
    match st.value with
    | none => none
    | some v =>
      let rr := st.range.getD (lc d.expectedRange)
      let status := determineKazakhStatus v rr
      some [("name", PyVal.vs (lc d.englishName)), ("value", PyVal.vf v),
            ("unit", PyVal.vs (st.unit.getD (lc "Ед/л"))),
            ("reference_range", PyVal.vs rr), ("status", PyVal.vs status)]

/-- The source's Kazakh template extractor over stripped pieces. -/
def extractKazakhMetricsFromResults (ocrResults : List String) : List PyDict :=
  let pieces := ocrResults.map (fun p => stripL p.toList)
  expectedKazakhMetrics.filterMap (extractSingleKazakhMetric pieces)

/-! ## Document validator -/

/-- An apostrophe character, spelled by code point. -/
def apoC : Char := Char.ofNat 39

/-- The invalid-document message of the validator. -/
def msgNotMedical : String :=
  "This doesn" ++ String.mk [apoC] ++
    "t appear to be a medical document. Please upload a lab report or medical test result."

/-- The one-metric message of the validator. -/
def msgOnlyOne : String :=
  "Document contains only one health metric. Please upload a complete medical report."

/-- The valid-document message of the validator. -/
def msgValid : String := "Valid medical document detected with multiple health metrics."

/-- The keyword-caveat message of the validator. -/
def msgKeywordCaveat : String :=
  "Document contains medical terminology but few structured metrics."

/-- Number of keywords of the bilingual list contained in the lowercased
raw text. -/
def keywordCount (rawText : Str) : Nat :=
  (medicalKeywords.filter (fun kw => containsS (toLowerS (lc kw)) (toLowerS rawText))).length

/-- The validator's filter of placeholder metrics. -/
def realMetricsOf (metrics : List PyDict) : List PyDict :=
  metrics.filter (fun m => getVal m "name" ≠ some (PyVal.vs (lc "Sample Metric")))

/-- The source's document validator. -/
def validateMedicalDocument (metrics : List PyDict) (rawText : Str) : Bool × String :=
  if 2 ≤ (realMetricsOf metrics).length then (true, msgValid)
  else if 3 ≤ keywordCount rawText then (true, msgKeywordCaveat)
  else if (realMetricsOf metrics).length == 1 then (false, msgOnlyOne)
  else (false, msgNotMedical)

/-! ## PDF page merge -/

/-- The PDF path's metric collection: the per-page metric lists are
extended one after another into one list, exactly as the source loop
does with its running extend. -/
def pdfAllMetrics (pages : List (List PyDict)) : List PyDict :=
  pages.foldl (fun acc p => acc ++ p) []

/-! ## Bridge lemmas: the decimal comparisons mean rational comparisons -/

theorem Dec.lt_iff (a b : Dec) : Dec.lt a b = true ↔ a.toQ < b.toQ := by
  unfold Dec.lt Dec.toQ
  rw [div_lt_div_iff₀ (by positivity) (by positivity)]
  constructor
  · intro h
    have h2 : ((a.num * 10 ^ b.exp : Int) : ℚ) < ((b.num * 10 ^ a.exp : Int) : ℚ) := by
      exact_mod_cast of_decide_eq_true (by simpa using h)
    push_cast at h2
    convert h2 using 2
  · intro h
    simp only [decide_eq_true_eq]
    exact_mod_cast (by push_cast; exact_mod_cast h :
      ((a.num * 10 ^ b.exp : Int) : ℚ) < ((b.num * 10 ^ a.exp : Int) : ℚ))

theorem Dec.le_iff (a b : Dec) : Dec.le a b = true ↔ a.toQ ≤ b.toQ := by
  unfold Dec.le Dec.toQ
  rw [div_le_div_iff₀ (by positivity) (by positivity)]
  constructor
  · intro h
    have h2 : ((a.num * 10 ^ b.exp : Int) : ℚ) ≤ ((b.num * 10 ^ a.exp : Int) : ℚ) := by
      exact_mod_cast of_decide_eq_true (by simpa using h)
    push_cast at h2
    convert h2 using 2
  · intro h
    simp only [decide_eq_true_eq]
    exact_mod_cast (by push_cast; exact_mod_cast h :
      ((a.num * 10 ^ b.exp : Int) : ℚ) ≤ ((b.num * 10 ^ a.exp : Int) : ℚ))

theorem Dec.eqv_iff (a b : Dec) : Dec.eqv a b = true ↔ a.toQ = b.toQ := by
  unfold Dec.eqv Dec.toQ
  rw [div_eq_div_iff (by positivity) (by positivity)]
  constructor
  · intro h
    have h2 : ((a.num * 10 ^ b.exp : Int) : ℚ) = ((b.num * 10 ^ a.exp : Int) : ℚ) := by
      exact_mod_cast (beq_iff_eq.mp h)
    push_cast at h2
    convert h2 using 2
  · intro h
    rw [beq_iff_eq]
    exact_mod_cast (by push_cast; exact_mod_cast h :
      ((a.num * 10 ^ b.exp : Int) : ℚ) = ((b.num * 10 ^ a.exp : Int) : ℚ))

/-! ## Claim C1: merging of extraction passes -/

/-- Number of records of a metric list carrying the given canonical
name. -/
def countName (nm : Str) (l : List PyDict) : Nat :=
  (l.filter (fun m => getVal m "name" == some (PyVal.vs nm))).length

theorem countName_append (nm : Str) (a b : List PyDict) :
    countName nm (a ++ b) = countName nm a + countName nm b := by
  unfold countName
  rw [List.filter_append, List.length_append]

theorem pdfAllMetrics_acc (pages : List (List PyDict)) (acc : List PyDict) :
    pages.foldl (fun acc p => acc ++ p) acc = acc ++ pages.foldl (fun acc p => acc ++ p) [] := by
  induction pages generalizing acc with
  | nil => simp
  | cons p ps ih =>
    simp only [List.foldl_cons]
    rw [ih (acc ++ p), ih ([] ++ p)]
    simp

/-- C1, counterexample.  Two pages of one PDF each produce a record for the
canonical name hemoglobin — a structural-extractor record with confidence
0.8 and a qualitative record with confidence 0.95 — yet the merged metric
list of the PDF path contains both records, not exactly one: the engine
concatenates page results and never deduplicates by canonical name. -/
theorem claim1_counterexample :
    countName (lc "hemoglobin")
        (extractMetricsFromText "HGB: 163.00 г/л (норма: 130,00 - 160,00)") = 1 ∧
    countName (lc "hemoglobin") (extractMetricsFromText "HGB: Обнаружено") = 1 ∧
    getVal ((extractMetricsFromText "HGB: 163.00 г/л (норма: 130,00 - 160,00)").headD [])
        "confidence" = some (PyVal.vf ⟨8, 1⟩) ∧
    getVal ((extractMetricsFromText "HGB: Обнаружено").headD [])
        "confidence" = some (PyVal.vf ⟨95, 2⟩) ∧
    countName (lc "hemoglobin")
      (pdfAllMetrics
        [extractMetricsFromText "HGB: 163.00 г/л (норма: 130,00 - 160,00)",
         extractMetricsFromText "HGB: Обнаружено"]) = 2 := by
  refine ⟨by decide, by decide, by decide, by decide, by decide⟩

/-- C1, amended.  The engine's merge is a concatenation: for every list of
per-page (or per-pass) metric lists and every canonical name, the merged
list of the PDF path contains as many records with that name as all the
pages together — duplicate canonical names are preserved, no
deduplication by confidence happens anywhere. -/
theorem claim1_merge_concatenates (nm : Str) (pages : List (List PyDict)) :
    countName nm (pdfAllMetrics pages) = (pages.map (countName nm)).sum := by
  induction pages with
  | nil => rfl
  | cons p ps ih =>
    unfold pdfAllMetrics at ih ⊢
    simp only [List.foldl_cons, List.map_cons, List.sum_cons]
    rw [pdfAllMetrics_acc ps ([] ++ p)]
    simp only [List.nil_append]
    rw [countName_append, ih]

/-! ## Claim C2: the closed status set -/

/-- The closed status enumeration stated by the specification. -/
def specStatusSet : List Str :=
  [lc "normal", lc "low", lc "high", lc "elevated", lc "detected", lc "not_detected",
   lc "unknown"]

/-- The status values the code can actually produce: the specified set
plus positive and negative. -/
def extStatusSet : List Str := specStatusSet ++ [lc "positive", lc "negative"]

theorem keywordStatus_mem (r : Str) : keywordStatus r ∈ extStatusSet := by
  unfold keywordStatus
  cases hf : statusKeywords.find? (fun p => containsS (lc p.1) r) with
  | none => decide
  | some p =>
    have hp := List.mem_of_find?_eq_some hf
    fin_cases hp <;> decide

theorem statusFromParts_mem (v : Dec) (rr : Str) (parts : List Str) :
    statusFromParts v rr parts ∈ extStatusSet := by
  rcases parts with _ | ⟨a, _ | ⟨b, rest⟩⟩ <;> simp only [statusFromParts] <;>
    repeat' split
  all_goals first
    | exact keywordStatus_mem _
    | decide

/-- C2, counterexample.  The status classifier returns negative — a value
outside the specified closed set — for the signal-to-cutoff value 0.13
against the reference range of the hepatitis line, and a full structural
extraction of that line produces a record carrying that status. -/
theorem claim2_counterexample :
    determineStatus ⟨13, 2⟩ (lc "S/CO < 1,0") = lc "negative" ∧
    lc "negative" ∉ specStatusSet ∧
    getVal ((extractMetricsFromText
        "Гепатит C (суммарные антитела): Не обнаружено, S/CO = 0,13 (норма: S/CO < 1,0)").headD [])
      "status" = some (PyVal.vs (lc "negative")) := by
  refine ⟨by decide, by decide, by decide⟩

/-- C2, amended.  For every value and reference range the status
classifiers return a value of the closed set normal, low, high, elevated,
detected, not-detected, unknown, positive, negative: the specified
enumeration must be extended by positive and negative (which the
single-bound comparator branch and two textual keywords produce), and
with that extension membership holds for both classifiers on all
inputs. -/
theorem claim2_status_closed_set (v : Dec) (rr : Str) :
    determineStatus v rr ∈ extStatusSet ∧ determineKazakhStatus v rr ∈ extStatusSet := by
  constructor
  · unfold determineStatus
    repeat' split
    all_goals first
      | exact statusFromParts_mem _ _ _
      | decide
  · unfold determineKazakhStatus
    repeat' split
    all_goals decide

/-! ## Claim C7: the document validator -/

/-- C7, confirmed.  The validator answers valid for at least two
non-placeholder metrics; otherwise valid with the caveat message for at
least three keywords of the bilingual list in the raw text; otherwise
invalid, with one message for exactly one metric and a different message
for none. -/
theorem claim7_validator (metrics : List PyDict) (raw : Str) :
    (2 ≤ (realMetricsOf metrics).length →
      validateMedicalDocument metrics raw = (true, msgValid)) ∧
    ((realMetricsOf metrics).length < 2 → 3 ≤ keywordCount raw →
      validateMedicalDocument metrics raw = (true, msgKeywordCaveat)) ∧
    ((realMetricsOf metrics).length = 1 → keywordCount raw < 3 →
      validateMedicalDocument metrics raw = (false, msgOnlyOne)) ∧
    ((realMetricsOf metrics).length = 0 → keywordCount raw < 3 →
      validateMedicalDocument metrics raw = (false, msgNotMedical)) ∧
    msgOnlyOne ≠ msgNotMedical := by
  refine ⟨?_, ?_, ?_, ?_, by decide⟩
  · intro h
    unfold validateMedicalDocument
    rw [if_pos h]
  · intro h1 h2
    unfold validateMedicalDocument
    rw [if_neg (by omega), if_pos h2]
  · intro h1 h2
    unfold validateMedicalDocument
    rw [if_neg (by omega), if_neg (by omega), if_pos (by simp [h1])]
  · intro h1 h2
    unfold validateMedicalDocument
    rw [if_neg (by omega), if_neg (by omega), if_neg (by simp [h1])]

/-- C7, witness: the validator at concrete inputs through the theorem. -/
theorem claim7_witness :
    validateMedicalDocument [] (lc "") = (false, msgNotMedical) ∧
    validateMedicalDocument [] (lc "кровь анализ норма пациент") = (true, msgKeywordCaveat) := by
  constructor
  · exact (claim7_validator [] (lc "")).2.2.2.1 (by decide) (by decide)
  · exact (claim7_validator [] (lc "кровь анализ норма пациент")).2.1 (by decide) (by decide)

/-! ## Claim C10: the round trip -/

/-- C10, counterexample.  The structural extractor produces from the
hepatitis line a record named hepatitis-c-total-antibodies with value
0.13 and status negative; re-feeding that record's own canonical
name-value-unit-range string reproduces the name and the value but the
comparator range is no longer recognised — the re-extracted record
carries range Not specified and status normal, so the round trip does
not preserve the status. -/
theorem claim10_counterexample :
    extractMetricsFromText
        "Гепатит C (суммарные антитела): Не обнаружено, S/CO = 0,13 (норма: S/CO < 1,0)" =
      [[("name", PyVal.vs (lc "hepatitis_c_total_antibodies")), ("value", PyVal.vf ⟨13, 2⟩),
        ("unit", PyVal.vs (lc "S/CO")), ("reference_range", PyVal.vs (lc "S/CO < 1,0")),
        ("status", PyVal.vs (lc "negative")), ("confidence", PyVal.vf ⟨9, 1⟩),
        ("original_line", PyVal.vs (lc "Гепатит C (суммарные антитела): Не обнаружено, S/CO = 0,13 (норма: S/CO < 1,0)"))]] ∧
    extractMetricsFromText "hepatitis_c_total_antibodies: 0.13 S/CO (S/CO < 1,0)" =
      [[("name", PyVal.vs (lc "hepatitis_c_total_antibodies")), ("value", PyVal.vf ⟨13, 2⟩),
        ("unit", PyVal.vs (lc "S/CO")), ("reference_range", PyVal.vs (lc "Not specified")),
        ("status", PyVal.vs (lc "normal")), ("confidence", PyVal.vf ⟨8, 1⟩),
        ("original_line", PyVal.vs (lc "hepatitis_c_total_antibodies: 0.13 S/CO (S/CO < 1,0)"))]] ∧
    lc "negative" ≠ lc "normal" := by
  refine ⟨by decide, by decide, by decide⟩


/-! ## Claim C4: the labelled number-unit-range line -/

/-- C4, counterexample.  The line with label WBC — which resolves through
the alias table to white-blood-cells — value 9.00, unit per-litre, and a
norm range 4.00 to 12.00 strictly containing the value yields zero
records instead of one record with status normal: the parsed value hits
the suspicious-value rule for the value nine with the bare per-litre
unit and the record is dropped. -/
theorem claim4_counterexample :
    normalizeMetricName (lc "WBC") = lc "white_blood_cells" ∧
    Dec.lt ⟨4, 0⟩ ⟨9, 0⟩ = true ∧ Dec.lt ⟨9, 0⟩ ⟨12, 0⟩ = true ∧
    isSuspiciousValue ⟨9, 0⟩ (lc "/л") = true ∧
    extractMetricsFromText "WBC: 9.00 /л (норма: 4,00 - 12,00)" = [] := by
  refine ⟨by decide, by decide, by decide, by decide, by decide⟩

/-! ## Claim C3, counterexample -/

/-- C3, counterexample.  The Kazakh template path emits a record with
exactly the five fields name, value, unit, reference-range and status —
the confidence and debug fields of the claim are absent — and its name is
the fixed English display name ALT, which is neither lowercase nor an
underscore-joined canonical identifier. -/
theorem claim3_counterexample :
    extractKazakhMetricsFromResults ["Аланинаминотрансфераза", "49,00", "Едол", "3 - 45"] =
      [[("name", PyVal.vs (lc "ALT")), ("value", PyVal.vf ⟨49, 0⟩),
        ("unit", PyVal.vs (lc "Ед/л")), ("reference_range", PyVal.vs (lc "3 - 45")),
        ("status", PyVal.vs (lc "high"))]] ∧
    keysOf ((extractKazakhMetricsFromResults
        ["Аланинаминотрансфераза", "49,00", "Едол", "3 - 45"]).headD []) =
      ["name", "value", "unit", "reference_range", "status"] ∧
    (["name", "value", "unit", "reference_range", "status"] : List String) ≠
      ["name", "value", "unit", "reference_range", "status", "confidence", "original_line"] ∧
    (lc "ALT").any isUpperAlpha = true := by
  refine ⟨by decide, by decide, by decide, by decide⟩

/-! ## Helper lemmas on membership through the string utilities -/

theorem mem_of_startsW {w t : Str} (h : startsW w t = true) : ∀ c ∈ w, c ∈ t := by
  induction w generalizing t with
  | nil => intro c hc; cases hc
  | cons a as ih =>
    cases t with
    | nil => simp [startsW] at h
    | cons b bs =>
      simp only [startsW, Bool.and_eq_true, beq_iff_eq] at h
      intro c hc
      rw [List.mem_cons] at hc
      rcases hc with hc | hc
      · simp [hc, h.1]
      · exact List.mem_cons_of_mem _ (ih h.2 c hc)

theorem mem_of_containsS {w s : Str} (h : containsS w s = true) : ∀ c ∈ w, c ∈ s := by
  induction s with
  | nil => exact mem_of_startsW h
  | cons b bs ih =>
    simp only [containsS, Bool.or_eq_true] at h
    rcases h with h | h
    · exact mem_of_startsW h
    · intro c hc
      exact List.mem_cons_of_mem _ (ih h c hc)

theorem mem_dropWhile_of_neg {p : Char → Bool} {c : Char} :
    ∀ {l : Str}, c ∈ l → p c = false → c ∈ l.dropWhile p := by
  intro l
  induction l with
  | nil => intro h; cases h
  | cons a as ih =>
    intro hc hp
    rw [List.mem_cons] at hc
    by_cases ha : p a
    · rw [List.dropWhile_cons_of_pos ha]
      rcases hc with hc | hc
      · rw [hc] at hp; rw [hp] at ha; cases ha
      · exact ih hc hp
    · rw [List.dropWhile_cons_of_neg ha]
      rcases hc with hc | hc
      · simp [hc]
      · exact List.mem_cons_of_mem _ hc

theorem mem_stripL_of_not_ws {c : Char} {s : Str} (hc : c ∈ s) (hws : isWs c = false) :
    c ∈ stripL s := by
  unfold stripL
  rw [List.mem_reverse]
  apply mem_dropWhile_of_neg _ hws
  rw [List.mem_reverse]
  exact mem_dropWhile_of_neg hc hws

theorem exists_of_existsAt {m : Str → Bool} :
    ∀ {s : Str}, existsAt m s = true → ∃ t : Str, (∀ c ∈ t, c ∈ s) ∧ m t = true := by
  intro s
  induction s with
  | nil => intro h; simp [existsAt] at h
  | cons a as ih =>
    intro h
    simp only [existsAt, Bool.or_eq_true] at h
    rcases h with h | h
    · exact ⟨a :: as, fun c hc => hc, h⟩
    · obtain ⟨t, ht, hm⟩ := ih h
      exact ⟨t, fun c hc => List.mem_cons_of_mem _ (ht c hc), hm⟩

theorem digit_of_matchAtDDMMYYYY {t : Str} (h : matchAtDDMMYYYY t = true) :
    ∃ c ∈ t, isDigitC c = true := by
  unfold matchAtDDMMYYYY at h
  rcases t with _ | ⟨a, t1⟩
  · cases h
  rcases t1 with _ | ⟨b, t2⟩
  · cases h
  rcases t2 with _ | ⟨p, t3⟩
  · cases h
  rcases t3 with _ | ⟨c, t4⟩
  · cases h
  rcases t4 with _ | ⟨d, t5⟩
  · cases h
  rcases t5 with _ | ⟨q, t6⟩
  · cases h
  rcases t6 with _ | ⟨e, t7⟩
  · cases h
  rcases t7 with _ | ⟨f, t8⟩
  · cases h
  rcases t8 with _ | ⟨g, t9⟩
  · cases h
  rcases t9 with _ | ⟨h2, r⟩
  · cases h
  simp only [Bool.and_eq_true] at h
  exact ⟨a, List.mem_cons_self _ _, h.1.1.1.1.1.1.1.1.1⟩

theorem no_digit_no_ddmmyyyy {s : Str} (h : ∀ c ∈ s, isDigitC c = false) :
    existsAt matchAtDDMMYYYY s = false := by
  by_contra hcon
  rw [Bool.not_eq_false] at hcon
  obtain ⟨t, ht, hm⟩ := exists_of_existsAt hcon
  obtain ⟨c, hc, hd⟩ := digit_of_matchAtDDMMYYYY hm
  have := h c (ht c hc)
  rw [this] at hd
  cases hd

/-! ## Claim C8: datetime-shaped lines -/

/-- C8, confirmed.  A line whose label (the text before the first colon,
stripped) matches one of the date shapes, and whose label carries no
medical-context indicator, passes the datetime filter as a date and
produces no record; in particular the concrete timestamp line yields
zero records. -/
theorem claim8_datetime :
    (∀ (line : Str) (i : Nat), firstColonIdx line = some i →
      (existsAt matchAtDate1 (stripL (line.take i)) = true ∨
       existsAt matchAtDate2 (stripL (line.take i)) = true) →
      hasMedContext (toLowerS (stripL (line.take i))) = false →
      perLineMetric line = []) ∧
    extractMetricsFromText "26.04.2025: 16:12" = [] := by
  constructor
  · intro line i hidx hdate hmed
    unfold perLineMetric
    by_cases hc : containsS [':'] line
    · rw [hidx]
      simp only [hc, Bool.not_true, Bool.false_eq_true, if_false]
      by_cases hvp : (stripL (line.drop (i + 1)) == []) = true
      · simp [hvp]
      · have hdt :
            isDatetimeLine (stripL (line.take i)) (stripL (line.drop (i + 1))) line = true := by
          unfold isDatetimeLine
          rcases hdate with h | h <;> simp [hmed, h]
        have hinvalid :
            isValidMetricLine (stripL (line.take i)) (stripL (line.drop (i + 1))) line = false := by
          unfold isValidMetricLine
          simp [hdt]
        simp [hvp, hinvalid]
    · simp [hc]
  · decide

/-- C8, witness: the theorem applied to the concrete timestamp line. -/
theorem claim8_witness : perLineMetric (lc "26.04.2025: 16:12") = [] :=
  claim8_datetime.1 (lc "26.04.2025: 16:12") 10 (by decide) (Or.inl (by decide)) (by decide)

/-! ## Claim C9: per-line locality -/

/-- C9, confirmed.  Structural extraction is the per-line map joined
together; removing any line that contributes no record leaves the other
lines' records unchanged; and a line contributes no record when the
validity filter rejects it, when the parser returns nothing, or when the
parsed value is suspicious — nonpositive with a non-qualitative unit, or
exactly nine with the bare per-litre unit. -/
theorem claim9_locality :
    (∀ text : String,
      extractMetricsFromText text = ((splitOnC '\n' text.toList).map perLineMetric).flatten) ∧
    (∀ (pre post : List Str) (l : Str), perLineMetric l = [] →
      extractLoop (pre ++ l :: post) = extractLoop (pre ++ post)) ∧
    (∀ (line : Str) (i : Nat), firstColonIdx line = some i →
      isValidMetricLine (stripL (line.take i)) (stripL (line.drop (i + 1))) line = false →
      perLineMetric line = []) ∧
    (∀ (line : Str) (i : Nat), firstColonIdx line = some i →
      parseValueAndUnit (stripL (line.drop (i + 1))) = none →
      perLineMetric line = []) ∧
    (∀ (line : Str) (i : Nat) (v : Dec) (u : Str) (conf : Dec),
      firstColonIdx line = some i →
      parseValueAndUnit (stripL (line.drop (i + 1))) = some (v, u, conf) →
      ((Dec.le v ⟨0, 0⟩ = true ∧ u ≠ lc "qualitative") ∨
        (Dec.eqv v ⟨9, 0⟩ = true ∧ u = lc "/л")) →
      perLineMetric line = []) := by
  refine ⟨?_, ?_, ?_, ?_, ?_⟩
  · intro text
    unfold extractMetricsFromText
    generalize splitOnC '\n' text.toList = ls
    induction ls with
    | nil => rfl
    | cons l ls ih => simp [extractLoop, ih]
  · intro pre post l hl
    induction pre with
    | nil => simp [extractLoop, hl]
    | cons p ps ih => simp [extractLoop, ih]
  · intro line i hidx hinvalid
    unfold perLineMetric
    by_cases hc : containsS [':'] line
    · rw [hidx]
      simp only [hc, Bool.not_true, Bool.false_eq_true, if_false]
      by_cases hvp : (stripL (line.drop (i + 1)) == []) = true
      · simp [hvp]
      · simp [hvp, hinvalid]
    · simp [hc]
  · intro line i hidx hparse
    unfold perLineMetric
    by_cases hc : containsS [':'] line
    · rw [hidx]
      simp only [hc, Bool.not_true, Bool.false_eq_true, if_false]
      by_cases hvp : (stripL (line.drop (i + 1)) == []) = true
      · simp [hvp]
      · by_cases hval : isValidMetricLine (stripL (line.take i)) (stripL (line.drop (i + 1))) line
        · simp [hvp, hval, hparse]
        · simp [hvp, hval]
    · simp [hc]
  · intro line i v u conf hidx hparse hsusp
    have hs : isSuspiciousValue v u = true := by
      unfold isSuspiciousValue
      rcases hsusp with ⟨hle, hne⟩ | ⟨heq, hu⟩
      · have hqual : (u == lc "qualitative") = false := by
          rw [beq_eq_false_iff_ne]; exact hne
        rw [if_neg (by simp [hqual])]
        by_cases h9 : (Dec.eqv v ⟨9, 0⟩ && u == lc "/л") = true
        · simp [h9]
        · simp only [h9, Bool.false_eq_true, if_false]
          rw [if_pos (by simp [hle, hne])]
      · have hqual : (u == lc "qualitative") = false := by
          rw [beq_eq_false_iff_ne]
          rw [hu]; decide
        rw [if_neg (by simp [hqual])]
        rw [if_pos (by simp [heq, hu])]
    unfold perLineMetric
    by_cases hc : containsS [':'] line
    · rw [hidx]
      simp only [hc, Bool.not_true, Bool.false_eq_true, if_false]
      by_cases hvp : (stripL (line.drop (i + 1)) == []) = true
      · simp [hvp]
      · by_cases hval : isValidMetricLine (stripL (line.take i)) (stripL (line.drop (i + 1))) line
        · simp [hvp, hval, hparse, hs]
        · simp [hvp, hval]
    · simp [hc]

/-- C9, witness: the suspicious-value clause applied to the concrete
per-litre line with value nine. -/
theorem claim9_witness : perLineMetric (lc "WBC: 9.00 /л (норма: 4,00 - 12,00)") = [] :=
  claim9_locality.2.2.2.2 (lc "WBC: 9.00 /л (норма: 4,00 - 12,00)") 3 ⟨9, 0⟩ (lc "/л") ⟨8, 1⟩
    (by decide) (by decide) (Or.inr ⟨by decide, by decide⟩)

/-! ## Character class facts for the qualitative-keyword claim -/

theorem char_eq_false_of_toNat_ne {c d : Char} (h : c.toNat ≠ d.toNat) : (c == d) = false := by
  by_contra hcon
  rw [Bool.not_eq_false, beq_iff_eq] at hcon
  exact h (by rw [hcon])

theorem isWs_false_of_digit {c : Char} (h : isDigitC c = true) : isWs c = false := by
  unfold isDigitC at h
  simp only [Bool.and_eq_true, decide_eq_true_eq] at h
  unfold isWs
  rw [char_eq_false_of_toNat_ne (by simp; omega), char_eq_false_of_toNat_ne (by simp; omega),
    char_eq_false_of_toNat_ne (by simp; omega), char_eq_false_of_toNat_ne (by simp; omega),
    char_eq_false_of_toNat_ne (by simp; omega), char_eq_false_of_toNat_ne (by simp; omega)]
  rfl

theorem toLowerC_digit {c : Char} (h : isDigitC c = true) : toLowerC c = c := by
  unfold isDigitC at h
  simp only [Bool.and_eq_true, decide_eq_true_eq] at h
  unfold toLowerC isLatinUpper isCyrUpper
  rw [if_neg (by simp; omega), if_neg (by simp; omega),
    if_neg (by rw [char_eq_false_of_toNat_ne (by simp; omega)]; simp)]

/-! ## Claim C6: qualitative keywords -/

/-- C6, confirmed.  Any value fragment whose lowercased stripped text is
exactly the not-detected phrase parses to the sentinel zero with unit
qualitative and confidence 0.95; the other qualitative keywords map to
their sentinels likewise; with reference range Not specified the
classifier maps the sentinels one, zero and one-half to detected,
not-detected and normal; and the full hepatitis-antibody line yields the
claimed record. -/
theorem claim6_qualitative :
    (∀ vp : Str, stripL (toLowerS (stripL vp)) = lc "не обнаружено" →
      parseValueAndUnit vp = some (⟨0, 0⟩, lc "qualitative", ⟨95, 2⟩)) ∧
    parseValueAndUnit (lc "Обнаружено") = some (⟨1, 0⟩, lc "qualitative", ⟨95, 2⟩) ∧
    parseValueAndUnit (lc "Отрицательно") = some (⟨0, 0⟩, lc "qualitative", ⟨9, 1⟩) ∧
    parseValueAndUnit (lc "Положительно") = some (⟨1, 0⟩, lc "qualitative", ⟨9, 1⟩) ∧
    parseValueAndUnit (lc "Позитивно") = some (⟨1, 0⟩, lc "qualitative", ⟨9, 1⟩) ∧
    parseValueAndUnit (lc "Негативно") = some (⟨0, 0⟩, lc "qualitative", ⟨9, 1⟩) ∧
    parseValueAndUnit (lc "Норма") = some (⟨5, 1⟩, lc "qualitative", ⟨85, 2⟩) ∧
    parseValueAndUnit (lc "В пределах нормы") = some (⟨5, 1⟩, lc "qualitative", ⟨85, 2⟩) ∧
    determineStatus ⟨1, 0⟩ (lc "Not specified") = lc "detected" ∧
    determineStatus ⟨0, 0⟩ (lc "Not specified") = lc "not_detected" ∧
    determineStatus ⟨5, 1⟩ (lc "Not specified") = lc "normal" ∧
    extractMetricsFromText "Антитела к гепатиту C: Не обнаружено" =
      [[("name", PyVal.vs (lc "hepatitis_c_antibodies")), ("value", PyVal.vf ⟨0, 0⟩),
        ("unit", PyVal.vs (lc "qualitative")),
        ("reference_range", PyVal.vs (lc "Not specified")),
        ("status", PyVal.vs (lc "not_detected")), ("confidence", PyVal.vf ⟨95, 2⟩),
        ("original_line", PyVal.vs (lc "Антитела к гепатиту C: Не обнаружено"))]] := by
  refine ⟨?_, by decide, by decide, by decide, by decide, by decide, by decide, by decide,
    by decide, by decide, by decide, by decide⟩
  intro vp hvl
  have hnodigit : ∀ c ∈ stripL vp, isDigitC c = false := by
    intro c hc
    by_contra hcon
    rw [Bool.not_eq_false] at hcon
    have h1 : toLowerC c ∈ toLowerS (stripL vp) := List.mem_map_of_mem _ hc
    rw [toLowerC_digit hcon] at h1
    have h2 : c ∈ stripL (toLowerS (stripL vp)) :=
      mem_stripL_of_not_ws h1 (isWs_false_of_digit hcon)
    rw [hvl] at h2
    have h3 : ∀ d ∈ lc "не обнаружено", isDigitC d = false := by decide
    have := h3 c h2
    rw [this] at hcon
    cases hcon
  have hword : ∀ cw : Char, isWs cw = false → cw ∉ lc "не обнаружено" →
      ∀ w : Str, cw ∈ w → containsS w (toLowerS (stripL vp)) = false := by
    intro cw hws hnotin w hcw
    by_contra hcon
    rw [Bool.not_eq_false] at hcon
    have h1 := mem_of_containsS hcon cw hcw
    have h2 : cw ∈ stripL (toLowerS (stripL vp)) := mem_stripL_of_not_ws h1 hws
    rw [hvl] at h2
    exact hnotin h2
  have hcontam : hasContamination (stripL vp) = false := by
    unfold hasContamination
    rw [no_digit_no_ddmmyyyy hnodigit]
    have h1 : containsS (lc "алу орны") (toLowerS (stripL vp)) = false :=
      hword 'л' (by decide) (by decide) _ (by decide)
    have h2 : containsS (lc "биоматериалды") (toLowerS (stripL vp)) = false :=
      hword 'и' (by decide) (by decide) _ (by decide)
    have h3 : containsS (lc "результатах") (toLowerS (stripL vp)) = false :=
      hword 'з' (by decide) (by decide) _ (by decide)
    have h4 : containsS (lc "отчет") (toLowerS (stripL vp)) = false :=
      hword 'т' (by decide) (by decide) _ (by decide)
    simp only [List.any_cons, List.any_nil, h1, h2, h3, h4, Bool.or_false, Bool.false_or]
  have hne : isNeObnFull (stripL (toLowerS (stripL vp))) = true := by
    rw [hvl]; decide
  unfold parseValueAndUnit
  simp only [hcontam, Bool.false_eq_true, if_false, hne, if_true]

/-- C6, witness: the universal clause applied to the concrete fragment. -/
theorem claim6_witness :
    parseValueAndUnit (lc "Не обнаружено") = some (⟨0, 0⟩, lc "qualitative", ⟨95, 2⟩) :=
  claim6_qualitative.1 (lc "Не обнаружено") (by decide)

/-! ## Helper lemmas for reasoning about matches on composite strings -/

theorem takeWhile_app {p : Char → Bool} {xs : Str} {y : Char} {ys : Str}
    (hxs : ∀ c ∈ xs, p c = true) (hy : p y = false) :
    (xs ++ y :: ys).takeWhile p = xs := by
  induction xs with
  | nil => simp [List.takeWhile, hy]
  | cons a as ih =>
    have ha : p a = true := hxs a (List.mem_cons_self _ _)
    simp only [List.cons_append, List.takeWhile_cons_of_pos ha, List.cons.injEq, true_and]
    exact ih (fun c hc => hxs c (List.mem_cons_of_mem _ hc))

theorem dropWhile_app {p : Char → Bool} {xs : Str} {y : Char} {ys : Str}
    (hxs : ∀ c ∈ xs, p c = true) (hy : p y = false) :
    (xs ++ y :: ys).dropWhile p = y :: ys := by
  induction xs with
  | nil => simp [List.dropWhile, hy]
  | cons a as ih =>
    have ha : p a = true := hxs a (List.mem_cons_self _ _)
    simp only [List.cons_append, List.dropWhile_cons_of_pos ha]
    exact ih (fun c hc => hxs c (List.mem_cons_of_mem _ hc))

theorem replaceC_eq_self {a b : Char} {s : Str} (h : ∀ c ∈ s, (c == a) = false) :
    replaceC a b s = s := by
  unfold replaceC
  have h2 : ∀ c ∈ s, (if c == a then b else c) = id c := fun c hc => by simp [h c hc]
  rw [List.map_congr_left h2, List.map_id]

theorem toLowerS_eq_self {s : Str} (h : ∀ c ∈ s, toLowerC c = c) : toLowerS s = s := by
  unfold toLowerS
  have h2 : ∀ c ∈ s, toLowerC c = id c := h
  rw [List.map_congr_left h2, List.map_id]

theorem stripL_eq_self_of_ends {s : Str}
    (h1 : ∀ c, s.head? = some c → isWs c = false)
    (h2 : ∀ c, s.getLast? = some c → isWs c = false) : stripL s = s := by
  unfold stripL
  have ha : s.dropWhile isWs = s := by
    cases s with
    | nil => rfl
    | cons a t => rw [List.dropWhile_cons_of_neg (by rw [h1 a rfl]; simp)]
  rw [ha]
  have hb : s.reverse.dropWhile isWs = s.reverse := by
    cases hr : s.reverse with
    | nil => rfl
    | cons a t =>
      have : s.getLast? = some a := by
        rw [← List.head?_reverse, hr]; rfl
      rw [List.dropWhile_cons_of_neg (by rw [h2 a this]; simp)]
  rw [hb, List.reverse_reverse]

theorem existsAt_split {m : Str → Bool} :
    ∀ {s : Str}, existsAt m s = true → ∃ u t : Str, s = u ++ t ∧ m t = true := by
  intro s
  induction s with
  | nil => intro h; simp [existsAt] at h
  | cons a as ih =>
    intro h
    simp only [existsAt, Bool.or_eq_true] at h
    rcases h with h | h
    · exact ⟨[], a :: as, rfl, h⟩
    · obtain ⟨u, t, hs, hm⟩ := ih h
      exact ⟨a :: u, t, by rw [List.cons_append, ← hs], hm⟩

theorem two_dots_of_matchAtDDMMYYYY {t : Str} (h : matchAtDDMMYYYY t = true) :
    2 ≤ t.count '.' := by
  unfold matchAtDDMMYYYY at h
  rcases t with _ | ⟨a, t1⟩
  · cases h
  rcases t1 with _ | ⟨b, t2⟩
  · cases h
  rcases t2 with _ | ⟨p, t3⟩
  · cases h
  rcases t3 with _ | ⟨c, t4⟩
  · cases h
  rcases t4 with _ | ⟨d, t5⟩
  · cases h
  rcases t5 with _ | ⟨q, t6⟩
  · cases h
  rcases t6 with _ | ⟨e, t7⟩
  · cases h
  rcases t7 with _ | ⟨f, t8⟩
  · cases h
  rcases t8 with _ | ⟨g, t9⟩
  · cases h
  rcases t9 with _ | ⟨h2, r⟩
  · cases h
  simp only [Bool.and_eq_true, beq_iff_eq] at h
  obtain ⟨⟨⟨⟨⟨⟨⟨⟨⟨ha, hb⟩, hp⟩, hc⟩, hd⟩, hq⟩, he⟩, hf⟩, hg⟩, hh⟩ := h
  subst hp
  subst hq
  simp [List.count_cons]
  split_ifs <;> omega

theorem no_ddmmyyyy_of_one_dot {s : Str} (h : s.count '.' < 2) :
    existsAt matchAtDDMMYYYY s = false := by
  by_contra hcon
  rw [Bool.not_eq_false] at hcon
  obtain ⟨u, t, hs, hm⟩ := existsAt_split hcon
  have h2 := two_dots_of_matchAtDDMMYYYY hm
  rw [hs, List.count_append] at h
  omega

theorem list_beq_false_of_head {s t : Str} {a b : Char}
    (hs : s.head? = some a) (ht : t.head? = some b) (h : a ≠ b) : (s == t) = false := by
  rw [beq_eq_false_iff_ne]
  intro heq
  rw [heq, ht] at hs
  injection hs with hba
  exact h hba.symm

theorem searchWith_eval {α : Type} (m : Str → Option α) {s : Str} {r : α}
    (hne : s ≠ []) (h : m s = some r) : searchWith m s = some r := by
  cases s with
  | nil => exact absurd rfl hne
  | cons c t => simp [searchWith, h]

theorem numTok_decimal {mI mF rest : Str} {y : Char}
    (hmI : ∀ c ∈ mI, isDigitC c = true) (hmF : ∀ c ∈ mF, isDigitC c = true)
    (hI : mI ≠ []) (hy : isDigitC y = false) :
    numTok (mI ++ '.' :: (mF ++ y :: rest)) = some (mI ++ '.' :: mF, y :: rest) := by
  unfold numTok
  rw [takeWhile_app hmI (by decide), dropWhile_app hmI (by decide)]
  rcases mI with _ | ⟨i0, is⟩
  · exact absurd rfl hI
  simp [takeWhile_app hmF hy, dropWhile_app hmF hy]

theorem digit_ne_char {c : Char} (h : isDigitC c = true) {d : Char}
    (hd : d.toNat < 48 ∨ 57 < d.toNat) : (c == d) = false := by
  unfold isDigitC at h
  simp only [Bool.and_eq_true, decide_eq_true_eq] at h
  apply char_eq_false_of_toNat_ne
  omega

/-! ## Claim C5: scientific notation preserves the mantissa -/

/-- C5, confirmed.  For every fragment of the scientific shape — a
decimal mantissa, a space, ten-caret-exponent and the per-litre unit —
the parser returns the float of the mantissa as written (not multiplied
out), the unit string ten-caret-exponent-unit, and confidence 0.95; the
concrete red-blood-cell line extracts to a record with value 5.66, unit
containing ten to the twelfth, and status normal. -/
theorem claim5_scientific_mantissa :
    (∀ (mI mF e : Str) (v : Dec),
      (∀ c ∈ mI, isDigitC c = true) → (∀ c ∈ mF, isDigitC c = true) →
      (∀ c ∈ e, isDigitC c = true) → mI ≠ [] → mF ≠ [] → e ≠ [] →
      parsePyFloat (mI ++ '.' :: mF) = some v →
      parseValueAndUnit (mI ++ '.' :: (mF ++ ' ' :: '1' :: '0' :: '^' :: (e ++ ['/', 'л']))) =
        some (v, lc "10^" ++ natRepr (parsePyInt e) ++ ['/', 'л'], ⟨95, 2⟩)) ∧
    extractMetricsFromText "RBC: 5.66 10^12/л (норма: 4,50 - 5,90)" =
      [[("name", PyVal.vs (lc "red_blood_cells")), ("value", PyVal.vf ⟨566, 2⟩),
        ("unit", PyVal.vs (lc "10^12/л")), ("reference_range", PyVal.vs (lc "4,50 - 5,90")),
        ("status", PyVal.vs (lc "normal")), ("confidence", PyVal.vf ⟨95, 2⟩),
        ("original_line", PyVal.vs (lc "RBC: 5.66 10^12/л (норма: 4,50 - 5,90)"))]] := by
  constructor
  · intro mI mF e v hmI hmF hE hInil hFnil hEnil hv
    rcases mI with _ | ⟨i0, is⟩
    · exact absurd rfl hInil
    have hi0 : isDigitC i0 = true := hmI i0 (List.mem_cons_self _ _)
    have hi0n : 48 ≤ i0.toNat ∧ i0.toNat ≤ 57 := by
      unfold isDigitC at hi0
      simpa using hi0
    -- the family string
    set S := (i0 :: is) ++ '.' :: (mF ++ ' ' :: '1' :: '0' :: '^' :: (e ++ ['/', 'л'])) with hS
    -- every character of the family
    have hSmem : ∀ c ∈ S, isDigitC c = true ∨ c = '.' ∨ c = ' ' ∨ c = '^' ∨ c = '/' ∨ c = 'л' := by
      intro c hc
      rw [hS] at hc
      rcases List.mem_append.mp hc with h | h
      · exact Or.inl (hmI c h)
      rcases List.mem_cons.mp h with h | h
      · exact Or.inr (Or.inl h)
      rcases List.mem_append.mp h with h | h
      · exact Or.inl (hmF c h)
      rcases List.mem_cons.mp h with h | h
      · exact Or.inr (Or.inr (Or.inl h))
      rcases List.mem_cons.mp h with h | h
      · exact Or.inl (by rw [h]; decide)
      rcases List.mem_cons.mp h with h | h
      · exact Or.inl (by rw [h]; decide)
      rcases List.mem_cons.mp h with h | h
      · exact Or.inr (Or.inr (Or.inr (Or.inl h)))
      rcases List.mem_append.mp h with h | h
      · exact Or.inl (hE c h)
      rcases List.mem_cons.mp h with h | h
      · exact Or.inr (Or.inr (Or.inr (Or.inr (Or.inl h))))
      rcases List.mem_cons.mp h with h | h
      · exact Or.inr (Or.inr (Or.inr (Or.inr (Or.inr h))))
      cases h
    -- the family is already stripped
    have hhead : S.head? = some i0 := by rw [hS]; rfl
    have hlast : S.getLast? = some 'л' := by
      have h2 : S = ((i0 :: is) ++ '.' :: (mF ++ ' ' :: '1' :: '0' :: '^' :: (e ++ ['/']))) ++ ['л'] := by
        rw [hS]; simp
      rw [h2, List.getLast?_concat]
    have hstrip : stripL S = S := by
      apply stripL_eq_self_of_ends
      · intro c hc
        rw [hhead] at hc
        injection hc with hc
        rw [hc] at hi0
        exact isWs_false_of_digit hi0
      · intro c hc
        rw [hlast] at hc
        injection hc with hc
        rw [← hc]
        decide
    -- lowering is the identity on the family
    have hlower : toLowerS S = S := by
      apply toLowerS_eq_self
      intro c hc
      rcases hSmem c hc with h | h | h | h | h | h
      · exact toLowerC_digit h
      all_goals rw [h]; decide
    -- the family has exactly one point
    have hdots : S.count '.' < 2 := by
      have hcI : (i0 :: is).count '.' = 0 := by
        rw [List.count_eq_zero]
        intro hmem
        have := hmI '.' hmem
        exact absurd this (by decide)
      have hcF : mF.count '.' = 0 := by
        rw [List.count_eq_zero]
        intro hmem
        have := hmF '.' hmem
        exact absurd this (by decide)
      have hcE : e.count '.' = 0 := by
        rw [List.count_eq_zero]
        intro hmem
        have := hE '.' hmem
        exact absurd this (by decide)
      rw [hS, List.count_append, hcI]
      simp [List.count_cons, List.count_append, hcF, hcE]
    -- no character outside the family charset occurs in it
    have hnotin : ∀ cw : Char, isDigitC cw = false → cw ≠ '.' → cw ≠ ' ' → cw ≠ '^' →
        cw ≠ '/' → cw ≠ 'л' → cw ∉ S := by
      intro cw h1 h2 h3 h4 h5 h6 hmem
      rcases hSmem cw hmem with h | h | h | h | h | h
      · rw [h1] at h; cases h
      · exact h2 h
      · exact h3 h
      · exact h4 h
      · exact h5 h
      · exact h6 h
    have hcontam : hasContamination S = false := by
      unfold hasContamination
      rw [no_ddmmyyyy_of_one_dot hdots]
      have h1 : containsS (lc "алу орны") (toLowerS S) = false := by
        rw [hlower]
        by_contra hcon
        rw [Bool.not_eq_false] at hcon
        exact hnotin 'а' (by decide) (by decide) (by decide) (by decide) (by decide) (by decide)
          (mem_of_containsS hcon 'а' (by decide))
      have h2 : containsS (lc "биоматериалды") (toLowerS S) = false := by
        rw [hlower]
        by_contra hcon
        rw [Bool.not_eq_false] at hcon
        exact hnotin 'б' (by decide) (by decide) (by decide) (by decide) (by decide) (by decide)
          (mem_of_containsS hcon 'б' (by decide))
      have h3 : containsS (lc "результатах") (toLowerS S) = false := by
        rw [hlower]
        by_contra hcon
        rw [Bool.not_eq_false] at hcon
        exact hnotin 'р' (by decide) (by decide) (by decide) (by decide) (by decide) (by decide)
          (mem_of_containsS hcon 'р' (by decide))
      have h4 : containsS (lc "отчет") (toLowerS S) = false := by
        rw [hlower]
        by_contra hcon
        rw [Bool.not_eq_false] at hcon
        exact hnotin 'о' (by decide) (by decide) (by decide) (by decide) (by decide) (by decide)
          (mem_of_containsS hcon 'о' (by decide))
      simp only [List.any_cons, List.any_nil, h1, h2, h3, h4, Bool.or_false, Bool.false_or]
    -- a Cyrillic letter can never equal the digit head
    have hcyr_ne : ∀ d : Char, 1072 ≤ d.toNat → (d == i0) = false := by
      intro d hd
      apply char_eq_false_of_toNat_ne
      omega
    have hne_i0 : ∀ d : Char, 1072 ≤ d.toNat → i0 ≠ d := by
      intro d hd heq
      rw [heq] at hi0n
      omega
    -- every anchored qualitative check fails on the family
    have hq1 : isNeObnFull S = false := by
      unfold isNeObnFull
      rw [hS]
      simp [startsW, List.cons_append, hcyr_ne 'н' (by decide)]
    have hq8 : isVPredelahFull S = false := by
      unfold isVPredelahFull
      rw [hS]
      simp [startsW, List.cons_append, hcyr_ne 'в' (by decide)]
    have hbeq : ∀ w : Str, w.head? = some 'о' → (S == w) = false := by
      intro w hw
      exact list_beq_false_of_head hhead hw (hne_i0 'о' (by decide))
    have hbeq2 : ∀ w : Str, w.head? = some 'н' → (S == w) = false := by
      intro w hw
      exact list_beq_false_of_head hhead hw (hne_i0 'н' (by decide))
    have hbeq3 : ∀ w : Str, w.head? = some 'п' → (S == w) = false := by
      intro w hw
      exact list_beq_false_of_head hhead hw (hne_i0 'п' (by decide))
    -- the scientific matcher fires at position zero
    have hnum : numTok S = some ((i0 :: is) ++ '.' :: mF,
        ' ' :: '1' :: '0' :: '^' :: (e ++ ['/', 'л'])) := by
      rw [hS]
      exact numTok_decimal hmI hmF (by simp) (by decide)
    have hsci : matchAtSci S = some ((i0 :: is) ++ '.' :: mF, e, ['/', 'л']) := by
      unfold matchAtSci
      rw [hnum]
      simp only []
      rw [if_pos (by decide)]
      have hdrop : (' ' :: '1' :: '0' :: '^' :: (e ++ ['/', 'л'])).dropWhile isWs =
          '1' :: '0' :: '^' :: (e ++ ['/', 'л']) := by
        rw [List.dropWhile_cons_of_pos (by decide), List.dropWhile_cons_of_neg (by decide)]
      rw [hdrop]
      have hten : matchTenExp ('1' :: '0' :: '^' :: (e ++ ['/', 'л'])) =
          some (e, ['/', 'л']) := by
        unfold matchTenExp
        rw [if_pos (show startsW (lc "10") ('1' :: '0' :: '^' :: (e ++ ['/', 'л'])) = true from rfl)]
        simp only [List.drop_succ_cons, List.drop_zero]
        rw [takeWhile_app hE (by decide), dropWhile_app hE (by decide)]
        rcases e with _ | ⟨e0, es⟩
        · exact absurd rfl hEnil
        simp
      rw [hten]
      rfl
    have hsearch : searchSci S = some ((i0 :: is) ++ '.' :: mF, e, ['/', 'л']) := by
      unfold searchSci
      apply searchWith_eval
      · rw [hS]; simp
      · exact hsci
    have hstrat : stratSci S = some (v, lc "10^" ++ natRepr (parsePyInt e) ++ ['/', 'л'],
        ⟨95, 2⟩) := by
      unfold stratSci
      rw [hsearch]
      have hrepl : replaceC ',' '.' ((i0 :: is) ++ '.' :: mF) = (i0 :: is) ++ '.' :: mF := by
        apply replaceC_eq_self
        intro c hc
        rcases List.mem_append.mp hc with h | h
        · exact digit_ne_char (hmI c h) (by decide)
        rcases List.mem_cons.mp h with h | h
        · rw [h]; decide
        · exact digit_ne_char (hmF c h) (by decide)
      have hclean : cleanUnit (stripL ['/', 'л']) = ['/', 'л'] := by decide
      simp only [hrepl, hv, hclean]
    -- assemble the parser
    show parseValueAndUnit S = _
    unfold parseValueAndUnit
    simp only [hstrip, hcontam, Bool.false_eq_true, if_false, hlower]
    rw [hq1]
    simp only [Bool.false_eq_true, if_false]
    rw [hbeq (lc "обнаружено") rfl, hbeq (lc "отрицательно") rfl]
    rw [hbeq3 (lc "положительно") rfl, hbeq3 (lc "позитивно") rfl]
    rw [hbeq2 (lc "негативно") rfl, hbeq2 (lc "норма") rfl]
    simp only [Bool.false_eq_true, if_false]
    rw [hq8]
    simp only [Bool.false_eq_true, if_false]
    rw [hstrat]
  · decide

/-- C5, witness: the theorem applied to the red-blood-cell mantissa. -/
theorem claim5_witness :
    parseValueAndUnit (lc "5.66 10^12/л") = some (⟨566, 2⟩, lc "10^12/л", ⟨95, 2⟩) := by
  have h := claim5_scientific_mantissa.1 ['5'] ['6', '6'] ['1', '2'] ⟨566, 2⟩
    (by decide) (by decide) (by decide) (by decide) (by decide) (by decide) (by decide)
  exact h

/-! ## Record shape and name normaliser properties -/

theorem toNat_ofNat_valid {n : Nat} (h : n < 55296) : (Char.ofNat n).toNat = n := by
  unfold Char.ofNat
  rw [dif_pos (Or.inl h)]
  rfl

theorem dropWhile_head {p : Char → Bool} : ∀ {l : Str} {c : Char} {t : Str},
    l.dropWhile p = c :: t → p c = false := by
  intro l
  induction l with
  | nil => intro c t h; cases h
  | cons a as ih =>
    intro c t h
    rw [List.dropWhile_cons] at h
    by_cases hp : p a = true
    · rw [if_pos hp] at h; exact ih h
    · rw [if_neg hp] at h
      injection h with h1 _
      rw [← h1]
      exact Bool.eq_false_iff.mpr hp

theorem getLast?_dropWhile {p : Char → Bool} {l : Str} (h : l.dropWhile p ≠ []) :
    (l.dropWhile p).getLast? = l.getLast? := by
  have hsplit : l.takeWhile p ++ l.dropWhile p = l := List.takeWhile_append_dropWhile ..
  conv_rhs => rw [← hsplit]
  exact (List.getLast?_append_of_ne_nil _ h).symm

theorem getLast?_drop {l : Str} {k : Nat} (h : l.drop k ≠ []) :
    (l.drop k).getLast? = l.getLast? := by
  conv_rhs => rw [← List.take_append_drop k l]
  exact (List.getLast?_append_of_ne_nil _ h).symm

theorem stripL_head_not_ws {y : Str} {c : Char} {t : Str} (h : stripL y = c :: t) :
    isWs c = false := by
  unfold stripL at h
  have hz : ((y.dropWhile isWs).reverse.dropWhile isWs) ≠ [] := by
    intro he; rw [he] at h; cases h
  have h1 : ((y.dropWhile isWs).reverse.dropWhile isWs).reverse.head? = some c := by
    rw [h]; rfl
  rw [List.head?_reverse] at h1
  rw [getLast?_dropWhile hz] at h1
  rw [List.getLast?_reverse] at h1
  cases hr : y.dropWhile isWs with
  | nil => rw [hr] at h1; cases h1
  | cons a as =>
    rw [hr] at h1
    injection h1 with h1
    rw [← h1]
    exact dropWhile_head hr

theorem stripL_last_not_ws {y : Str} {c : Char} (h : (stripL y).getLast? = some c) :
    isWs c = false := by
  unfold stripL at h
  rw [List.getLast?_reverse] at h
  cases hr : (y.dropWhile isWs).reverse.dropWhile isWs with
  | nil => rw [hr] at h; cases h
  | cons a as =>
    rw [hr] at h
    injection h with h
    rw [← h]
    exact dropWhile_head hr

theorem isWs_false_of_ge_65 {c : Char} (h : 65 ≤ c.toNat) : isWs c = false := by
  unfold isWs
  rw [char_eq_false_of_toNat_ne (show c.toNat ≠ ' '.toNat by simp; omega)]
  rw [char_eq_false_of_toNat_ne (show c.toNat ≠ 9 by omega)]
  rw [char_eq_false_of_toNat_ne (show c.toNat ≠ 10 by omega)]
  rw [char_eq_false_of_toNat_ne (show c.toNat ≠ 13 by omega)]
  rw [char_eq_false_of_toNat_ne (show c.toNat ≠ 11 by omega)]
  rw [char_eq_false_of_toNat_ne (show c.toNat ≠ 12 by omega)]
  rfl

theorem latinLower_bounds {c : Char} (h : isLatinLower c = true) :
    97 ≤ c.toNat ∧ c.toNat ≤ 122 := by
  simpa [isLatinLower, Bool.and_eq_true, decide_eq_true_eq] using h

theorem cyrLower_bounds {c : Char} (h : isCyrLower c = true) :
    1072 ≤ c.toNat ∧ c.toNat ≤ 1103 := by
  simpa [isCyrLower, Bool.and_eq_true, decide_eq_true_eq] using h

theorem latinUpper_bounds {c : Char} (h : isLatinUpper c = true) :
    65 ≤ c.toNat ∧ c.toNat ≤ 90 := by
  simpa [isLatinUpper, Bool.and_eq_true, decide_eq_true_eq] using h

theorem cyrUpper_bounds {c : Char} (h : isCyrUpper c = true) :
    1040 ≤ c.toNat ∧ c.toNat ≤ 1071 := by
  simpa [isCyrUpper, Bool.and_eq_true, decide_eq_true_eq] using h

theorem toUpperC_ws (c : Char) : isWs (toUpperC c) = isWs c := by
  unfold toUpperC
  by_cases h1 : isLatinLower c = true
  · rw [if_pos h1]
    obtain ⟨hb1, hb2⟩ := latinLower_bounds h1
    have ht : (Char.ofNat (c.toNat - 32)).toNat = c.toNat - 32 :=
      toNat_ofNat_valid (by omega)
    have hws1 : isWs (Char.ofNat (c.toNat - 32)) = false :=
      isWs_false_of_ge_65 (by rw [ht]; omega)
    have hws2 : isWs c = false := isWs_false_of_ge_65 (by omega)
    rw [hws1, hws2]
  · rw [if_neg h1]
    by_cases h2 : isCyrLower c = true
    · rw [if_pos h2]
      obtain ⟨hb1, hb2⟩ := cyrLower_bounds h2
      have ht : (Char.ofNat (c.toNat - 32)).toNat = c.toNat - 32 :=
        toNat_ofNat_valid (by omega)
      have hws1 : isWs (Char.ofNat (c.toNat - 32)) = false :=
        isWs_false_of_ge_65 (by rw [ht]; omega)
      have hws2 : isWs c = false := isWs_false_of_ge_65 (by omega)
      rw [hws1, hws2]
    · rw [if_neg h2]
      by_cases h3 : (c == 'ё') = true
      · rw [if_pos h3]
        have : c = 'ё' := by
          have := h3
          simp [beq_iff_eq] at this
          exact this
        rw [this]
        rfl
      · rw [if_neg h3]

theorem isUpperAlpha_false_of_toNat {c : Char} (h1 : 90 < c.toNat ∨ c.toNat < 65)
    (h2 : c.toNat < 1040 ∨ 1071 < c.toNat) (h3 : c.toNat ≠ 1025) :
    isUpperAlpha c = false := by
  unfold isUpperAlpha isLatinUpper isCyrUpper
  rw [char_eq_false_of_toNat_ne (show c.toNat ≠ 'Ё'.toNat from h3)]
  simp only [Bool.or_false, Bool.or_eq_false_iff, Bool.and_eq_false_iff,
    decide_eq_false_iff_not]
  refine ⟨?_, ?_⟩ <;> omega

theorem toLowerC_not_upper (c : Char) : isUpperAlpha (toLowerC c) = false := by
  unfold toLowerC
  by_cases h1 : isLatinUpper c = true
  · rw [if_pos h1]
    obtain ⟨hb1, hb2⟩ := latinUpper_bounds h1
    have ht : (Char.ofNat (c.toNat + 32)).toNat = c.toNat + 32 :=
      toNat_ofNat_valid (by omega)
    refine isUpperAlpha_false_of_toNat ?_ ?_ ?_ <;> rw [ht] <;> omega
  · rw [if_neg h1]
    by_cases h2 : isCyrUpper c = true
    · rw [if_pos h2]
      obtain ⟨hb1, hb2⟩ := cyrUpper_bounds h2
      have ht : (Char.ofNat (c.toNat + 32)).toNat = c.toNat + 32 :=
        toNat_ofNat_valid (by omega)
      refine isUpperAlpha_false_of_toNat ?_ ?_ ?_ <;> rw [ht] <;> omega
    · rw [if_neg h2]
      by_cases h3 : (c == 'Ё') = true
      · rw [if_pos h3]
        rfl
      · rw [if_neg h3]
        unfold isUpperAlpha
        rw [Bool.eq_false_iff.mpr h1, Bool.eq_false_iff.mpr h2,
          Bool.eq_false_iff.mpr h3]
        rfl

theorem repl_keeps_not_upper {a d : Char} (h : isUpperAlpha d = false) :
    isUpperAlpha (if d == a then '_' else d) = false := by
  split
  · decide
  · exact h

theorem last_fact_of_eq {l : Str} {g : Char} (he : l.getLast? = some g)
    (hg : isWs g = false) : ∀ a, l.getLast? = some a → isWs a = false := by
  intro a h
  rw [he] at h
  injection h with h
  rw [← h]
  exact hg

theorem medMapLookup_good {k v : Str} (h : medMapLookup k = some v) :
    v ≠ [] ∧ v.all (fun c => !(isUpperAlpha c)) = true := by
  unfold medMapLookup at h
  cases hf : medicalMetricsMap.find? (fun p => lc p.1 == k) with
  | none => rw [hf] at h; cases h
  | some p =>
    rw [hf] at h
    injection h with h
    have hp := List.mem_of_find?_eq_some hf
    have hall : ∀ q ∈ medicalMetricsMap,
        lc q.2 ≠ [] ∧ (lc q.2).all (fun c => !(isUpperAlpha c)) = true := by decide
    rw [← h]
    exact hall p hp

theorem suffixVariantLookup_good {k v : Str} (h : suffixVariantLookup k = some v) :
    v ≠ [] ∧ v.all (fun c => !(isUpperAlpha c)) = true := by
  unfold suffixVariantLookup at h
  have hv : v ∈ (["#", "%", "_ABS", "_PCT"].filterMap (fun suf =>
      let sufL := lc suf
      if decide (sufL.length ≤ k.length) &&
          k.drop (k.length - sufL.length) == sufL then
        medMapLookup (k.take (k.length - sufL.length))
      else none)) := by
    cases hf : (["#", "%", "_ABS", "_PCT"].filterMap (fun suf =>
        let sufL := lc suf
        if decide (sufL.length ≤ k.length) &&
            k.drop (k.length - sufL.length) == sufL then
          medMapLookup (k.take (k.length - sufL.length))
        else none)) with
    | nil => rw [hf] at h; cases h
    | cons x xs =>
      rw [hf] at h
      injection h with h
      rw [← h]
      exact List.mem_cons_self x xs
  obtain ⟨suf, hsuf, hfm⟩ := List.mem_filterMap.mp hv
  simp only [] at hfm
  split at hfm
  · exact medMapLookup_good hfm
  · cases hfm

theorem fallback_good {s : Str} (hne : s ≠ []) :
    replaceC '-' '_' (replaceC ' ' '_' (toLowerS s)) ≠ [] ∧
      (replaceC '-' '_' (replaceC ' ' '_' (toLowerS s))).all
        (fun c => !(isUpperAlpha c)) = true := by
  constructor
  · intro hemp
    have hlen := congrArg List.length hemp
    simp only [replaceC, toLowerS, List.length_map, List.length_nil] at hlen
    exact hne (List.length_eq_zero.mp hlen)
  · rw [List.all_eq_true]
    intro c hc
    simp only [replaceC, toLowerS, List.map_map, List.mem_map, Function.comp] at hc
    obtain ⟨a, ha, rfl⟩ := hc
    rw [Bool.not_eq_true']
    exact repl_keeps_not_upper (repl_keeps_not_upper (toLowerC_not_upper a))

theorem subTrailingWord_cons_not_ws {c : Char} {t : Str} (hc : isWs c = false) :
    subTrailingWord (c :: t) = c :: subTrailingWord t := by
  show (if isWs c && trailingQualifierWords.any
      (fun w => (c :: t).dropWhile isWs == lc w) then []
    else c :: subTrailingWord t) = c :: subTrailingWord t
  rw [hc, Bool.false_and]
  rfl

theorem subLeadingCommon_good {s : Str} {c0 : Char} {t0 : Str}
    (hh : s = c0 :: t0) (hc0 : isWs c0 = false)
    (hl : ∀ a, s.getLast? = some a → isWs a = false) :
    ∃ d t2, subLeadingCommon s = d :: t2 ∧ isWs d = false := by
  have key : ∀ (k : Nat) (c : Char) (t : Str), s.drop k = c :: t →
      ∃ d t2, (c :: t).dropWhile isWs = d :: t2 ∧ isWs d = false := by
    intro k c t hdrop
    cases hdw : (c :: t).dropWhile isWs with
    | nil =>
      exfalso
      have hall := List.dropWhile_eq_nil_iff.mp hdw
      have hne2 : (c :: t) ≠ [] := by simp
      have hg : (c :: t).getLast? = some ((c :: t).getLast hne2) :=
        List.getLast?_eq_getLast_of_ne_nil hne2
      have hmem : (c :: t).getLast hne2 ∈ c :: t := List.getLast_mem hne2
      have hwsg : isWs ((c :: t).getLast hne2) = true := hall _ hmem
      have hdne : s.drop k ≠ [] := by rw [hdrop]; exact hne2
      have hsg : s.getLast? = some ((c :: t).getLast hne2) := by
        rw [← getLast?_drop hdne, hdrop]
        exact hg
      rw [hl _ hsg] at hwsg
      exact Bool.false_ne_true hwsg
    | cons d t2 => exact ⟨d, t2, rfl, dropWhile_head hdw⟩
  simp only [subLeadingCommon]
  split
  · rename_i r hr
    split at hr
    · split at hr
      · rename_i hdrop
        split at hr
        · injection hr with hr
          rw [← hr]
          exact key _ _ _ hdrop
        · cases hr
      · cases hr
    · cases hr
  · split
    · rename_i r hr
      split at hr
      · split at hr
        · rename_i hdrop
          split at hr
          · injection hr with hr
            rw [← hr]
            exact key _ _ _ hdrop
          · cases hr
        · cases hr
      · cases hr
    · exact ⟨c0, t0, hh, hc0⟩

theorem step23_good (b : Bool) {s1 : Str} {c : Char} {t : Str}
    (hh : s1 = c :: t) (hc : isWs c = false)
    (hl : ∀ a, s1.getLast? = some a → isWs a = false) :
    ∃ d t2, subTrailingWord (if b then subLeadingCommon s1 else s1) = d :: t2 ∧
      isWs d = false := by
  cases b
  · rw [if_neg Bool.false_ne_true]
    subst hh
    exact ⟨c, subTrailingWord t, subTrailingWord_cons_not_ws hc, hc⟩
  · rw [if_pos rfl]
    obtain ⟨d, t2, hdw, hd⟩ := subLeadingCommon_good hh hc hl
    rw [hdw]
    exact ⟨d, subTrailingWord t2, subTrailingWord_cons_not_ws hd, hd⟩

theorem normalizeMetricName_good {name : Str} (hne : stripL name ≠ []) :
    normalizeMetricName name ≠ [] ∧
      (normalizeMetricName name).all (fun c => !(isUpperAlpha c)) = true := by
  obtain ⟨c1, t1, hn1⟩ : ∃ c t, stripL name = c :: t := by
    cases h : stripL name with
    | nil => exact absurd h hne
    | cons a b => exact ⟨a, b, rfl⟩
  have hc1 : isWs c1 = false := stripL_head_not_ws hn1
  have hl1 : ∀ a, (stripL name).getLast? = some a → isWs a = false := fun a h =>
    stripL_last_not_ws h
  have hh0 : toUpperS (stripL name) = toUpperC c1 :: toUpperS t1 := by rw [hn1]; rfl
  have hc0 : isWs (toUpperC c1) = false := by rw [toUpperC_ws]; exact hc1
  have hl0 : ∀ a, (toUpperS (stripL name)).getLast? = some a → isWs a = false := by
    intro a h
    unfold toUpperS at h
    rw [List.getLast?_map] at h
    cases hg : (stripL name).getLast? with
    | none => rw [hg] at h; cases h
    | some g =>
      rw [hg] at h
      injection h with h
      rw [← h, toUpperC_ws]
      exact hl1 g hg
  have hCN1 : ∀ s1 : Str,
      (s1 = lc "ТТГ" ∨ s1 = lc "СВОБОДНЫЙ Т3" ∨ s1 = lc "СВОБОДНЫЙ Т4" ∨
        s1 = lc "25-ОН ВИТАМИН D" ∨ s1 = toUpperS (stripL name)) →
      ∀ b : Bool, subTrailingWord (if b then subLeadingCommon s1 else s1) ≠ [] := by
    intro s1 hs1 b
    have hfacts : ∃ c t, s1 = c :: t ∧ isWs c = false ∧
        (∀ a, s1.getLast? = some a → isWs a = false) := by
      rcases hs1 with rfl | rfl | rfl | rfl | rfl
      · exact ⟨'Т', lc "ТГ", by decide, by decide,
          last_fact_of_eq (show (lc "ТТГ").getLast? = some 'Г' by decide) (by decide)⟩
      · exact ⟨'С', lc "ВОБОДНЫЙ Т3", by decide, by decide,
          last_fact_of_eq (show (lc "СВОБОДНЫЙ Т3").getLast? = some '3' by decide)
            (by decide)⟩
      · exact ⟨'С', lc "ВОБОДНЫЙ Т4", by decide, by decide,
          last_fact_of_eq (show (lc "СВОБОДНЫЙ Т4").getLast? = some '4' by decide)
            (by decide)⟩
      · exact ⟨'2', lc "5-ОН ВИТАМИН D", by decide, by decide,
          last_fact_of_eq (show (lc "25-ОН ВИТАМИН D").getLast? = some 'D' by decide)
            (by decide)⟩
      · exact ⟨toUpperC c1, toUpperS t1, hh0, hc0, hl0⟩
    obtain ⟨c, t, hh, hc, hl⟩ := hfacts
    obtain ⟨d, t2, hdt, hd⟩ := step23_good b hh hc hl
    rw [hdt]
    simp
  simp only [normalizeMetricName]
  split
  · rename_i p hp
    have hpred := List.find?_some hp
    rw [Bool.and_eq_true] at hpred
    have hsome : (medMapLookup (lc p.2)).isSome = true := hpred.2
    obtain ⟨v, hv⟩ := Option.isSome_iff_exists.mp hsome
    rw [hv]
    exact medMapLookup_good hv
  · split
    · rename_i v hdir
      exact medMapLookup_good hdir
    · split
      · rename_i v hsuf
        exact suffixVariantLookup_good hsuf
      · split
        · rename_i p hp2
          split
          · rename_i v hvm
            exact medMapLookup_good hvm
          · exact fallback_good (hCN1 _ (by
              split
              · exact Or.inl rfl
              · split
                · exact Or.inr (Or.inl rfl)
                · split
                  · exact Or.inr (Or.inr (Or.inl rfl))
                  · split
                    · exact Or.inr (Or.inr (Or.inr (Or.inl rfl)))
                    · exact Or.inr (Or.inr (Or.inr (Or.inr rfl)))) _)
        · exact fallback_good (hCN1 _ (by
            split
            · exact Or.inl rfl
            · split
              · exact Or.inr (Or.inl rfl)
              · split
                · exact Or.inr (Or.inr (Or.inl rfl))
                · split
                  · exact Or.inr (Or.inr (Or.inr (Or.inl rfl)))
                  · exact Or.inr (Or.inr (Or.inr (Or.inr rfl)))) _)

theorem validLine_name {n vp fl : Str} (h : isValidMetricLine n vp fl = true) :
    hasValidMetricName n = true := by
  unfold isValidMetricLine at h
  split at h
  · exact absurd h Bool.false_ne_true
  · split at h
    · exact absurd h Bool.false_ne_true
    · split at h
      · exact absurd h Bool.false_ne_true
      · rename_i hx
        simpa using hx

/-- C3: corrected record-shape claim.  Every record of the structural
extractor carries exactly the seven fields name, value, unit,
reference_range, status, confidence, original_line, and its name is a
non-empty string without uppercase letters; every record of the Kazakh
template extractor carries exactly the five fields name, value, unit,
reference_range, status, and its name is the fixed English display name
of the template entry. -/
theorem claim3_record_shapes :
    (∀ (t : String) (m : PyDict), m ∈ extractMetricsFromText t →
        keysOf m = ["name", "value", "unit", "reference_range", "status",
          "confidence", "original_line"] ∧
        ∃ nm : Str, getVal m "name" = some (PyVal.vs nm) ∧ nm ≠ [] ∧
          nm.all (fun c => !(isUpperAlpha c)) = true) ∧
    (∀ (pieces : List Str) (d : KazDef) (m : PyDict),
        extractSingleKazakhMetric pieces d = some m →
        keysOf m = ["name", "value", "unit", "reference_range", "status"] ∧
        getVal m "name" = some (PyVal.vs (lc d.englishName))) := by
  constructor
  · intro t m hm
    obtain ⟨l, hl⟩ : ∃ l, m ∈ perLineMetric l := by
      unfold extractMetricsFromText at hm
      generalize splitOnC '\n' t.toList = ls at hm
      induction ls with
      | nil => cases hm
      | cons a as ih =>
        unfold extractLoop at hm
        rcases List.mem_append.mp hm with h | h
        · exact ⟨a, h⟩
        · exact ih h
    simp only [perLineMetric] at hl
    split at hl
    · cases hl
    · split at hl
      · cases hl
      · rename_i i hcol
        split at hl
        · cases hl
        · split at hl
          · cases hl
          · rename_i hvalid0
            split at hl
            · cases hl
            · rename_i pv hparse
              split at hl
              · cases hl
              · rw [List.mem_singleton] at hl
                subst hl
                have hvalid : isValidMetricLine (stripL (List.take i l))
                    (stripL (List.drop (i + 1) l)) l = true := by
                  simpa using hvalid0
                have hvn := validLine_name hvalid
                have hnne : stripL (List.take i l) ≠ [] := by
                  intro he
                  rw [he] at hvn
                  exact absurd hvn (by decide)
                obtain ⟨ca, ta, hca⟩ : ∃ c t2, stripL (List.take i l) = c :: t2 := by
                  cases h2 : stripL (List.take i l) with
                  | nil => exact absurd h2 hnne
                  | cons a b => exact ⟨a, b, rfl⟩
                have hcaws : isWs ca = false := stripL_head_not_ws hca
                have hmem2 : ca ∈ stripL (stripL (List.take i l)) :=
                  mem_stripL_of_not_ws
                    (by rw [hca]; exact List.mem_cons_self ca ta) hcaws
                have hsne : stripL (stripL (List.take i l)) ≠ [] :=
                  List.ne_nil_of_mem hmem2
                obtain ⟨hgne, hgall⟩ := normalizeMetricName_good hsne
                exact ⟨rfl, normalizeMetricName (stripL (List.take i l)), rfl,
                  hgne, hgall⟩
  · intro pieces d m h
    simp only [extractSingleKazakhMetric] at h
    split at h
    · cases h
    · split at h
      · cases h
      · rename_i v hval
        injection h with h
        rw [← h]
        exact ⟨rfl, rfl⟩

/-- Witness for C3: one concrete structural record and one concrete
Kazakh template record, fed through the claim at concrete inputs. -/
theorem claim3_witness :
    keysOf [("name", PyVal.vs (lc "hemoglobin")), ("value", PyVal.vf ⟨145, 0⟩),
        ("unit", PyVal.vs (lc "г/л")),
        ("reference_range", PyVal.vs (lc "130,00 - 160,00")),
        ("status", PyVal.vs (lc "normal")), ("confidence", PyVal.vf ⟨8, 1⟩),
        ("original_line", PyVal.vs (lc "HGB: 145.0 г/л (норма: 130,00 - 160,00)"))] =
      ["name", "value", "unit", "reference_range", "status", "confidence",
        "original_line"] ∧
    keysOf [("name", PyVal.vs (lc "ALT")), ("value", PyVal.vf ⟨49, 0⟩),
        ("unit", PyVal.vs (lc "Ед/л")), ("reference_range", PyVal.vs (lc "3 - 45")),
        ("status", PyVal.vs (lc "high"))] =
      ["name", "value", "unit", "reference_range", "status"] ∧
    getVal [("name", PyVal.vs (lc "ALT")), ("value", PyVal.vf ⟨49, 0⟩),
        ("unit", PyVal.vs (lc "Ед/л")), ("reference_range", PyVal.vs (lc "3 - 45")),
        ("status", PyVal.vs (lc "high"))] "name" =
      some (PyVal.vs (lc (KazDef.englishName ⟨["Аланинаминотрансфераза", "АЛТ"],
        "ALT", "3 - 45"⟩))) := by
  refine ⟨(claim3_record_shapes.1 "HGB: 145.0 г/л (норма: 130,00 - 160,00)" _
      (by decide)).1, ?_, ?_⟩
  · exact (claim3_record_shapes.2
      [lc "Аланинаминотрансфераза", lc "49,00", lc "Едол", lc "3 - 45"]
      ⟨["Аланинаминотрансфераза", "АЛТ"], "ALT", "3 - 45"⟩ _ (by decide)).1
  · exact (claim3_record_shapes.2
      [lc "Аланинаминотрансфераза", lc "49,00", lc "Едол", lc "3 - 45"]
      ⟨["Аланинаминотрансфераза", "АЛТ"], "ALT", "3 - 45"⟩ _ (by decide)).2

/-- C4: corrected alias-table extraction claim.  Against the two-sided
range 130,00 - 160,00 the classifier puts any value below the lower
bound at low, above the upper bound at high, and otherwise at normal;
a line whose label HGB resolves through the alias table yields exactly
one hemoglobin record so classified, unless the suspicious-value filter
drops the parsed value (here the non-positive value 0.0), in which case
the line yields zero records. -/
theorem claim4_alias_range :
    (∀ v : Dec, determineStatus v (lc "130,00 - 160,00") =
        if Dec.lt v ⟨130, 0⟩ then lc "low"
        else if Dec.lt ⟨160, 0⟩ v then lc "high"
        else lc "normal") ∧
    extractMetricsFromText "HGB: 120.0 г/л (норма: 130,00 - 160,00)" =
      [[("name", PyVal.vs (lc "hemoglobin")), ("value", PyVal.vf ⟨120, 0⟩),
        ("unit", PyVal.vs (lc "г/л")),
        ("reference_range", PyVal.vs (lc "130,00 - 160,00")),
        ("status", PyVal.vs (lc "low")), ("confidence", PyVal.vf ⟨8, 1⟩),
        ("original_line",
          PyVal.vs (lc "HGB: 120.0 г/л (норма: 130,00 - 160,00)"))]] ∧
    extractMetricsFromText "HGB: 145.0 г/л (норма: 130,00 - 160,00)" =
      [[("name", PyVal.vs (lc "hemoglobin")), ("value", PyVal.vf ⟨145, 0⟩),
        ("unit", PyVal.vs (lc "г/л")),
        ("reference_range", PyVal.vs (lc "130,00 - 160,00")),
        ("status", PyVal.vs (lc "normal")), ("confidence", PyVal.vf ⟨8, 1⟩),
        ("original_line",
          PyVal.vs (lc "HGB: 145.0 г/л (норма: 130,00 - 160,00)"))]] ∧
    extractMetricsFromText "HGB: 170.0 г/л (норма: 130,00 - 160,00)" =
      [[("name", PyVal.vs (lc "hemoglobin")), ("value", PyVal.vf ⟨170, 0⟩),
        ("unit", PyVal.vs (lc "г/л")),
        ("reference_range", PyVal.vs (lc "130,00 - 160,00")),
        ("status", PyVal.vs (lc "high")), ("confidence", PyVal.vf ⟨8, 1⟩),
        ("original_line",
          PyVal.vs (lc "HGB: 170.0 г/л (норма: 130,00 - 160,00)"))]] ∧
    isSuspiciousValue ⟨0, 0⟩ (lc "г/л") = true ∧
    extractMetricsFromText "HGB: 0.0 г/л (норма: 130,00 - 160,00)" = [] := by
  exact ⟨fun v => rfl, by decide, by decide, by decide, by decide, by decide⟩

/-! ## Round-trip machinery: scans over the canonical refeed line -/

theorem containsS_append_right {w s : Str} (h : containsS w s = true) :
    ∀ xs : Str, containsS w (xs ++ s) = true := by
  intro xs
  induction xs with
  | nil => simpa using h
  | cons c cs ih => simp [containsS, ih]

theorem containsS_false_of_missing {w s : Str} {x : Char} (hxw : x ∈ w)
    (hxs : x ∉ s) : containsS w s = false := by
  by_contra hcon
  rw [Bool.not_eq_false] at hcon
  exact hxs (mem_of_containsS hcon x hxw)

theorem splitOnC_no_sep {sep : Char} : ∀ {s : Str},
    (∀ c ∈ s, (c == sep) = false) → splitOnC sep s = [s] := by
  intro s
  induction s with
  | nil => intro _; rfl
  | cons c t ih =>
    intro h
    have hc : (c == sep) = false := h c (List.mem_cons_self c t)
    have ht := ih (fun d hd => h d (List.mem_cons_of_mem c hd))
    simp [splitOnC, hc, ht]

theorem existsAt_skip_head {m : Str → Bool} (P : Char → Bool)
    (hm : ∀ c t, P c = true → m (c :: t) = false) :
    ∀ {xs : Str} {s : Str}, (∀ c ∈ xs, P c = true) →
      existsAt m (xs ++ s) = existsAt m s := by
  intro xs
  induction xs with
  | nil => intro s _; rfl
  | cons c cs ih =>
    intro s h
    have hc : m (c :: (cs ++ s)) = false := hm _ _ (h c (List.mem_cons_self c cs))
    have step : existsAt m ((c :: cs) ++ s) =
        (m (c :: (cs ++ s)) || existsAt m (cs ++ s)) := rfl
    rw [step, hc, Bool.false_or]
    exact ih (fun d hd => h d (List.mem_cons_of_mem c hd))

theorem existsAt_skip_suffix {m : Str → Bool} :
    ∀ {xs s : Str}, (∀ u dI, xs = u ++ dI → dI ≠ [] → m (dI ++ s) = false) →
      existsAt m (xs ++ s) = existsAt m s := by
  intro xs
  induction xs with
  | nil => intro s _; rfl
  | cons c cs ih =>
    intro s h
    have hc : m ((c :: cs) ++ s) = false := h [] (c :: cs) rfl (by simp)
    have step : existsAt m ((c :: cs) ++ s) =
        (m ((c :: cs) ++ s) || existsAt m (cs ++ s)) := rfl
    rw [step, hc, Bool.false_or]
    exact ih (fun u dI hu hne => h (c :: u) dI (by rw [hu]; rfl) hne)

theorem searchWith_skip_head {α : Type} {m : Str → Option α} (P : Char → Bool)
    (hm : ∀ c t, P c = true → m (c :: t) = none) :
    ∀ {xs : Str} {s : Str}, (∀ c ∈ xs, P c = true) →
      searchWith m (xs ++ s) = searchWith m s := by
  intro xs
  induction xs with
  | nil => intro s _; rfl
  | cons c cs ih =>
    intro s h
    have hc : m (c :: (cs ++ s)) = none := hm _ _ (h c (List.mem_cons_self c cs))
    have step : searchWith m ((c :: cs) ++ s) =
        (match m (c :: (cs ++ s)) with
         | some r => some r
         | none => searchWith m (cs ++ s)) := rfl
    rw [step, hc]
    exact ih (fun d hd => h d (List.mem_cons_of_mem c hd))

theorem searchWith_skip_suffix {α : Type} {m : Str → Option α} :
    ∀ {xs s : Str}, (∀ u dI, xs = u ++ dI → dI ≠ [] → m (dI ++ s) = none) →
      searchWith m (xs ++ s) = searchWith m s := by
  intro xs
  induction xs with
  | nil => intro s _; rfl
  | cons c cs ih =>
    intro s h
    have hc : m ((c :: cs) ++ s) = none := h [] (c :: cs) rfl (by simp)
    have step : searchWith m ((c :: cs) ++ s) =
        (match m ((c :: cs) ++ s) with
         | some r => some r
         | none => searchWith m (cs ++ s)) := rfl
    rw [step, hc]
    exact ih (fun u dI hu hne => h (c :: u) dI (by rw [hu]; rfl) hne)

theorem startsW_false_of_head {w s : Str} {a b : Char} (hw : w.head? = some a)
    (hs : s.head? = some b) (hab : (a == b) = false) : startsW w s = false := by
  cases w with
  | nil => cases hw
  | cons x xs =>
    cases s with
    | nil => cases hs
    | cons y ys =>
      injection hw with hw
      injection hs with hs
      rw [← hw, ← hs] at hab
      simp [startsW, hab]

theorem digits12_app_false {k : Str → Bool} {xs : Str} {y : Char} {rest : Str}
    (hxs : ∀ c ∈ xs, isDigitC c = true) (hne : xs ≠ []) (hy : isDigitC y = false)
    (hkd : ∀ c t, isDigitC c = true → k (c :: t) = false)
    (hky : k (y :: rest) = false) :
    digits12 k (xs ++ y :: rest) = false := by
  match xs, hne with
  | [a], _ =>
    simp only [List.cons_append, List.nil_append, digits12, hy, hky,
      Bool.false_and, Bool.false_or, Bool.and_false]
  | a :: b :: xr, _ =>
    have hb : isDigitC b = true := hxs b (by simp)
    have h1 : k (b :: (xr ++ y :: rest)) = false := hkd b _ hb
    have h2 : k (xr ++ y :: rest) = false := by
      cases xr with
      | nil => simpa using hky
      | cons e er =>
        exact hkd e _ (hxs e (by simp))
    simp only [List.cons_append, digits12, h1, h2, Bool.and_false, Bool.false_or,
      Bool.or_false, Bool.and_self]

theorem numTok_int {ds : Str} {y : Char} {rest : Str}
    (hds : ∀ c ∈ ds, isDigitC c = true) (hne : ds ≠ []) (hy : isDigitC y = false)
    (hyd : (y == '.') = false) (hyc : (y == ',') = false) :
    numTok (ds ++ y :: rest) = some (ds, y :: rest) := by
  unfold numTok
  rw [takeWhile_app hds hy, dropWhile_app hds hy]
  match ds, hne with
  | d :: dr, _ => simp [hyd, hyc]

theorem isDateSep_digit_false {c : Char} (h : isDigitC c = true) : isDateSep c = false := by
  simp [isDateSep,
    digit_ne_char h (show ('.').toNat < 48 ∨ 57 < ('.').toNat by decide),
    digit_ne_char h (show ('/').toNat < 48 ∨ 57 < ('/').toNat by decide)]

theorem isSepDec_digit_false {c : Char} (h : isDigitC c = true) : isSepDec c = false := by
  simp [isSepDec,
    digit_ne_char h (show ('.').toNat < 48 ∨ 57 < ('.').toNat by decide),
    digit_ne_char h (show (',').toNat < 48 ∨ 57 < (',').toNat by decide),
    isWs_false_of_digit h]

theorem char_ne_of_digit_or_dot {c : Char} (h : (isDigitC c || c == '.') = true)
    {d : Char} (hd1 : d.toNat < 48 ∨ 57 < d.toNat) (hd2 : d.toNat ≠ 46) :
    (d == c) = false := by
  rw [Bool.or_eq_true] at h
  rcases h with hdig | hdot
  · apply char_eq_false_of_toNat_ne
    unfold isDigitC at hdig
    simp only [Bool.and_eq_true, decide_eq_true_eq] at hdig
    omega
  · have hc : c = '.' := by simpa using hdot
    subst hc
    apply char_eq_false_of_toNat_ne
    have h46 : ('.').toNat = 46 := rfl
    omega

theorem ts_skip_nondigit {c : Char} (hc : isDigitC c = false) (t : Str) :
    matchAtTimestamp (c :: t) = false := by
  unfold matchAtTimestamp
  cases t with
  | nil => simp [digits12, hc]
  | cons b r => simp [digits12, hc]

theorem ts_fail_digits {dI F : Str}
    (hdI : ∀ c ∈ dI, isDigitC c = true) (hne : dI ≠ [])
    (hF : ∀ c ∈ F, isDigitC c = true) (hFne : F ≠ []) :
    matchAtTimestamp (dI ++ '.' :: (F ++ lc " г/л (130,00 - 160,00)")) = false := by
  unfold matchAtTimestamp
  apply digits12_app_false hdI hne (by decide)
  · intro c t hc
    simp [isDateSep_digit_false hc]
  · show (isDateSep '.' &&
      digits12 _ (F ++ ' ' :: lc "г/л (130,00 - 160,00)")) = false
    rw [show isDateSep '.' = true from rfl, Bool.true_and]
    apply digits12_app_false hF hFne (by decide)
    · intro c t hc
      simp [isDateSep_digit_false hc]
    · decide

theorem ts_fail_intpart {dF : Str} (hdF : ∀ c ∈ dF, isDigitC c = true)
    (hne : dF ≠ []) :
    matchAtTimestamp (dF ++ lc " г/л (130,00 - 160,00)") = false := by
  unfold matchAtTimestamp
  show digits12 _ (dF ++ ' ' :: lc "г/л (130,00 - 160,00)") = false
  apply digits12_app_false hdF hne (by decide)
  · intro c t hc
    simp [isDateSep_digit_false hc]
  · decide

theorem sci_fail_digits {dI F : Str}
    (hdI : ∀ c ∈ dI, isDigitC c = true) (hne : dI ≠ [])
    (hF : ∀ c ∈ F, isDigitC c = true) :
    matchAtSci (dI ++ '.' :: (F ++ lc " г/л (130,00 - 160,00)")) = none := by
  have h0 : lc " г/л (130,00 - 160,00)" = ' ' :: lc "г/л (130,00 - 160,00)" := rfl
  have hnum : numTok (dI ++ '.' :: (F ++ lc " г/л (130,00 - 160,00)")) =
      some (dI ++ '.' :: F, lc " г/л (130,00 - 160,00)") := by
    rw [h0]
    exact numTok_decimal hdI hF hne (by decide)
  unfold matchAtSci
  rw [hnum]
  rfl

theorem sci_fail_intpart {dF : Str} (hdF : ∀ c ∈ dF, isDigitC c = true)
    (hne : dF ≠ []) :
    matchAtSci (dF ++ lc " г/л (130,00 - 160,00)") = none := by
  have h0 : lc " г/л (130,00 - 160,00)" = ' ' :: lc "г/л (130,00 - 160,00)" := rfl
  have hnum : numTok (dF ++ lc " г/л (130,00 - 160,00)") =
      some (dF, lc " г/л (130,00 - 160,00)") := by
    rw [h0]
    exact numTok_int hdF hne (by decide) (by decide) (by decide)
  unfold matchAtSci
  rw [hnum]
  rfl

theorem complex_fail_digits {dI F : Str}
    (hdI : ∀ c ∈ dI, isDigitC c = true) (hne : dI ≠ [])
    (hF : ∀ c ∈ F, isDigitC c = true) :
    matchAtComplex (dI ++ '.' :: (F ++ lc " г/л (130,00 - 160,00)")) = none := by
  have h0 : lc " г/л (130,00 - 160,00)" = ' ' :: lc "г/л (130,00 - 160,00)" := rfl
  have hnum : numTok (dI ++ '.' :: (F ++ lc " г/л (130,00 - 160,00)")) =
      some (dI ++ '.' :: F, lc " г/л (130,00 - 160,00)") := by
    rw [h0]
    exact numTok_decimal hdI hF hne (by decide)
  unfold matchAtComplex
  rw [hnum]
  rfl

theorem complex_fail_intpart {dF : Str} (hdF : ∀ c ∈ dF, isDigitC c = true)
    (hne : dF ≠ []) :
    matchAtComplex (dF ++ lc " г/л (130,00 - 160,00)") = none := by
  have h0 : lc " г/л (130,00 - 160,00)" = ' ' :: lc "г/л (130,00 - 160,00)" := rfl
  have hnum : numTok (dF ++ lc " г/л (130,00 - 160,00)") =
      some (dF, lc " г/л (130,00 - 160,00)") := by
    rw [h0]
    exact numTok_int hdF hne (by decide) (by decide) (by decide)
  unfold matchAtComplex
  rw [hnum]
  rfl

theorem parenNorma_skip {c : Char} (hc : (c == '(') = false) (t : Str) :
    matchAtParenNorma (c :: t) = none := by
  unfold matchAtParenNorma
  split
  · rename_i r heq
    injection heq with h1 _
    rw [h1] at hc
    simp at hc
  · rfl

theorem parenDigits_skip {c : Char} (hc : (c == '(') = false) (t : Str) :
    matchAtParenDigits (c :: t) = none := by
  unfold matchAtParenDigits
  split
  · rename_i r heq
    injection heq with h1 _
    rw [h1] at hc
    simp at hc
  · rfl

theorem altNorma_skip {c : Char} (hc : ('н' == c) = false) (t : Str) :
    matchAtAltNorma (c :: t) = none := by
  unfold matchAtAltNorma
  have hsw : startsW (lc "норма:") (c :: t) = false :=
    startsW_false_of_head (show (lc "норма:").head? = some 'н' from rfl)
      (show (c :: t).head? = some c from rfl) hc
  rw [if_neg (by simp [hsw])]

theorem absKol_skip {c : Char} (hc : ('а' == c) = false) (t : Str) :
    matchAtAbsKol (c :: t) = false := by
  unfold matchAtAbsKol
  rw [startsW_false_of_head (show (lc "абс").head? = some 'а' from rfl)
    (show (c :: t).head? = some c from rfl) hc, Bool.false_and]

theorem ww_skip {a b : Str} {x c : Char} (ha : a.head? = some x)
    (hc : (x == c) = false) (t : Str) :
    matchAtWordWsWord a b (c :: t) = false := by
  unfold matchAtWordWsWord
  rw [startsW_false_of_head ha (show (c :: t).head? = some c from rfl) hc,
    Bool.false_and]

theorem digit_or_dot_ne_char {c : Char} (h : (isDigitC c || c == '.') = true)
    {d : Char} (hd1 : d.toNat < 48 ∨ 57 < d.toNat) (hd2 : d.toNat ≠ 46) :
    (c == d) = false := by
  rw [Bool.or_eq_true] at h
  rcases h with hdig | hdot
  · apply char_eq_false_of_toNat_ne
    unfold isDigitC at hdig
    simp only [Bool.and_eq_true, decide_eq_true_eq] at hdig
    omega
  · have hc : c = '.' := by simpa using hdot
    subst hc
    apply char_eq_false_of_toNat_ne
    have h46 : ('.').toNat = 46 := rfl
    omega

theorem dtKeywordScan_none {nl n vp : Str} : ∀ kws : List String,
    (∀ kw ∈ kws, containsS (lc kw) nl = false) → dtKeywordScan nl n vp kws = none := by
  intro kws
  induction kws with
  | nil => intro _; rfl
  | cons kw rest ih =>
    intro h
    unfold dtKeywordScan
    rw [if_neg (by simp [h kw (List.mem_cons_self kw rest)])]
    exact ih (fun w hw => h w (List.mem_cons_of_mem _ hw))

theorem refeed_numTok {I F : Str}
    (hI : ∀ c ∈ I, isDigitC c = true) (hF : ∀ c ∈ F, isDigitC c = true)
    (hIne : I ≠ []) :
    numTok (I ++ '.' :: (F ++ lc " г/л (130,00 - 160,00)")) =
      some (I ++ '.' :: F, lc " г/л (130,00 - 160,00)") := by
  have h0 : lc " г/л (130,00 - 160,00)" = ' ' :: lc "г/л (130,00 - 160,00)" := rfl
  rw [h0]
  exact numTok_decimal hI hF hIne (by decide)

theorem refeed_numUnit {I F : Str}
    (hI : ∀ c ∈ I, isDigitC c = true) (hF : ∀ c ∈ F, isDigitC c = true)
    (hIne : I ≠ []) :
    matchAtNumUnit isEnhUnitChar (I ++ '.' :: (F ++ lc " г/л (130,00 - 160,00)")) =
      true := by
  unfold matchAtNumUnit
  rw [refeed_numTok hI hF hIne]
  rfl

theorem refeed_decimal {I F : Str}
    (hI : ∀ c ∈ I, isDigitC c = true) (hF : ∀ c ∈ F, isDigitC c = true)
    (hIne : I ≠ []) (hFne : F ≠ []) :
    matchAtDecimal (I ++ '.' :: (F ++ lc " г/л (130,00 - 160,00)")) =
      some (I, F, lc "г/л") := by
  rcases I with _ | ⟨i0, is⟩
  · exact absurd rfl hIne
  rcases F with _ | ⟨f0, fs⟩
  · exact absurd rfl hFne
  have hdf0 : isDigitC f0 = true := hF f0 (List.mem_cons_self f0 fs)
  have h0 : lc " г/л (130,00 - 160,00)" = ' ' :: lc "г/л (130,00 - 160,00)" := rfl
  rw [h0]
  unfold matchAtDecimal
  rw [takeWhile_app hI (by decide), dropWhile_app hI (by decide)]
  have hsep1 : ('.' :: ((f0 :: fs) ++ ' ' :: lc "г/л (130,00 - 160,00)")).takeWhile
      isSepDec = '.' :: ((f0 :: fs) ++ ' ' :: lc "г/л (130,00 - 160,00)").takeWhile isSepDec :=
    List.takeWhile_cons_of_pos (by decide)
  have hsep2 : ((f0 :: fs) ++ ' ' :: lc "г/л (130,00 - 160,00)").takeWhile isSepDec = [] := by
    rw [show (f0 :: fs) ++ ' ' :: lc "г/л (130,00 - 160,00)" =
        f0 :: (fs ++ ' ' :: lc "г/л (130,00 - 160,00)") from rfl]
    exact List.takeWhile_cons_of_neg (by simp [isSepDec_digit_false hdf0])
  have hsep3 : ('.' :: ((f0 :: fs) ++ ' ' :: lc "г/л (130,00 - 160,00)")).dropWhile
      isSepDec = (f0 :: fs) ++ ' ' :: lc "г/л (130,00 - 160,00)" := by
    rw [List.dropWhile_cons_of_pos (by decide)]
    rw [show (f0 :: fs) ++ ' ' :: lc "г/л (130,00 - 160,00)" =
        f0 :: (fs ++ ' ' :: lc "г/л (130,00 - 160,00)") from rfl]
    exact List.dropWhile_cons_of_neg (by simp [isSepDec_digit_false hdf0])
  simp only [hsep1, hsep2, hsep3,
    (takeWhile_app hF (by decide) :
      ((f0 :: fs) ++ ' ' :: lc "г/л (130,00 - 160,00)").takeWhile isDigitC = f0 :: fs),
    (dropWhile_app hF (by decide) :
      ((f0 :: fs) ++ ' ' :: lc "г/л (130,00 - 160,00)").dropWhile isDigitC =
        ' ' :: lc "г/л (130,00 - 160,00)")]
  rfl

theorem refeed_sci {I F : Str}
    (hI : ∀ c ∈ I, isDigitC c = true) (hF : ∀ c ∈ F, isDigitC c = true) :
    searchWith matchAtSci (I ++ '.' :: (F ++ lc " г/л (130,00 - 160,00)")) = none := by
  have e1 : searchWith matchAtSci (I ++ '.' :: (F ++ lc " г/л (130,00 - 160,00)")) =
      searchWith matchAtSci ('.' :: (F ++ lc " г/л (130,00 - 160,00)")) :=
    searchWith_skip_suffix (fun u dI hu hne2 =>
      sci_fail_digits (fun c hc => hI c (by rw [hu]; exact List.mem_append_right u hc))
        hne2 hF)
  rw [e1]
  rw [show searchWith matchAtSci ('.' :: (F ++ lc " г/л (130,00 - 160,00)")) =
      (match matchAtSci ('.' :: (F ++ lc " г/л (130,00 - 160,00)")) with
       | some r => some r
       | none => searchWith matchAtSci (F ++ lc " г/л (130,00 - 160,00)")) from rfl]
  rw [show matchAtSci ('.' :: (F ++ lc " г/л (130,00 - 160,00)")) = none from rfl]
  have e2 : searchWith matchAtSci (F ++ lc " г/л (130,00 - 160,00)") =
      searchWith matchAtSci (lc " г/л (130,00 - 160,00)") :=
    searchWith_skip_suffix (fun u dF hu hne2 =>
      sci_fail_intpart (fun c hc => hF c (by rw [hu]; exact List.mem_append_right u hc))
        hne2)
  rw [e2]
  decide

theorem refeed_complex {I F : Str}
    (hI : ∀ c ∈ I, isDigitC c = true) (hF : ∀ c ∈ F, isDigitC c = true) :
    searchWith matchAtComplex (I ++ '.' :: (F ++ lc " г/л (130,00 - 160,00)")) =
      none := by
  have e1 : searchWith matchAtComplex (I ++ '.' :: (F ++ lc " г/л (130,00 - 160,00)")) =
      searchWith matchAtComplex ('.' :: (F ++ lc " г/л (130,00 - 160,00)")) :=
    searchWith_skip_suffix (fun u dI hu hne2 =>
      complex_fail_digits (fun c hc => hI c (by rw [hu]; exact List.mem_append_right u hc))
        hne2 hF)
  rw [e1]
  rw [show searchWith matchAtComplex ('.' :: (F ++ lc " г/л (130,00 - 160,00)")) =
      (match matchAtComplex ('.' :: (F ++ lc " г/л (130,00 - 160,00)")) with
       | some r => some r
       | none => searchWith matchAtComplex (F ++ lc " г/л (130,00 - 160,00)")) from rfl]
  rw [show matchAtComplex ('.' :: (F ++ lc " г/л (130,00 - 160,00)")) = none from rfl]
  have e2 : searchWith matchAtComplex (F ++ lc " г/л (130,00 - 160,00)") =
      searchWith matchAtComplex (lc " г/л (130,00 - 160,00)") :=
    searchWith_skip_suffix (fun u dF hu hne2 =>
      complex_fail_intpart (fun c hc => hF c (by rw [hu]; exact List.mem_append_right u hc))
        hne2)
  rw [e2]
  decide

theorem refeed_ts {I F : Str}
    (hI : ∀ c ∈ I, isDigitC c = true) (hF : ∀ c ∈ F, isDigitC c = true)
    (hFne : F ≠ []) :
    existsAt matchAtTimestamp (lc "hemoglobin: " ++
      (I ++ '.' :: (F ++ lc " г/л (130,00 - 160,00)"))) = false := by
  have e0 : existsAt matchAtTimestamp (lc "hemoglobin: " ++
      (I ++ '.' :: (F ++ lc " г/л (130,00 - 160,00)"))) =
      existsAt matchAtTimestamp (I ++ '.' :: (F ++ lc " г/л (130,00 - 160,00)")) :=
    existsAt_skip_head (fun c => !(isDigitC c))
      (fun c t hPc => ts_skip_nondigit (by simpa using hPc) t) (by decide)
  rw [e0]
  have e1 : existsAt matchAtTimestamp (I ++ '.' :: (F ++ lc " г/л (130,00 - 160,00)")) =
      existsAt matchAtTimestamp ('.' :: (F ++ lc " г/л (130,00 - 160,00)")) :=
    existsAt_skip_suffix (fun u dI hu hne2 =>
      ts_fail_digits (fun c hc => hI c (by rw [hu]; exact List.mem_append_right u hc))
        hne2 hF hFne)
  rw [e1]
  rw [show existsAt matchAtTimestamp ('.' :: (F ++ lc " г/л (130,00 - 160,00)")) =
      (matchAtTimestamp ('.' :: (F ++ lc " г/л (130,00 - 160,00)")) ||
        existsAt matchAtTimestamp (F ++ lc " г/л (130,00 - 160,00)")) from rfl]
  rw [ts_skip_nondigit (by decide) (F ++ lc " г/л (130,00 - 160,00)"), Bool.false_or]
  have e2 : existsAt matchAtTimestamp (F ++ lc " г/л (130,00 - 160,00)") =
      existsAt matchAtTimestamp (lc " г/л (130,00 - 160,00)") :=
    existsAt_skip_suffix (fun u dF hu hne2 =>
      ts_fail_intpart (fun c hc => hF c (by rw [hu]; exact List.mem_append_right u hc))
        hne2)
  rw [e2]
  decide

theorem refeed_P_mem {I F : Str}
    (hI : ∀ c ∈ I, isDigitC c = true) (hF : ∀ c ∈ F, isDigitC c = true) :
    ∀ c ∈ I ++ '.' :: F, (isDigitC c || c == '.') = true := by
  intro c hc
  rcases List.mem_append.mp hc with h | h
  · simp [hI c h]
  · rcases List.mem_cons.mp h with h | h
    · simp [h]
    · simp [hF c h]

theorem refeed_assoc (I F : Str) :
    I ++ '.' :: (F ++ lc " г/л (130,00 - 160,00)") =
      (I ++ '.' :: F) ++ lc " г/л (130,00 - 160,00)" := by
  simp

theorem refeed_parenNorma {I F : Str}
    (hI : ∀ c ∈ I, isDigitC c = true) (hF : ∀ c ∈ F, isDigitC c = true) :
    searchWith matchAtParenNorma (I ++ '.' :: (F ++ lc " г/л (130,00 - 160,00)")) =
      none := by
  rw [refeed_assoc]
  rw [searchWith_skip_head (fun c => isDigitC c || c == '.')
    (fun c t hPc => parenNorma_skip (digit_or_dot_ne_char hPc (by decide) (by decide)) t)
    (refeed_P_mem hI hF)]
  decide

theorem refeed_altNorma {I F : Str}
    (hI : ∀ c ∈ I, isDigitC c = true) (hF : ∀ c ∈ F, isDigitC c = true) :
    searchWith matchAtAltNorma (I ++ '.' :: (F ++ lc " г/л (130,00 - 160,00)")) =
      none := by
  rw [refeed_assoc]
  rw [searchWith_skip_head (fun c => isDigitC c || c == '.')
    (fun c t hPc => altNorma_skip (char_ne_of_digit_or_dot hPc (by decide) (by decide)) t)
    (refeed_P_mem hI hF)]
  decide

theorem refeed_parenDigits {I F : Str}
    (hI : ∀ c ∈ I, isDigitC c = true) (hF : ∀ c ∈ F, isDigitC c = true) :
    searchWith matchAtParenDigits (I ++ '.' :: (F ++ lc " г/л (130,00 - 160,00)")) =
      some (lc "130,00 - 160,00") := by
  rw [refeed_assoc]
  rw [searchWith_skip_head (fun c => isDigitC c || c == '.')
    (fun c t hPc => parenDigits_skip (digit_or_dot_ne_char hPc (by decide) (by decide)) t)
    (refeed_P_mem hI hF)]
  decide

theorem refeed_absKol {I F : Str}
    (hI : ∀ c ∈ I, isDigitC c = true) (hF : ∀ c ∈ F, isDigitC c = true) :
    existsAt matchAtAbsKol (I ++ '.' :: (F ++ lc " г/л (130,00 - 160,00)")) = false := by
  rw [refeed_assoc]
  rw [existsAt_skip_head (fun c => isDigitC c || c == '.')
    (fun c t hPc => absKol_skip (char_ne_of_digit_or_dot hPc (by decide) (by decide)) t)
    (refeed_P_mem hI hF)]
  decide

theorem refeed_ww {I F : Str}
    (hI : ∀ c ∈ I, isDigitC c = true) (hF : ∀ c ∈ F, isDigitC c = true) :
    containsWW (lc "общий") (lc "анализ")
      (I ++ '.' :: (F ++ lc " г/л (130,00 - 160,00)")) = false := by
  unfold containsWW
  rw [refeed_assoc]
  rw [existsAt_skip_head (fun c => isDigitC c || c == '.')
    (fun c t hPc => ww_skip (show (lc "общий").head? = some 'о' from rfl)
      (char_ne_of_digit_or_dot hPc (by decide) (by decide)) t)
    (refeed_P_mem hI hF)]
  decide

theorem refeed_chars {I F : Str}
    (hI : ∀ c ∈ I, isDigitC c = true) (hF : ∀ c ∈ F, isDigitC c = true) :
    ∀ x ∈ I ++ '.' :: (F ++ lc " г/л (130,00 - 160,00)"),
      isDigitC x = true ∨ x = '.' ∨ x ∈ lc " г/л (130,00 - 160,00)" := by
  intro x hx
  rcases List.mem_append.mp hx with h | h
  · exact Or.inl (hI x h)
  · rcases List.mem_cons.mp h with h | h
    · exact Or.inr (Or.inl h)
    · rcases List.mem_append.mp h with h | h
      · exact Or.inl (hF x h)
      · exact Or.inr (Or.inr h)

theorem refeed_not_contains {I F : Str}
    (hI : ∀ c ∈ I, isDigitC c = true) (hF : ∀ c ∈ F, isDigitC c = true)
    {w : Str} {x : Char} (hxw : x ∈ w) (hxd : isDigitC x = false) (hxdot : x ≠ '.')
    (hxsuf : x ∉ lc " г/л (130,00 - 160,00)") :
    containsS w (I ++ '.' :: (F ++ lc " г/л (130,00 - 160,00)")) = false := by
  apply containsS_false_of_missing hxw
  intro hx
  rcases refeed_chars hI hF x hx with h | h | h
  · rw [h] at hxd; cases hxd
  · exact hxdot h
  · exact hxsuf h

theorem refeed_lower {I F : Str}
    (hI : ∀ c ∈ I, isDigitC c = true) (hF : ∀ c ∈ F, isDigitC c = true) :
    toLowerS (I ++ '.' :: (F ++ lc " г/л (130,00 - 160,00)")) =
      I ++ '.' :: (F ++ lc " г/л (130,00 - 160,00)") := by
  apply toLowerS_eq_self
  intro c hc
  rcases refeed_chars hI hF c hc with h | h | h
  · exact toLowerC_digit h
  · rw [h]; rfl
  · have hall : ∀ d ∈ lc " г/л (130,00 - 160,00)", toLowerC d = d := by decide
    exact hall c h

theorem refeed_gl (I F : Str) :
    containsS (lc "г/л") (I ++ '.' :: (F ++ lc " г/л (130,00 - 160,00)")) = true := by
  have c0 : containsS (lc "г/л") (lc " г/л (130,00 - 160,00)") = true := by decide
  have c1 : containsS (lc "г/л") (F ++ lc " г/л (130,00 - 160,00)") = true :=
    containsS_append_right c0 F
  have c2 : containsS (lc "г/л") ('.' :: (F ++ lc " г/л (130,00 - 160,00)")) = true := by
    have := containsS_append_right c1 ['.']
    simpa using this
  exact containsS_append_right c2 I

theorem refeed_last {I F : Str} :
    (I ++ '.' :: (F ++ lc " г/л (130,00 - 160,00)")).getLast? = some ')' := by
  rw [List.getLast?_append_of_ne_nil I (by simp)]
  rw [show ('.' :: (F ++ lc " г/л (130,00 - 160,00)")) =
      ['.'] ++ (F ++ lc " г/л (130,00 - 160,00)") from rfl]
  rw [List.getLast?_append_of_ne_nil ['.'] (by simp [show lc " г/л (130,00 - 160,00)" ≠ [] by decide])]
  rw [List.getLast?_append_of_ne_nil F (by decide)]
  decide

theorem refeed_strip {I F : Str} (hI : ∀ c ∈ I, isDigitC c = true) (hIne : I ≠ []) :
    stripL (I ++ '.' :: (F ++ lc " г/л (130,00 - 160,00)")) =
      I ++ '.' :: (F ++ lc " г/л (130,00 - 160,00)") := by
  apply stripL_eq_self_of_ends
  · intro c hc
    rcases I with _ | ⟨i0, is⟩
    · exact absurd rfl hIne
    · injection hc with hc
      rw [← hc]
      exact isWs_false_of_digit (hI i0 (List.mem_cons_self i0 is))
  · intro c hc
    rw [refeed_last] at hc
    injection hc with hc
    rw [← hc]
    decide

theorem refeed_dotcount {I F : Str}
    (hI : ∀ c ∈ I, isDigitC c = true) (hF : ∀ c ∈ F, isDigitC c = true) :
    (I ++ '.' :: (F ++ lc " г/л (130,00 - 160,00)")).count '.' = 1 := by
  have hI0 : I.count '.' = 0 :=
    List.count_eq_zero.mpr (fun h => absurd (hI '.' h) (by decide))
  have hF0 : F.count '.' = 0 :=
    List.count_eq_zero.mpr (fun h => absurd (hF '.' h) (by decide))
  have hS0 : (lc " г/л (130,00 - 160,00)").count '.' = 0 := by decide
  rw [List.count_append, List.count_cons_self, List.count_append, hI0, hF0, hS0]

theorem refeed_contamination {I F : Str}
    (hI : ∀ c ∈ I, isDigitC c = true) (hF : ∀ c ∈ F, isDigitC c = true) :
    hasContamination (I ++ '.' :: (F ++ lc " г/л (130,00 - 160,00)")) = false := by
  have hdd := no_ddmmyyyy_of_one_dot (s := I ++ '.' :: (F ++ lc " г/л (130,00 - 160,00)"))
    (by rw [refeed_dotcount hI hF]; omega)
  have w1 := refeed_not_contains hI hF (show 'а' ∈ lc "алу орны" by decide)
    (by decide) (by decide) (by decide)
  have w2 := refeed_not_contains hI hF (show 'б' ∈ lc "биоматериалды" by decide)
    (by decide) (by decide) (by decide)
  have w3 := refeed_not_contains hI hF (show 'р' ∈ lc "результатах" by decide)
    (by decide) (by decide) (by decide)
  have w4 := refeed_not_contains hI hF (show 'о' ∈ lc "отчет" by decide)
    (by decide) (by decide) (by decide)
  simp [hasContamination, hdd, refeed_lower hI hF, w1, w2, w3, w4]

theorem refeed_datetime {I F : Str}
    (hI : ∀ c ∈ I, isDigitC c = true) (hF : ∀ c ∈ F, isDigitC c = true)
    (hFne : F ≠ []) :
    isDatetimeLine (lc "hemoglobin") (I ++ '.' :: (F ++ lc " г/л (130,00 - 160,00)"))
      (lc "hemoglobin: " ++ (I ++ '.' :: (F ++ lc " г/л (130,00 - 160,00)"))) =
      false := by
  have hmed : hasMedContext (toLowerS (lc "hemoglobin")) = false := by decide
  have hd1 : existsAt matchAtDate1 (lc "hemoglobin") = false := by decide
  have hd2 : existsAt matchAtDate2 (lc "hemoglobin") = false := by decide
  have hrw : hasMedRangeWords
      (toLowerS (I ++ '.' :: (F ++ lc " г/л (130,00 - 160,00)"))) = true := by
    rw [refeed_lower hI hF]
    simp only [hasMedRangeWords, List.any_cons, List.any_nil]
    rw [refeed_gl I F]
    simp
  have hts := refeed_ts hI hF hFne
  have hscan : dtKeywordScan (toLowerS (lc "hemoglobin")) (lc "hemoglobin")
      (I ++ '.' :: (F ++ lc " г/л (130,00 - 160,00)"))
      ["дата", "время", "date", "time", "час", "мин", "сек"] = none :=
    dtKeywordScan_none _ (by decide)
  simp [isDatetimeLine, hmed, hd1, hd2, hrw, hts, hscan]

theorem refeed_numunit_search {I F : Str}
    (hI : ∀ c ∈ I, isDigitC c = true) (hF : ∀ c ∈ F, isDigitC c = true)
    (hIne : I ≠ []) :
    searchNumUnit isEnhUnitChar (I ++ '.' :: (F ++ lc " г/л (130,00 - 160,00)")) =
      true := by
  rcases I with _ | ⟨i0, is⟩
  · exact absurd rfl hIne
  unfold searchNumUnit
  rw [show existsAt (matchAtNumUnit isEnhUnitChar)
      ((i0 :: is) ++ '.' :: ((F ++ lc " г/л (130,00 - 160,00)"))) =
      (matchAtNumUnit isEnhUnitChar
        ((i0 :: is) ++ '.' :: (F ++ lc " г/л (130,00 - 160,00)")) ||
        existsAt (matchAtNumUnit isEnhUnitChar)
          (is ++ '.' :: (F ++ lc " г/л (130,00 - 160,00)"))) from rfl]
  rw [refeed_numUnit hI hF (by simp)]
  simp

theorem refeed_header {I F : Str}
    (hI : ∀ c ∈ I, isDigitC c = true) (hF : ∀ c ∈ F, isDigitC c = true)
    (hIne : I ≠ []) :
    isSectionHeader (lc "hemoglobin")
      (I ++ '.' :: (F ++ lc " г/л (130,00 - 160,00)")) = false := by
  have h1 : hasHeaderPattern (toLowerS (lc "hemoglobin")) = false := by decide
  have habs := refeed_absKol hI hF
  have hww := refeed_ww hI hF
  have k1 := refeed_not_contains hI hF (show 'б' ∈ lc "биохимический" by decide)
    (by decide) (by decide) (by decide)
  have k2 := refeed_not_contains hI hF (show 'к' ∈ lc "клинический" by decide)
    (by decide) (by decide) (by decide)
  have k3 := refeed_not_contains hI hF (show 'п' ∈ lc "показатели" by decide)
    (by decide) (by decide) (by decide)
  have k4 := refeed_not_contains hI hF (show 'р' ∈ lc "результаты" by decide)
    (by decide) (by decide) (by decide)
  have k5 := refeed_not_contains hI hF (show 'п' ∈ lc "пациент" by decide)
    (by decide) (by decide) (by decide)
  have k6 := refeed_not_contains hI hF (show 'з' ∈ lc "заключение" by decide)
    (by decide) (by decide) (by decide)
  have k7 := refeed_not_contains hI hF (show 'п' ∈ lc "описание" by decide)
    (by decide) (by decide) (by decide)
  have k8 := refeed_not_contains hI hF (show 'к' ∈ lc "комментарий" by decide)
    (by decide) (by decide) (by decide)
  have h2 : hasHeaderPattern
      (toLowerS (I ++ '.' :: (F ++ lc " г/л (130,00 - 160,00)"))) = false := by
    rw [refeed_lower hI hF]
    simp [hasHeaderPattern, habs, hww, k1, k2, k3, k4, k5, k6, k7, k8]
  have q1 := refeed_not_contains hI hF (show 'б' ∈ lc "обнаружено" by decide)
    (by decide) (by decide) (by decide)
  have q2 := refeed_not_contains hI hF (show 'б' ∈ lc "не обнаружено" by decide)
    (by decide) (by decide) (by decide)
  have q3 := refeed_not_contains hI hF (show 'т' ∈ lc "отрицательно" by decide)
    (by decide) (by decide) (by decide)
  have q4 := refeed_not_contains hI hF (show 'п' ∈ lc "положительно" by decide)
    (by decide) (by decide) (by decide)
  have q5 := refeed_not_contains hI hF (show 'п' ∈ lc "позитивно" by decide)
    (by decide) (by decide) (by decide)
  have q6 := refeed_not_contains hI hF (show 'н' ∈ lc "негативно" by decide)
    (by decide) (by decide) (by decide)
  have h3 : headerQualitativeWords.any (fun q => containsS (lc q)
      (toLowerS (I ++ '.' :: (F ++ lc " г/л (130,00 - 160,00)")))) = false := by
    rw [refeed_lower hI hF]
    simp [headerQualitativeWords, q1, q2, q3, q4, q5, q6]
  have h4 := refeed_numunit_search hI hF hIne
  have h5 : isNameParenShape (lc "hemoglobin") = false := by decide
  simp [isSectionHeader, h1, h2, h3, h4, h5]

theorem refeed_validvalue {I F : Str}
    (hI : ∀ c ∈ I, isDigitC c = true) (hF : ∀ c ∈ F, isDigitC c = true)
    (hIne : I ≠ []) :
    hasValidValuePart (I ++ '.' :: (F ++ lc " г/л (130,00 - 160,00)")) = true := by
  have q1 := refeed_not_contains hI hF (show 'б' ∈ lc "обнаружено" by decide)
    (by decide) (by decide) (by decide)
  have q2 := refeed_not_contains hI hF (show 'б' ∈ lc "не обнаружено" by decide)
    (by decide) (by decide) (by decide)
  have q3 := refeed_not_contains hI hF (show 'т' ∈ lc "отрицательно" by decide)
    (by decide) (by decide) (by decide)
  have q4 := refeed_not_contains hI hF (show 'п' ∈ lc "положительно" by decide)
    (by decide) (by decide) (by decide)
  have q5 := refeed_not_contains hI hF (show 'п' ∈ lc "позитивно" by decide)
    (by decide) (by decide) (by decide)
  have q6 := refeed_not_contains hI hF (show 'н' ∈ lc "негативно" by decide)
    (by decide) (by decide) (by decide)
  have q7 := refeed_not_contains hI hF (show 'н' ∈ lc "норма" by decide)
    (by decide) (by decide) (by decide)
  have hany : (I ++ '.' :: (F ++ lc " г/л (130,00 - 160,00)")).any isDigitC = true := by
    rcases I with _ | ⟨i0, is⟩
    · exact absurd rfl hIne
    · simp [hI i0 (List.mem_cons_self i0 is)]
  have h4 := refeed_numunit_search hI hF hIne
  simp [hasValidValuePart, refeed_lower hI hF,
    refeed_strip hI hIne, valueQualitativeWords, q1, q2, q3, q4, q5, q6, q7,
    hany, h4]

theorem refeed_unitind {I F : Str}
    (hI : ∀ c ∈ I, isDigitC c = true) (hF : ∀ c ∈ F, isDigitC c = true) :
    hasMedicalUnitIndicators (I ++ '.' :: (F ++ lc " г/л (130,00 - 160,00)")) =
      true := by
  simp only [hasMedicalUnitIndicators, medicalUnitSubstrings, List.any_cons]
  simp [refeed_lower hI hF, refeed_gl I F]

theorem refeed_valid {I F : Str}
    (hI : ∀ c ∈ I, isDigitC c = true) (hF : ∀ c ∈ F, isDigitC c = true)
    (hIne : I ≠ []) (hFne : F ≠ []) :
    isValidMetricLine (lc "hemoglobin")
      (I ++ '.' :: (F ++ lc " г/л (130,00 - 160,00)"))
      (lc "hemoglobin: " ++ (I ++ '.' :: (F ++ lc " г/л (130,00 - 160,00)"))) =
      true := by
  have hn : hasValidMetricName (lc "hemoglobin") = true := by decide
  simp [isValidMetricLine, refeed_datetime hI hF hFne, refeed_header hI hF hIne,
    hn, refeed_validvalue hI hF hIne, refeed_unitind hI hF]

theorem refeed_parse {I F : Str} {v : Dec}
    (hI : ∀ c ∈ I, isDigitC c = true) (hF : ∀ c ∈ F, isDigitC c = true)
    (hIne : I ≠ []) (hFne : F ≠ [])
    (hv : parsePyFloat (I ++ '.' :: F) = some v) :
    parseValueAndUnit (I ++ '.' :: (F ++ lc " г/л (130,00 - 160,00)")) =
      some (v, lc "г/л", ⟨8, 1⟩) := by
  rcases I with _ | ⟨i0, is⟩
  · exact absurd rfl hIne
  have hdi0 : isDigitC i0 = true := hI i0 (List.mem_cons_self i0 is)
  have hdig_bounds : 48 ≤ i0.toNat ∧ i0.toNat ≤ 57 := by
    have h1 := hdi0
    unfold isDigitC at h1
    simpa [Bool.and_eq_true, decide_eq_true_eq] using h1
  have hne_char : ∀ d : Char, isDigitC d = false → i0 ≠ d := by
    intro d hd he
    rw [he] at hdi0
    rw [hdi0] at hd
    cases hd
  have hvp0 : stripL ((i0 :: is) ++ '.' :: (F ++ lc " г/л (130,00 - 160,00)")) =
      (i0 :: is) ++ '.' :: (F ++ lc " г/л (130,00 - 160,00)") :=
    refeed_strip hI (by simp)
  have hlow := refeed_lower hI hF
  have hcont := refeed_contamination hI hF
  have hhead : ((i0 :: is) ++ '.' :: (F ++ lc " г/л (130,00 - 160,00)")).head? =
      some i0 := rfl
  have hch1 : ('н' == i0) = false := char_eq_false_of_toNat_ne (by
    have h1 : ('н').toNat = 1085 := rfl
    omega)
  have hch2 : ('в' == i0) = false := char_eq_false_of_toNat_ne (by
    have h1 : ('в').toNat = 1074 := rfl
    omega)
  have hne_obn : isNeObnFull
      ((i0 :: is) ++ '.' :: (F ++ lc " г/л (130,00 - 160,00)")) = false := by
    unfold isNeObnFull
    rw [startsW_false_of_head (show (lc "не").head? = some 'н' from rfl) hhead hch1,
      Bool.false_and]
  have hpred : isVPredelahFull
      ((i0 :: is) ++ '.' :: (F ++ lc " г/л (130,00 - 160,00)")) = false := by
    unfold isVPredelahFull
    rw [startsW_false_of_head (show (lc "в").head? = some 'в' from rfl) hhead hch2,
      Bool.false_and]
  have b1 := list_beq_false_of_head hhead
    (show (lc "обнаружено").head? = some 'о' from rfl) (hne_char 'о' (by decide))
  have b2 := list_beq_false_of_head hhead
    (show (lc "отрицательно").head? = some 'о' from rfl) (hne_char 'о' (by decide))
  have b3 := list_beq_false_of_head hhead
    (show (lc "положительно").head? = some 'п' from rfl) (hne_char 'п' (by decide))
  have b4 := list_beq_false_of_head hhead
    (show (lc "позитивно").head? = some 'п' from rfl) (hne_char 'п' (by decide))
  have b5 := list_beq_false_of_head hhead
    (show (lc "негативно").head? = some 'н' from rfl) (hne_char 'н' (by decide))
  have b6 := list_beq_false_of_head hhead
    (show (lc "норма").head? = some 'н' from rfl) (hne_char 'н' (by decide))
  have hs1 : stratSci ((i0 :: is) ++ '.' :: (F ++ lc " г/л (130,00 - 160,00)")) =
      none := by
    unfold stratSci
    rw [show searchSci ((i0 :: is) ++ '.' :: (F ++ lc " г/л (130,00 - 160,00)")) =
        none from by unfold searchSci; exact refeed_sci hI hF]
  have hs2 : stratComplex ((i0 :: is) ++ '.' :: (F ++ lc " г/л (130,00 - 160,00)")) =
      none := by
    unfold stratComplex
    rw [show searchComplex ((i0 :: is) ++ '.' :: (F ++ lc " г/л (130,00 - 160,00)")) =
        none from by unfold searchComplex; exact refeed_complex hI hF]
  have hs3 : stratDecimal ((i0 :: is) ++ '.' :: (F ++ lc " г/л (130,00 - 160,00)")) =
      some (v, lc "г/л", ⟨8, 1⟩) := by
    unfold stratDecimal
    rw [show searchDecimal ((i0 :: is) ++ '.' :: (F ++ lc " г/л (130,00 - 160,00)")) =
        some (i0 :: is, F, lc "г/л") from by
      unfold searchDecimal
      exact searchWith_eval _ (by simp) (refeed_decimal hI hF (by simp) hFne)]
    simp only [hv, (show cleanUnit (stripL (lc "г/л")) = lc "г/л" by decide)]
  simp only [parseValueAndUnit, hvp0, hlow, hcont, Bool.false_eq_true, if_false,
    hne_obn, b1, b2, b3, b4, b5, b6, hpred, hs1, hs2, hs3]

theorem refeed_rr {I F : Str}
    (hI : ∀ c ∈ I, isDigitC c = true) (hF : ∀ c ∈ F, isDigitC c = true) :
    extractReferenceRange (I ++ '.' :: (F ++ lc " г/л (130,00 - 160,00)")) =
      lc "130,00 - 160,00" := by
  have h1 : searchParenNorma (I ++ '.' :: (F ++ lc " г/л (130,00 - 160,00)")) =
      none := by
    unfold searchParenNorma
    exact refeed_parenNorma hI hF
  have h2 : searchAltNorma (I ++ '.' :: (F ++ lc " г/л (130,00 - 160,00)")) =
      none := by
    unfold searchAltNorma
    exact refeed_altNorma hI hF
  have h3 : searchParenDigits (I ++ '.' :: (F ++ lc " г/л (130,00 - 160,00)")) =
      some (lc "130,00 - 160,00") := by
    unfold searchParenDigits
    exact refeed_parenDigits hI hF
  have h4 : hasBareRange (lc "130,00 - 160,00") = true := by decide
  simp only [extractReferenceRange, h1, h2, h3, h4, if_true]
  decide

theorem hemoglobin_refeed {I F : Str} {v : Dec}
    (hI : ∀ c ∈ I, isDigitC c = true) (hF : ∀ c ∈ F, isDigitC c = true)
    (hIne : I ≠ []) (hFne : F ≠ [])
    (hv : parsePyFloat (I ++ '.' :: F) = some v)
    (hsusp : isSuspiciousValue v (lc "г/л") = false) :
    extractMetricsFromText (String.mk (lc "hemoglobin: " ++
        (I ++ '.' :: (F ++ lc " г/л (130,00 - 160,00)")))) =
      [[("name", PyVal.vs (lc "hemoglobin")), ("value", PyVal.vf v),
        ("unit", PyVal.vs (lc "г/л")),
        ("reference_range", PyVal.vs (lc "130,00 - 160,00")),
        ("status", PyVal.vs (determineStatus v (lc "130,00 - 160,00"))),
        ("confidence", PyVal.vf ⟨8, 1⟩),
        ("original_line", PyVal.vs (lc "hemoglobin: " ++
          (I ++ '.' :: (F ++ lc " г/л (130,00 - 160,00)"))))]] := by
  rcases I with _ | ⟨i0, is⟩
  · exact absurd rfl hIne
  have hnl : ∀ c ∈ lc "hemoglobin: " ++
      ((i0 :: is) ++ '.' :: (F ++ lc " г/л (130,00 - 160,00)")),
      (c == Char.ofNat 10) = false := by
    intro c hc
    rcases List.mem_append.mp hc with h | h
    · have hall : ∀ d ∈ lc "hemoglobin: ", (d == Char.ofNat 10) = false := by decide
      exact hall c h
    · rcases refeed_chars hI hF c h with hd | hd | hd
      · exact digit_ne_char hd (by decide)
      · rw [hd]; decide
      · have hall : ∀ d ∈ lc " г/л (130,00 - 160,00)", (d == Char.ofNat 10) = false := by
          decide
        exact hall c hd
  unfold extractMetricsFromText
  rw [show (String.mk (lc "hemoglobin: " ++
      ((i0 :: is) ++ '.' :: (F ++ lc " г/л (130,00 - 160,00)")))).toList =
      lc "hemoglobin: " ++
        ((i0 :: is) ++ '.' :: (F ++ lc " г/л (130,00 - 160,00)")) from rfl]
  rw [splitOnC_no_sep hnl]
  rw [show extractLoop [lc "hemoglobin: " ++
      ((i0 :: is) ++ '.' :: (F ++ lc " г/л (130,00 - 160,00)"))] =
      perLineMetric (lc "hemoglobin: " ++
        ((i0 :: is) ++ '.' :: (F ++ lc " г/л (130,00 - 160,00)"))) ++
        extractLoop [] from rfl]
  rw [show extractLoop ([] : List Str) = ([] : List PyDict) from rfl]
  rw [List.append_nil]
  have hcolon : containsS [':'] (lc "hemoglobin: " ++
      ((i0 :: is) ++ '.' :: (F ++ lc " г/л (130,00 - 160,00)"))) = true := rfl
  have hfci : firstColonIdx (lc "hemoglobin: " ++
      ((i0 :: is) ++ '.' :: (F ++ lc " г/л (130,00 - 160,00)"))) = some 10 := rfl
  have hnm : stripL (List.take 10 (lc "hemoglobin: " ++
      ((i0 :: is) ++ '.' :: (F ++ lc " г/л (130,00 - 160,00)")))) =
      lc "hemoglobin" := by
    rw [show List.take 10 (lc "hemoglobin: " ++
        ((i0 :: is) ++ '.' :: (F ++ lc " г/л (130,00 - 160,00)"))) =
        lc "hemoglobin" from rfl]
    decide
  have hdropstrip : stripL (List.drop (10 + 1) (lc "hemoglobin: " ++
      ((i0 :: is) ++ '.' :: (F ++ lc " г/л (130,00 - 160,00)")))) =
      (i0 :: is) ++ '.' :: (F ++ lc " г/л (130,00 - 160,00)") := by
    rw [show List.drop (10 + 1) (lc "hemoglobin: " ++
        ((i0 :: is) ++ '.' :: (F ++ lc " г/л (130,00 - 160,00)"))) =
        ' ' :: ((i0 :: is) ++ '.' :: (F ++ lc " г/л (130,00 - 160,00)")) from rfl]
    rw [show stripL (' ' :: ((i0 :: is) ++ '.' :: (F ++ lc " г/л (130,00 - 160,00)"))) =
        stripL ((i0 :: is) ++ '.' :: (F ++ lc " г/л (130,00 - 160,00)")) from by
      unfold stripL
      rw [List.dropWhile_cons_of_pos (by decide)]]
    exact refeed_strip hI (by simp)
  have hbe : (((i0 :: is) ++ '.' :: (F ++ lc " г/л (130,00 - 160,00)")) ==
      ([] : Str)) = false := rfl
  have hvalid := refeed_valid hI hF (by simp : (i0 :: is) ≠ []) hFne
  have hparse := refeed_parse hI hF (by simp : (i0 :: is) ≠ []) hFne hv
  have hrr := refeed_rr hI hF
  have hnorm : normalizeMetricName (lc "hemoglobin") = lc "hemoglobin" := by decide
  have hstrL : stripL (lc "hemoglobin: " ++
      ((i0 :: is) ++ '.' :: (F ++ lc " г/л (130,00 - 160,00)"))) =
      lc "hemoglobin: " ++
        ((i0 :: is) ++ '.' :: (F ++ lc " г/л (130,00 - 160,00)")) := by
    apply stripL_eq_self_of_ends
    · intro c hc
      injection hc with hc
      rw [← hc]
      decide
    · intro c hc
      rw [List.getLast?_append_of_ne_nil (lc "hemoglobin: ") (by simp)] at hc
      rw [refeed_last] at hc
      injection hc with hc
      rw [← hc]
      decide
  simp only [perLineMetric, hcolon, Bool.not_true, Bool.false_eq_true, if_false,
    hfci, hdropstrip, hbe, hvalid, hparse, hsusp, hrr, hnm, hnorm, hstrL]

/-- C10, amended.  The round trip preserves the canonical name, the
value, the unit and the reference range, and hence the status, when the
range has the two-bound dashed shape the extractor can re-read: for
every decimal value — universally in its digit strings — re-feeding the
canonical hemoglobin record line reproduces a single record with name
hemoglobin, the same value, unit and range, and the status recomputed
from that same value and range, exactly as for the original record;
concrete instances re-extract the engine-produced hemoglobin record
end to end.  Ranges carrying only a comparator bound collapse to Not
specified on re-extraction and their status may change, as the
counterexample shows. -/
theorem claim10_roundtrip :
    (∀ (I F : Str) (v : Dec),
      (∀ c ∈ I, isDigitC c = true) → (∀ c ∈ F, isDigitC c = true) →
      I ≠ [] → F ≠ [] →
      parsePyFloat (I ++ '.' :: F) = some v →
      isSuspiciousValue v (lc "г/л") = false →
      extractMetricsFromText (String.mk (lc "hemoglobin: " ++
          (I ++ '.' :: (F ++ lc " г/л (130,00 - 160,00)")))) =
        [[("name", PyVal.vs (lc "hemoglobin")), ("value", PyVal.vf v),
          ("unit", PyVal.vs (lc "г/л")),
          ("reference_range", PyVal.vs (lc "130,00 - 160,00")),
          ("status", PyVal.vs (determineStatus v (lc "130,00 - 160,00"))),
          ("confidence", PyVal.vf ⟨8, 1⟩),
          ("original_line", PyVal.vs (lc "hemoglobin: " ++
            (I ++ '.' :: (F ++ lc " г/л (130,00 - 160,00)"))))]]) ∧
    extractMetricsFromText "HGB: 163.00 г/л (норма: 130,00 - 160,00)" =
      [[("name", PyVal.vs (lc "hemoglobin")), ("value", PyVal.vf ⟨163, 0⟩),
        ("unit", PyVal.vs (lc "г/л")), ("reference_range", PyVal.vs (lc "130,00 - 160,00")),
        ("status", PyVal.vs (lc "high")), ("confidence", PyVal.vf ⟨8, 1⟩),
        ("original_line", PyVal.vs (lc "HGB: 163.00 г/л (норма: 130,00 - 160,00)"))]] ∧
    extractMetricsFromText "hemoglobin: 163.0 г/л (130,00 - 160,00)" =
      [[("name", PyVal.vs (lc "hemoglobin")), ("value", PyVal.vf ⟨163, 0⟩),
        ("unit", PyVal.vs (lc "г/л")), ("reference_range", PyVal.vs (lc "130,00 - 160,00")),
        ("status", PyVal.vs (lc "high")), ("confidence", PyVal.vf ⟨8, 1⟩),
        ("original_line", PyVal.vs (lc "hemoglobin: 163.0 г/л (130,00 - 160,00)"))]] := by
  refine ⟨fun I F v h1 h2 h3 h4 h5 h6 => hemoglobin_refeed h1 h2 h3 h4 h5 h6,
    by decide, by decide⟩

/-- Witness for C10: the universal round-trip clause applied at the
value one-six-three point zero, every hypothesis discharged by
computation. -/
theorem claim10_witness :
    extractMetricsFromText (String.mk (lc "hemoglobin: " ++
        (lc "163" ++ '.' :: (lc "0" ++ lc " г/л (130,00 - 160,00)")))) =
      [[("name", PyVal.vs (lc "hemoglobin")), ("value", PyVal.vf ⟨163, 0⟩),
        ("unit", PyVal.vs (lc "г/л")),
        ("reference_range", PyVal.vs (lc "130,00 - 160,00")),
        ("status", PyVal.vs (determineStatus ⟨163, 0⟩ (lc "130,00 - 160,00"))),
        ("confidence", PyVal.vf ⟨8, 1⟩),
        ("original_line", PyVal.vs (lc "hemoglobin: " ++
          (lc "163" ++ '.' :: (lc "0" ++ lc " г/л (130,00 - 160,00)"))))]] :=
  claim10_roundtrip.1 (lc "163") (lc "0") ⟨163, 0⟩ (by decide) (by decide)
    (by decide) (by decide) (by decide) (by decide)

end HealthOCR
